import Mathlib

/-!
# Framing codec and device bridge of `nerves-networking/qmi`

A shallow embedding of `src/eframer.c` (the length-prefixed port codec) and
`c_src/dev_bridge.c` (the device bridge built on it), followed by theorems
about the embedding.

Conventions of the embedding

* A byte buffer is a flat memory `Mem` addressed from the start of its
  allocation; the allocation sizes are the ones recorded in `eframer_config`.
* `size_t` arithmetic that can wrap is written with `size_add` / `size_sub`
  (modulo `2 ^ 64`); `uint16_t` and `uint8_t` conversions are `% 65536` and
  `% 256`.
* System calls take their result from the environment: the result of a
  `read` is an argument of the function that issues it, the results of
  `write` calls are taken from a script stored in the `World`; when a script
  is used up the descriptor accepts everything it is offered.
* `exit`, `err` and `errx` end the run: a function returns a `Step`, which is
  either a normal return or the termination of the process with a status.
-/

namespace Qmi

/-! ## Machine arithmetic -/

/-- Number of values of a `size_t` (LP64). -/
def SIZE_MOD : Nat := 2 ^ 64

/-- Addition of two `size_t` values. -/
def size_add (a b : Nat) : Nat := (a + b) % SIZE_MOD

/-- Subtraction of two `size_t` values (wraps below zero). -/
def size_sub (a b : Nat) : Nat := (a % SIZE_MOD + (SIZE_MOD - b % SIZE_MOD)) % SIZE_MOD

/-- Width of the length header, `sizeof(uint16_t)`. -/
def HEADER_SIZE : Nat := 2

def EXIT_SUCCESS : Nat := 0
def EXIT_FAILURE : Nat := 1

/-! ## Error numbers (`errno-base.h`) -/

def EPERM : Int := 1
def ENOENT : Int := 2
def ESRCH : Int := 3
def EINTR : Int := 4
def EIO : Int := 5
def ENXIO : Int := 6
def E2BIG : Int := 7
def ENOEXEC : Int := 8
def EBADF : Int := 9
def ECHILD : Int := 10
def EAGAIN : Int := 11
def ENOMEM : Int := 12
def EACCES : Int := 13
def EFAULT : Int := 14
def ENOTBLK : Int := 15
def EBUSY : Int := 16
def EEXIST : Int := 17
def EXDEV : Int := 18
def ENODEV : Int := 19
def ENOTDIR : Int := 20
def EISDIR : Int := 21
def EINVAL : Int := 22
def ENFILE : Int := 23
def EMFILE : Int := 24
def ENOTTY : Int := 25
def ETXTBSY : Int := 26
def EFBIG : Int := 27
def ENOSPC : Int := 28
def ESPIPE : Int := 29
def EROFS : Int := 30
def EMLINK : Int := 31
def EPIPE : Int := 32
def EDOM : Int := 33
def ERANGE : Int := 34

/-! ## Memory -/

/-- Flat byte memory, addressed from the start of an allocation. -/
abbrev Mem := Nat → Nat

/-- The `len` bytes of `m` starting at `off`. -/
def mem_read (m : Mem) (off len : Nat) : List Nat :=
  (List.range len).map (fun i => m (off + i))

/-- Store the bytes `src` at `off` (`memcpy(m + off, src, |src|)`). -/
def mem_write (m : Mem) (off : Nat) (src : List Nat) : Mem :=
  fun a => if off ≤ a ∧ a < off + src.length then src.getD (a - off) 0 else m a

/-- Copy within one buffer, `memmove(m + dst, m + src, n)`. -/
def mem_move (m : Mem) (dst src n : Nat) : Mem :=
  fun a => if dst ≤ a ∧ a < dst + n then m (src + (a - dst)) else m a

/-- The memory seen through the pointer `m + off`. -/
def mem_at (m : Mem) (off : Nat) : Mem := fun i => m (off + i)

/-! ## State -/

/-- Result of a system call that returns a count: `ok n` or `-1` with `errno`. -/
inductive SysRet where
  | ok (n : Nat)
  | err (errno : Int)
  deriving DecidableEq, Repr

/-- Result of a `read`: the bytes delivered, or `-1` with `errno`. -/
inductive ReadResult where
  | data (bytes : List Nat)
  | error (errno : Int)
  deriving DecidableEq, Repr

/-- The sizes of `struct eframer_config`; the handler is passed to the
functions that need it. -/
structure eframer_config where
  max_rx_message_size : Nat
  max_tx_message_size : Nat
  deriving DecidableEq, Repr

/-- The fields of `struct eframer`. -/
structure eframer where
  rx : Mem
  tx : Mem
  index : Nat
  config : eframer_config

/-- The process: the framer, the globals of the bridge, and the environment
(what was written to the two descriptors and what later writes will return).
`calls` records every invocation of the message handler, payload and length. -/
structure World where
  framer : eframer
  max_rx_message : Nat
  max_tx_message : Nat
  stdout : List Nat
  stdout_script : List SysRet
  dev_writes : List (List Nat)
  dev_script : List SysRet
  calls : List (List Nat × Nat)

/-- Outcome of running a piece of the program: a return to the caller, the end
of the process with an exit status, or `nofuel` when the bound given to the
dispatch loop is used up (`eframer_process_ends`: it never is). -/
inductive Step (α : Type) where
  | ret (a : α)
  | exit (status : Nat) (w : World)
  | nofuel

/-- A message handler: payload pointer, length, and the process it runs in. -/
abbrev Handler := Mem → Nat → World → Step World

/-- The world a run ended in, if it ended. -/
def Step.world : Step World → Option World
  | .ret w => some w
  | .exit _ w => some w
  | .nofuel => none

/-- The exit status, when the process terminated. -/
def Step.status {α : Type} : Step α → Option Nat
  | .exit s _ => some s
  | _ => none

/-! ## eframer.c -/

/-- The function `eframer_init`: fresh buffers (contents `rx0`, `tx0` as
allocated), cursor at zero. -/
def eframer_init (rx0 tx0 : Mem) (config : eframer_config) : eframer :=
  { rx := rx0, tx := tx0, index := 0, config := config }

/-- The function `eframer_tx_buffer`: the transmit region starts after the header. -/
def eframer_tx_buffer (ef : eframer) : Mem := mem_at ef.tx HEADER_SIZE

/-- Store `src` in the transmit region at `off`, that is at `tx + 2 + off`. -/
def tx_store (w : World) (off : Nat) (src : List Nat) : World :=
  { w with framer := { w.framer with tx := mem_write w.framer.tx (HEADER_SIZE + off) src } }

/-- The two bytes `htons` stores for a length: the value as `uint16_t`, high byte first. -/
def htons_bytes (payload_len : Nat) : List Nat :=
  [(payload_len % 65536) / 256, (payload_len % 65536) % 256]

/-- The value `ntohs` reads from two bytes. -/
def ntohs_bytes (b0 b1 : Nat) : Nat := (b0 % 256) * 256 + b1 % 256

/-- The `do ... while (wrote < len)` loop of `eframer_send`; one element of the
script is the result of one `write` call. -/
def eframer_send_loop (len : Nat) : List SysRet → Nat → World → Step World
  | [], wrote, w =>
    -- the descriptor takes all of the `len - wrote` bytes offered
    .ret { w with stdout := w.stdout ++ mem_read w.framer.tx wrote (len - wrote),
                  stdout_script := [] }
  | .err e :: rest, wrote, w =>
    if e = EINTR then
      -- `continue` jumps to the loop condition
      if wrote < len then eframer_send_loop len rest wrote { w with stdout_script := rest }
      else .ret { w with stdout_script := rest }
    else .exit EXIT_FAILURE { w with stdout_script := rest }
  | .ok n :: rest, wrote, w =>
    let amount_written := min n (len - wrote)
    let w1 := { w with stdout := w.stdout ++ mem_read w.framer.tx wrote amount_written,
                       stdout_script := rest }
    let wrote1 := wrote + amount_written
    if wrote1 < len then eframer_send_loop len rest wrote1 w1 else .ret w1

/-- The function `eframer_send`. -/
def eframer_send (w : World) (payload_len : Nat) : Step World :=
  let w1 := { w with framer := { w.framer with tx := mem_write w.framer.tx 0 (htons_bytes payload_len) } }
  let len := size_add HEADER_SIZE payload_len
  eframer_send_loop len w1.stdout_script 0 w1

/-- The function `eframer_try_dispatch`: returns the number of bytes processed. -/
def eframer_try_dispatch (h : Handler) (w : World) : Step (World × Nat) :=
  if w.framer.index < HEADER_SIZE then .ret (w, 0)
  else
    let payload_len := ntohs_bytes (w.framer.rx 0) (w.framer.rx 1)
    let message_len := HEADER_SIZE + payload_len
    if message_len > w.framer.config.max_rx_message_size then .exit EXIT_FAILURE w
    else if message_len ≤ w.framer.index then
      let w1 := { w with calls := w.calls ++ [(mem_read w.framer.rx HEADER_SIZE payload_len, payload_len)] }
      match h (mem_at w.framer.rx HEADER_SIZE) payload_len w1 with
      | .ret w2 => .ret (w2, message_len)
      | .exit s w2 => .exit s w2
      | .nofuel => .nofuel
    else .ret (w, 0)

/-- The `for (;;)` loop of `eframer_process`. -/
def eframer_drain (h : Handler) : Nat → World → Step World
  | 0, _ => .nofuel
  | fuel + 1, w =>
    match eframer_try_dispatch h w with
    | .ret (w1, bytes_processed) =>
      if bytes_processed = 0 then .ret w1
      else if w1.framer.index > bytes_processed then
        eframer_drain h fuel
          { w1 with framer := { w1.framer with
              rx := mem_move w1.framer.rx 0 bytes_processed (w1.framer.index - bytes_processed),
              index := w1.framer.index - bytes_processed } }
      else .ret { w1 with framer := { w1.framer with index := 0 } }
    | .exit s w1 => .exit s w1
    | .nofuel => .nofuel

/-- The function `eframer_process`; `r` is what the `read` on the inbound channel
returns, of which at most the requested count is taken. -/
def eframer_process (h : Handler) (w : World) (r : ReadResult) : Step World :=
  let count := size_sub w.framer.config.max_rx_message_size w.framer.index
  match r with
  | .error e => if e = EINTR then .ret w else .exit EXIT_FAILURE w
  | .data bytes =>
    let got := bytes.take count
    if got.length = 0 then .exit EXIT_SUCCESS w
    else
      let w1 := { w with framer := { w.framer with
                    rx := mem_write w.framer.rx w.framer.index got,
                    index := w.framer.index + got.length } }
      eframer_drain h (w1.framer.index + 1) w1

/-- Successive `eframer_process` calls, one per result of the inbound `read`. -/
def eframer_feed (h : Handler) : List ReadResult → World → Step World
  | [], w => .ret w
  | r :: rs, w =>
    match eframer_process h w r with
    | .ret w1 => eframer_feed h rs w1
    | .exit s w1 => .exit s w1
    | .nofuel => .nofuel

/-! ## dev_bridge.c -/

def CMD_WRITE : Nat := 1
def CMD_IOCTL : Nat := 2
def CMD_POSITION : Nat := 3

def NOTIF_RESPONSE : Nat := 0
def NOTIF_DATA : Nat := 1
def NOTIF_ERROR : Nat := 2

def MESSAGE_OVERHEAD : Nat := 256

/-- The function `errnum_to_posix`. -/
def errnum_to_posix (errnum : Int) : String :=
  if errnum = EPERM then "eperm"
  else if errnum = ENOENT then "enoent"
  else if errnum = ESRCH then "esrch"
  else if errnum = EINTR then "eintr"
  else if errnum = EIO then "eio"
  else if errnum = ENXIO then "enxio"
  else if errnum = E2BIG then "e2big"
  else if errnum = ENOEXEC then "enoexec"
  else if errnum = EBADF then "ebadf"
  else if errnum = ECHILD then "echild"
  else if errnum = EAGAIN then "eagain"
  else if errnum = ENOMEM then "enomem"
  else if errnum = EACCES then "eacces"
  else if errnum = EFAULT then "efault"
  else if errnum = ENOTBLK then "enotblk"
  else if errnum = EBUSY then "ebusy"
  else if errnum = EEXIST then "eexist"
  else if errnum = EXDEV then "exdev"
  else if errnum = ENODEV then "enodev"
  else if errnum = ENOTDIR then "enotdir"
  else if errnum = EISDIR then "eisdir"
  else if errnum = EINVAL then "einval"
  else if errnum = ENFILE then "enfile"
  else if errnum = EMFILE then "emfile"
  else if errnum = ENOTTY then "enotty"
  else if errnum = ETXTBSY then "etxtbsy"
  else if errnum = EFBIG then "efbig"
  else if errnum = ENOSPC then "enospc"
  else if errnum = ESPIPE then "espipe"
  else if errnum = EROFS then "erofs"
  else if errnum = EMLINK then "emlink"
  else if errnum = EPIPE then "epipe"
  else if errnum = EDOM then "edom"
  else if errnum = ERANGE then "erange"
  else "ebadmsg"

/-- The bytes of a C string, without the terminator. -/
def str_bytes (s : String) : List Nat := s.toList.map Char.toNat

/-- The function `report_failure`. -/
def report_failure (w : World) (errnum : Int) : Step World :=
  let reason := str_bytes (errnum_to_posix errnum)
  let len := reason.length
  let w1 := tx_store w 0 [NOTIF_ERROR]
  let w2 := tx_store w1 1 reason
  match eframer_send w2 (len + 1) with
  | .ret w3 => .exit EXIT_FAILURE w3
  | .exit s w3 => .exit s w3
  | .nofuel => .nofuel

/-- The function `handle_device_ready`; `r` is what the `read` on the device
returns, of which at most `max_rx_message` bytes are taken. -/
def handle_device_ready (w : World) (r : ReadResult) : Step World :=
  let w1 := tx_store w 0 [NOTIF_DATA]
  match r with
  | .data bytes =>
    let got := bytes.take w.max_rx_message
    let w2 := tx_store w1 1 got
    eframer_send w2 (got.length + 1)
  | .error e =>
    if e ≠ EINTR then
      match report_failure w1 e with
      | .ret w2 => eframer_send w2 0
      | .exit s w2 => .exit s w2
      | .nofuel => .nofuel
    else
      -- `amt` is -1, so `amt + 1` is 0
      eframer_send w1 0

/-- The `write(dev_fd, payload, payload_len)` of the request handler: the call is
logged and its result is the next one of the device script, a count being at
most the count offered. -/
def dev_write (w : World) (payload : List Nat) : SysRet × World :=
  match w.dev_script with
  | [] => (.ok payload.length, { w with dev_writes := w.dev_writes ++ [payload] })
  | .ok n :: rest =>
    (.ok (min n payload.length), { w with dev_writes := w.dev_writes ++ [payload], dev_script := rest })
  | .err e :: rest =>
    (.err e, { w with dev_writes := w.dev_writes ++ [payload], dev_script := rest })

/-- The reply of `request_handler` to a `CMD_WRITE`, from `if (rc < 0)` on: `rc`
is the outcome of the write, `response_len` the bytes already in the response. -/
def request_reply (w3 : World) (response_len : Nat) (rc : SysRet) : Step World :=
  match rc with
  | .err e =>
    let w4 := tx_store w3 response_len [0xff]
    let w5 := tx_store w4 (response_len + 1) [0xff]
    let reason := str_bytes (errnum_to_posix e)
    let errno_len := reason.length
    let w6 := tx_store w5 (response_len + 2) reason
    eframer_send w6 (response_len + 2 + errno_len)
  | .ok n =>
    let w4 := tx_store w3 response_len [(n / 256) % 256]
    let w5 := tx_store w4 (response_len + 1) [n % 256]
    eframer_send w5 (response_len + 2)

/-- The function `request_handler`. -/
def request_handler (request : Mem) (len : Nat) (w : World) : Step World :=
  let cmd := request 0 % 256
  let from_len := request 1 % 256
  let payload_len := size_sub (size_sub len from_len) 2
  let w1 := tx_store w 0 [NOTIF_RESPONSE]
  let w2 := tx_store w1 1 (mem_read request 1 (from_len + 1))
  let response_len := from_len + 2
  if cmd = CMD_WRITE then
    if payload_len ≤ w.max_tx_message then
      let r := dev_write w2 (mem_read request (2 + from_len) payload_len)
      request_reply r.2 response_len r.1
    else
      -- `rc = -1`, `errno = E2BIG`
      request_reply w2 response_len (SysRet.err E2BIG)
  else .ret w2

/-- The sizes `main` gives the framer: what is received from the port is what
goes to the device, and the other way round, plus `MESSAGE_OVERHEAD`. -/
def main_config (max_rx_message max_tx_message : Nat) : eframer_config :=
  { max_rx_message_size := size_add max_tx_message MESSAGE_OVERHEAD,
    max_tx_message_size := size_add max_rx_message MESSAGE_OVERHEAD }

def O_RDONLY : Nat := 0
def O_WRONLY : Nat := 1
def O_RDWR : Nat := 2

/-- The `open(argv[1], oflag)` of `main` and the check of its result. -/
def open_device (w : World) (_oflag : Nat) (open_result : SysRet) : Step World :=
  match open_result with
  | .ok _ => .ret w
  | .err e => report_failure w e

/-- The function `main` up to its event loop: `max_rx`, `max_tx` are the parsed
arguments, `open_result` is what `open` returns for the device. -/
def main_startup (w : World) (max_rx max_tx : Nat) (open_result : SysRet) : Step World :=
  let w1 := { w with
    max_rx_message := max_rx,
    max_tx_message := max_tx,
    framer := eframer_init w.framer.rx w.framer.tx (main_config max_rx max_tx) }
  if max_tx > 0 ∧ max_rx > 0 then open_device w1 O_RDWR open_result
  else if max_rx > 0 then open_device w1 O_RDONLY open_result
  else if max_tx > 0 then open_device w1 O_WRONLY open_result
  else
    match report_failure w1 EINVAL with
    | .ret w2 => open_device w2 0 open_result
    | .exit s w2 => .exit s w2
    | .nofuel => .nofuel

/-! ## Concrete processes used as instances -/

/-- A handler that does nothing and returns. -/
def idle_handler : Handler := fun _ _ w => Step.ret w

/-- A process with zeroed buffers, the given framer sizes and device limits, and
nothing written or scripted yet. -/
def fresh_world (max_rx_size max_tx_size max_rx max_tx : Nat) : World :=
  { framer := eframer_init (fun _ => 0) (fun _ => 0)
      { max_rx_message_size := max_rx_size, max_tx_message_size := max_tx_size },
    max_rx_message := max_rx,
    max_tx_message := max_tx,
    stdout := [],
    stdout_script := [],
    dev_writes := [],
    dev_script := [],
    calls := [] }

/-- A request buffer holding `CMD_WRITE`, the one-byte token `42` and the data `7, 8`. -/
def sample_request : Mem := mem_write (fun _ => 0) 0 [1, 1, 42, 7, 8]

/-- A bridge process as `main` configures it for `max_rx = max_tx = 4`. -/
def sample_bridge : World := fresh_world 260 260 4 4

/-- A device read of 65535 bytes. -/
def big_read : List Nat := List.replicate 65535 0

/-- A bridge process as `main` configures it for `max_rx = 65535`, `max_tx = 4`. -/
def big_bridge : World := fresh_world 260 65791 65535 4

/-- A payload of 65536 bytes, one more than a 16-bit length can declare. -/
def big_payload : List Nat := 255 :: 255 :: List.replicate 65534 0

/-- A sender whose transmit region holds `big_payload`. -/
def big_sender : World :=
  tx_store (fresh_world 16 65536 0 0) 0 big_payload

/-- A receiver with room for `big_payload` and its header. -/
def big_receiver : World := fresh_world 65538 16 0 0

/-! ## Predicates used in the statements -/

/-- No `write` of the script fails with anything but `EINTR`. -/
def healthy (script : List SysRet) : Prop :=
  ∀ e, SysRet.err e ∈ script → e = EINTR

/-- The handler ends, and leaves the receive side of the framer and the
record of handler calls alone. -/
structure KeepsReceiveSide (h : Handler) : Prop where
  ends : ∀ d l w, h d l w ≠ Step.nofuel
  rx : ∀ d l w w1, (h d l w).world = some w1 → w1.framer.rx = w.framer.rx
  index : ∀ d l w w1, (h d l w).world = some w1 → w1.framer.index = w.framer.index
  config : ∀ d l w w1, (h d l w).world = some w1 → w1.framer.config = w.framer.config
  calls : ∀ d l w w1, (h d l w).world = some w1 → w1.calls = w.calls

/-- The receive side of the framer and the record of handler calls are the same
in `w1` as in `w`. -/
def same_receive_side (w w1 : World) : Prop :=
  w1.framer.rx = w.framer.rx ∧ w1.framer.index = w.framer.index ∧
    w1.framer.config = w.framer.config ∧ w1.calls = w.calls

/-- While `I` holds of the process the handler returns to its caller (it does
not end the process) and `I` holds again; `I` does not depend on the receive
side of the framer or on the record of handler calls. -/
structure ReturnsWhile (I : World → Prop) (h : Handler) : Prop where
  returns : ∀ d l w, I w → ∃ w1, h d l w = Step.ret w1 ∧ I w1
  stable : ∀ w rx index calls, I w →
    I { w with framer := { w.framer with rx := rx, index := index }, calls := calls }

/-- The outbound channel takes what is written to it: no `write` of its script
fails with anything but `EINTR`. -/
def outbound_healthy (w : World) : Prop := healthy w.stdout_script

/-- The bytes of a frame on the wire: two length bytes, then the payload. -/
def frame_bytes (payload : List Nat) : List Nat :=
  [payload.length / 256, payload.length % 256] ++ payload

/-- The wire bytes of a list of frames. -/
def frames_bytes (frames : List (List Nat)) : List Nat :=
  (frames.map frame_bytes).flatten

/-- The first `n` bytes of the transmit region (what `eframer_send w n` frames). -/
def tx_region (w : World) (n : Nat) : List Nat := mem_read w.framer.tx HEADER_SIZE n

/-- A payload the receiver can take: its length fits the 16-bit length field and
the frame fits `max_rx_message_size`. -/
def valid_payload (cfg : eframer_config) (P : List Nat) : Prop :=
  P.length < 65536 ∧ HEADER_SIZE + P.length ≤ cfg.max_rx_message_size

/-- The bytes buffered on the receive side, `rx[0 .. index)`. -/
def buffered (w : World) : List Nat := mem_read w.framer.rx 0 w.framer.index

/-- The length field declared by the first two bytes of `l`. -/
def declared_len (l : List Nat) : Nat := ntohs_bytes (l.getD 0 0) (l.getD 1 0)

/-- Bytes that do not yet hold a whole frame, and whose frame (if its header is
there) is not too long. -/
def incomplete (cfg : eframer_config) (l : List Nat) : Prop :=
  l.length < HEADER_SIZE ∨
    (HEADER_SIZE + declared_len l ≤ cfg.max_rx_message_size ∧
      l.length < HEADER_SIZE + declared_len l)

/-- The memory `request` holds a `CMD_WRITE` request of `len` bytes, a frame
payload (so `len` is a 16-bit length), with token `T` and data `data`. -/
structure WriteRequest (request : Mem) (len : Nat) (T data : List Nat) : Prop where
  cmd : request 0 = CMD_WRITE
  token_length : request 1 = T.length
  token_byte : T.length ≤ 255
  token_bytes : mem_read request 2 T.length = T
  data_bytes : mem_read request (2 + T.length) data.length = data
  len_eq : len = 2 + T.length + data.length
  len_16 : len ≤ 65535

/-- The device takes all `n` bytes of the next write. -/
def accepts_all (script : List SysRet) (n : Nat) : Prop :=
  script = [] ∨ ∃ m rest, script = SysRet.ok m :: rest ∧ n ≤ m

/-- The 34 error numbers `errnum_to_posix` names, each with its name. -/
def posix_table : List (Int × String) :=
  [(EPERM, "eperm"), (ENOENT, "enoent"), (ESRCH, "esrch"), (EINTR, "eintr"), ( EIO, "eio"),
   ( ENXIO, "enxio"), (E2BIG, "e2big"), (ENOEXEC, "enoexec"), (EBADF, "ebadf"),
   (ECHILD, "echild"), (EAGAIN, "eagain"), (ENOMEM, "enomem"), (EACCES, "eacces"),
   (EFAULT, "efault"), (ENOTBLK, "enotblk"), (EBUSY, "ebusy"), (EEXIST, "eexist"),
   (EXDEV, "exdev"), (ENODEV, "enodev"), (ENOTDIR, "enotdir"), (EISDIR, "eisdir"),
   (EINVAL, "einval"), (ENFILE, "enfile"), (EMFILE, "emfile"), (ENOTTY, "enotty"),
   (ETXTBSY, "etxtbsy"), (EFBIG, "efbig"), (ENOSPC, "enospc"), (ESPIPE, "espipe"),
   (EROFS, "erofs"), (EMLINK, "emlink"), (EPIPE, "epipe"), (EDOM, "edom"),
   (ERANGE, "erange")]

/-- A lowercase letter or a digit, as a byte. -/
def lower_or_digit (b : Nat) : Prop := (97 ≤ b ∧ b ≤ 122) ∨ (48 ≤ b ∧ b ≤ 57)

instance lower_or_digit_decidable : DecidablePred lower_or_digit := fun b => by
  unfold lower_or_digit
  infer_instance

/-- A request buffer holding the reserved tag `CMD_IOCTL`, then a token byte count of 1. -/
def ioctl_request : Mem := mem_write (fun _ => 0) 0 [2, 1, 42, 7, 8]

/-- Every `write` of the script is interrupted (`EINTR`) or writes at least one byte. -/
def interrupted_or_progress (script : List SysRet) : Prop :=
  ∀ r ∈ script, r = SysRet.err EINTR ∨ ∃ n, r = SysRet.ok n ∧ 1 ≤ n

/-- The number of `write` calls of the script that were not interrupted. -/
def completed_writes : List SysRet → Nat
  | [] => 0
  | .ok _ :: rest => completed_writes rest + 1
  | .err _ :: rest => completed_writes rest

/-- The byte count reached from `wrote` by the writes of the script, when none of
them fails and each takes at most what is left of the `len` bytes. -/
def wrote_after (len : Nat) : List SysRet → Nat → Nat
  | [], wrote => wrote
  | .err _ :: rest, wrote => wrote_after len rest wrote
  | .ok n :: rest, wrote => wrote_after len rest (wrote + min n (len - wrote))

/-- A sender whose transmit region holds `7, 8` and whose next three `write` calls
are interrupted, write one byte, and write one byte. -/
def stuttering_sender : World :=
  { tx_store (fresh_world 16 16 0 0) 0 [7, 8] with
    stdout_script := [SysRet.err EINTR, SysRet.ok 1, SysRet.ok 1] }

/-- The outcome of the write a `CMD_WRITE` request asks for: the result of
`write(dev_fd, ...)`, or `-1` with `E2BIG` for data longer than `max_tx_message`. -/
def write_outcome (w : World) (data : List Nat) : SysRet :=
  if data.length ≤ w.max_tx_message then (dev_write w data).1 else SysRet.err E2BIG

/-- The bytes `request_reply` puts after the echoed token: the count in two bytes,
or `0xFF 0xFF` and the error name. -/
def reply_status : SysRet → List Nat
  | .ok n => [(n / 256) % 256, n % 256]
  | .err e => [0xff, 0xff] ++ str_bytes (errnum_to_posix e)

/-- A token of 255 bytes, the longest a token-length byte can announce. -/
def long_token : List Nat := List.replicate 255 7

/-- A request buffer holding `CMD_WRITE`, the 255-byte token and no data. -/
def long_token_request : Mem := mem_write (fun _ => 0) 0 ([1, 255] ++ long_token)

/-- A bridge process as `main` configures it for `max_rx = 0`, `max_tx = 4` (the
device is opened write-only). -/
def write_only_bridge : World :=
  fresh_world (main_config 0 4).max_rx_message_size (main_config 0 4).max_tx_message_size 0 4

/-- A request buffer holding `CMD_WRITE` and a token length of 9, in a frame of 2 bytes. -/
def short_request : Mem := mem_write (fun _ => 0) 0 [1, 9]

/-- The value of two bytes read as a big-endian 16-bit number. -/
def be16 (b0 b1 : Nat) : Nat := b0 * 256 + b1

/-- The reading of a byte stream given in the specification: the payloads of the
longest run of complete frames (two big-endian length bytes, then that many
payload bytes) at the start of the stream, and the bytes left after them. -/
def spec_split : Nat → List Nat → List (List Nat) × List Nat
  | fuel + 1, b0 :: b1 :: rest =>
    if rest.length < be16 b0 b1 then ([], b0 :: b1 :: rest)
    else
      ((rest.take (be16 b0 b1)) :: (spec_split fuel (rest.drop (be16 b0 b1))).1,
        (spec_split fuel (rest.drop (be16 b0 b1))).2)
  | _, l => ([], l)

/-- The payloads of the complete frames at the start of a stream. -/
def spec_payloads (s : List Nat) : List (List Nat) := (spec_split s.length s).1

/-- The incomplete tail of a stream, after its complete frames. -/
def spec_tail (s : List Nat) : List Nat := (spec_split s.length s).2

/-- No frame of the stream, complete or begun, is longer than `max_rx_message_size`. -/
def no_oversize (cfg : eframer_config) (s : List Nat) : Prop :=
  (∀ P ∈ spec_payloads s, HEADER_SIZE + P.length ≤ cfg.max_rx_message_size) ∧
  (HEADER_SIZE ≤ (spec_tail s).length →
    HEADER_SIZE + be16 ((spec_tail s).getD 0 0) ((spec_tail s).getD 1 0) ≤
      cfg.max_rx_message_size)

/-- Every chunk is non-empty and no larger than the free space
`max_rx_message_size - index` at the `eframer_process` call that reads it. -/
def fits_free_space (h : Handler) : List (List Nat) → World → Bool
  | [], _ => true
  | c :: cs, w =>
    !c.isEmpty && decide (c.length ≤ w.framer.config.max_rx_message_size - w.framer.index) &&
      (match eframer_process h w (ReadResult.data c) with
        | .ret w1 => fits_free_space h cs w1
        | .exit _ _ => true
        | .nofuel => true)

/-! ## Memory lemmas -/

@[simp] theorem mem_read_length (m : Mem) (off len : Nat) :
    (mem_read m off len).length = len := by
  simp [mem_read]

@[simp] theorem mem_read_zero (m : Mem) (off : Nat) : mem_read m off 0 = [] := by
  simp [mem_read]

theorem mem_read_getElem (m : Mem) (off len i : Nat) (hi : i < (mem_read m off len).length) :
    (mem_read m off len)[i] = m (off + i) := by
  simp [mem_read]

theorem mem_read_congr {m1 m2 : Mem} {o1 o2 len : Nat}
    (hm : ∀ i, i < len → m1 (o1 + i) = m2 (o2 + i)) :
    mem_read m1 o1 len = mem_read m2 o2 len := by
  unfold mem_read
  apply List.map_congr_left
  intro i hi
  exact hm i (List.mem_range.mp hi)

theorem mem_read_add (m : Mem) (off a b : Nat) :
    mem_read m off (a + b) = mem_read m off a ++ mem_read m (off + a) b := by
  apply List.ext_getElem
  · simp
  · intro i h1 h2
    rw [mem_read_getElem]
    by_cases hia : i < a
    · rw [List.getElem_append_left (by simpa using hia), mem_read_getElem]
    · rw [List.getElem_append_right (by simpa using hia), mem_read_getElem]
      simp only [mem_read_length]
      congr 1
      omega

theorem mem_read_eq_iff (m : Mem) (off : Nat) (l : List Nat) :
    mem_read m off l.length = l ↔ ∀ i (hi : i < l.length), m (off + i) = l[i] := by
  constructor
  · intro h i hi
    have hi2 : i < (mem_read m off l.length).length := by simpa using hi
    have h1 : (mem_read m off l.length)[i] = m (off + i) := mem_read_getElem m off _ i hi2
    rw [← h1]
    simp only [h]
  · intro h
    apply List.ext_getElem
    · simp
    · intro i h1 h2
      rw [mem_read_getElem]
      exact h i h2

theorem mem_write_inside (m : Mem) (off : Nat) (src : List Nat) (i : Nat) (hi : i < src.length) :
    mem_write m off src (off + i) = src[i] := by
  unfold mem_write
  have hc : off ≤ off + i ∧ off + i < off + src.length := ⟨by omega, by omega⟩
  rw [if_pos hc]
  have : off + i - off = i := by omega
  rw [this, List.getD_eq_getElem _ _ hi]

theorem mem_write_outside (m : Mem) (off : Nat) (src : List Nat) (a : Nat)
    (ha : a < off ∨ off + src.length ≤ a) : mem_write m off src a = m a := by
  unfold mem_write
  have hc : ¬ (off ≤ a ∧ a < off + src.length) := by omega
  rw [if_neg hc]

theorem mem_read_write_same (m : Mem) (off : Nat) (src : List Nat) :
    mem_read (mem_write m off src) off src.length = src := by
  rw [mem_read_eq_iff]
  intro i hi
  exact mem_write_inside m off src i hi

theorem mem_read_write_before (m : Mem) (off : Nat) (src : List Nat) (o len : Nat)
    (h : o + len ≤ off) : mem_read (mem_write m off src) o len = mem_read m o len := by
  apply mem_read_congr
  intro i hi
  exact mem_write_outside m off src (o + i) (Or.inl (by omega))

theorem mem_read_write_after (m : Mem) (off : Nat) (src : List Nat) (o len : Nat)
    (h : off + src.length ≤ o) : mem_read (mem_write m off src) o len = mem_read m o len := by
  apply mem_read_congr
  intro i hi
  exact mem_write_outside m off src (o + i) (Or.inr (by omega))

theorem mem_read_move_front (m : Mem) (src n : Nat) :
    mem_read (mem_move m 0 src n) 0 n = mem_read m src n := by
  apply mem_read_congr
  intro i hi
  unfold mem_move
  have hc : 0 ≤ 0 + i ∧ 0 + i < 0 + n := ⟨by omega, by omega⟩
  rw [if_pos hc]
  congr 1
  omega

theorem mem_read_at (m : Mem) (off o len : Nat) :
    mem_read (mem_at m off) o len = mem_read m (off + o) len := by
  apply mem_read_congr
  intro i _
  simp [mem_at, Nat.add_assoc]

theorem mem_read_take (m : Mem) (off a b : Nat) (h : a ≤ b) :
    (mem_read m off b).take a = mem_read m off a := by
  obtain ⟨c, rfl⟩ := Nat.exists_eq_add_of_le h
  rw [mem_read_add, List.take_left' (by simp)]

theorem mem_read_drop (m : Mem) (off a b : Nat) (h : a ≤ b) :
    (mem_read m off b).drop a = mem_read m (off + a) (b - a) := by
  obtain ⟨c, rfl⟩ := Nat.exists_eq_add_of_le h
  rw [mem_read_add, List.drop_left' (by simp)]
  congr 1
  omega

/-! ## Sending -/

theorem healthy_nil : healthy [] := by
  intro e he
  simp at he

theorem healthy_tail {r : SysRet} {rest : List SysRet} (h : healthy (r :: rest)) :
    healthy rest := by
  intro e he
  exact h e (List.mem_cons_of_mem _ he)

theorem size_add_small {a b : Nat} (h : a + b < SIZE_MOD) : size_add a b = a + b := by
  unfold size_add
  exact Nat.mod_eq_of_lt h

theorem size_sub_small {a b : Nat} (ha : a < SIZE_MOD) (hb : b ≤ a) : size_sub a b = a - b := by
  unfold size_sub
  have hb2 : b < SIZE_MOD := by omega
  rw [Nat.mod_eq_of_lt ha, Nat.mod_eq_of_lt hb2]
  have : a + (SIZE_MOD - b) = (a - b) + SIZE_MOD := by omega
  rw [this, Nat.add_mod_right]
  exact Nat.mod_eq_of_lt (by omega)

/-- With a healthy script the write loop returns, having appended exactly the
bytes `wrote .. len` of the transmit buffer to the output. -/
theorem eframer_send_loop_healthy (len : Nat) (script : List SysRet) (hs : healthy script) :
    ∀ (wrote : Nat) (w : World), wrote ≤ len →
      ∃ rest, eframer_send_loop len script wrote w =
        Step.ret { w with stdout := w.stdout ++ mem_read w.framer.tx wrote (len - wrote),
                          stdout_script := rest } := by
  induction script with
  | nil =>
    intro wrote w _
    exact ⟨[], rfl⟩
  | cons r rest ih =>
    intro wrote w hw
    have ih1 := ih (healthy_tail hs)
    cases r with
    | err e =>
      have he : e = EINTR := hs e (List.mem_cons_self _ _)
      subst he
      by_cases hlt : wrote < len
      · obtain ⟨rest1, h1⟩ := ih1 wrote { w with stdout_script := rest } hw
        refine ⟨rest1, ?_⟩
        simp only [eframer_send_loop, if_true, if_pos hlt, h1]
      · refine ⟨rest, ?_⟩
        have hz : len - wrote = 0 := by omega
        simp only [eframer_send_loop, if_true, if_neg hlt, hz, mem_read_zero, List.append_nil]
    | ok n =>
      by_cases hlt : wrote + min n (len - wrote) < len
      · obtain ⟨rest1, h1⟩ := ih1 (wrote + min n (len - wrote))
          { w with stdout := w.stdout ++ mem_read w.framer.tx wrote (min n (len - wrote)),
                   stdout_script := rest } (by omega)
        refine ⟨rest1, ?_⟩
        simp only [eframer_send_loop, if_pos hlt, h1]
        have hsplit : len - wrote = min n (len - wrote) + (len - (wrote + min n (len - wrote))) := by
          omega
        conv_rhs => rw [hsplit, mem_read_add]
        simp only [List.append_assoc]
      · refine ⟨rest, ?_⟩
        have hm : min n (len - wrote) = len - wrote := by omega
        simp only [eframer_send_loop, if_neg hlt]
        rw [hm]

/-- With a healthy script `eframer_send` returns, having written the length
header into the transmit buffer and the whole frame to the output. -/
theorem eframer_send_healthy (w : World) (n : Nat) (hs : healthy w.stdout_script)
    (hn : HEADER_SIZE + n < SIZE_MOD) :
    ∃ rest, eframer_send w n =
      Step.ret { w with
        framer := { w.framer with tx := mem_write w.framer.tx 0 (htons_bytes n) },
        stdout := w.stdout ++ (htons_bytes n ++ mem_read w.framer.tx HEADER_SIZE n),
        stdout_script := rest } := by
  obtain ⟨rest, h1⟩ := eframer_send_loop_healthy (size_add HEADER_SIZE n) w.stdout_script hs 0
    { w with framer := { w.framer with tx := mem_write w.framer.tx 0 (htons_bytes n) } }
    (Nat.zero_le _)
  refine ⟨rest, ?_⟩
  unfold eframer_send
  simp only [h1]
  rw [size_add_small hn, Nat.sub_zero]
  have hh : mem_read (mem_write w.framer.tx 0 (htons_bytes n)) 0 HEADER_SIZE = htons_bytes n :=
    mem_read_write_same w.framer.tx 0 (htons_bytes n)
  have ht : mem_read (mem_write w.framer.tx 0 (htons_bytes n)) (0 + HEADER_SIZE) n =
      mem_read w.framer.tx HEADER_SIZE n := by
    rw [Nat.zero_add]
    exact mem_read_write_after _ _ _ _ _ (by simp [htons_bytes, HEADER_SIZE])
  rw [mem_read_add, hh, ht]

/-! ## Receiving -/

@[simp] theorem buffered_length (w : World) : (buffered w).length = w.framer.index := by
  simp [buffered]

theorem buffered_getD (w : World) (i : Nat) (hi : i < w.framer.index) :
    (buffered w).getD i 0 = w.framer.rx i := by
  have hi2 : i < (buffered w).length := by simpa using hi
  rw [List.getD_eq_getElem _ _ hi2]
  unfold buffered
  rw [mem_read_getElem, Nat.zero_add]

theorem declared_len_buffered (w : World) (hi : HEADER_SIZE ≤ w.framer.index) :
    declared_len (buffered w) = ntohs_bytes (w.framer.rx 0) (w.framer.rx 1) := by
  unfold declared_len
  unfold HEADER_SIZE at hi
  rw [buffered_getD w 0 (by omega), buffered_getD w 1 (by omega)]

theorem declared_len_frame (P rest : List Nat) (hP : P.length < 65536) :
    declared_len (frame_bytes P ++ rest) = P.length := by
  simp only [declared_len, frame_bytes, ntohs_bytes, List.cons_append, List.nil_append,
    List.getD_cons_zero, List.getD_cons_succ]
  omega

/-- Nothing is dispatched from an incomplete buffer. -/
theorem eframer_try_dispatch_incomplete (h : Handler) (w : World)
    (hinc : incomplete w.framer.config (buffered w)) :
    eframer_try_dispatch h w = Step.ret (w, 0) := by
  unfold eframer_try_dispatch
  by_cases hlt : w.framer.index < HEADER_SIZE
  · rw [if_pos hlt]
  · rw [if_neg hlt]
    rcases hinc with h1 | ⟨h1, h2⟩
    · rw [buffered_length] at h1
      exact absurd h1 hlt
    · rw [declared_len_buffered w (by omega)] at h1 h2
      rw [buffered_length] at h2
      simp only
      rw [if_neg (by omega), if_neg (by omega)]

/-- The loop stops at once on an incomplete buffer. -/
theorem eframer_drain_incomplete (h : Handler) (fuel : Nat) (w : World)
    (hinc : incomplete w.framer.config (buffered w)) :
    eframer_drain h (fuel + 1) w = Step.ret w := by
  simp only [eframer_drain, eframer_try_dispatch_incomplete h w hinc, if_true]

/-- A whole frame at the front of the buffer is handed to the handler. -/
theorem eframer_try_dispatch_frame (h : Handler) (w : World) (P rest : List Nat)
    (hv : valid_payload w.framer.config P) (hb : buffered w = frame_bytes P ++ rest) :
    eframer_try_dispatch h w =
      match h (mem_at w.framer.rx HEADER_SIZE) P.length
          { w with calls := w.calls ++ [(P, P.length)] } with
      | .ret w2 => .ret (w2, HEADER_SIZE + P.length)
      | .exit s w2 => .exit s w2
      | .nofuel => .nofuel := by
  have hlen : w.framer.index = HEADER_SIZE + P.length + rest.length := by
    rw [← buffered_length, hb]
    simp [frame_bytes, HEADER_SIZE]
    omega
  have hd : ntohs_bytes (w.framer.rx 0) (w.framer.rx 1) = P.length := by
    rw [← declared_len_buffered w (by omega), hb]
    exact declared_len_frame P rest hv.1
  have hp : mem_read w.framer.rx HEADER_SIZE P.length = P := by
    have h1 : (buffered w).drop HEADER_SIZE = P ++ rest := by
      rw [hb]
      simp [frame_bytes, HEADER_SIZE]
    unfold buffered at h1
    rw [mem_read_drop _ _ _ _ (by omega), Nat.zero_add] at h1
    have h2 := congrArg (List.take P.length) h1
    rw [mem_read_take _ _ _ _ (by omega), List.take_left' rfl] at h2
    exact h2
  unfold eframer_try_dispatch
  rw [if_neg (by omega)]
  simp only [hd, hp]
  rw [if_neg (by have := hv.2; omega), if_pos (by omega)]

@[simp] theorem frames_bytes_nil : frames_bytes [] = [] := rfl

@[simp] theorem frames_bytes_cons (P : List Nat) (fs : List (List Nat)) :
    frames_bytes (P :: fs) = frame_bytes P ++ frames_bytes fs := rfl

@[simp] theorem frame_bytes_length (P : List Nat) :
    (frame_bytes P).length = HEADER_SIZE + P.length := by
  simp [frame_bytes, HEADER_SIZE]
  omega

theorem frames_bytes_length_ge (frames : List (List Nat)) :
    frames.length ≤ (frames_bytes frames).length := by
  induction frames with
  | nil => simp
  | cons P fs ih =>
    simp only [frames_bytes_cons, List.length_append, frame_bytes_length, List.length_cons,
      HEADER_SIZE]
    omega

/-- The loop of `eframer_process` on a buffer that holds whole frames followed
by an incomplete tail, with a handler that returns while `I` holds: every
frame is dispatched, in order, the tail is left at the front of the buffer,
and `I` holds at the end. -/
theorem eframer_drain_frames (h : Handler) (hk : KeepsReceiveSide h) (I : World → Prop)
    (hr : ReturnsWhile I h) :
    ∀ (frames : List (List Nat)) (w : World) (tail : List Nat) (fuel : Nat),
      (∀ P ∈ frames, valid_payload w.framer.config P) →
      incomplete w.framer.config tail →
      buffered w = frames_bytes frames ++ tail →
      frames.length < fuel →
      I w →
      ∃ w1, eframer_drain h fuel w = Step.ret w1 ∧
        w1.calls = w.calls ++ frames.map (fun P => (P, P.length)) ∧
        buffered w1 = tail ∧ w1.framer.config = w.framer.config ∧ I w1 := by
  intro frames
  induction frames with
  | nil =>
    intro w tail fuel _ hinc hb hfuel hI
    obtain ⟨f, rfl⟩ : ∃ f, fuel = f + 1 := ⟨fuel - 1, by simp at hfuel; omega⟩
    refine ⟨w, ?_, by simp, by simpa using hb, rfl, hI⟩
    apply eframer_drain_incomplete
    rw [hb]
    simpa using hinc
  | cons P fs ih =>
    intro w tail fuel hv hinc hb hfuel hI
    obtain ⟨f, rfl⟩ : ∃ f, fuel = f + 1 := ⟨fuel - 1, by simp at hfuel; omega⟩
    have hvP : valid_payload w.framer.config P := hv P (List.mem_cons_self _ _)
    have hb1 : buffered w = frame_bytes P ++ (frames_bytes fs ++ tail) := by
      rw [hb, frames_bytes_cons, List.append_assoc]
    have hidx : w.framer.index = HEADER_SIZE + P.length + (frames_bytes fs ++ tail).length := by
      rw [← buffered_length, hb1, List.length_append, frame_bytes_length]
    have hIc : I { w with calls := w.calls ++ [(P, P.length)] } :=
      hr.stable w w.framer.rx w.framer.index (w.calls ++ [(P, P.length)]) hI
    obtain ⟨w2, hw2, hI2⟩ := hr.returns (mem_at w.framer.rx HEADER_SIZE) P.length
      { w with calls := w.calls ++ [(P, P.length)] } hIc
    have hworld : (h (mem_at w.framer.rx HEADER_SIZE) P.length
        { w with calls := w.calls ++ [(P, P.length)] }).world = some w2 := by
      rw [hw2]; rfl
    have hrx := hk.rx _ _ _ _ hworld
    have hix := hk.index _ _ _ _ hworld
    have hcf := hk.config _ _ _ _ hworld
    have hcl := hk.calls _ _ _ _ hworld
    simp only at hrx hix hcf hcl
    have hd : eframer_try_dispatch h w = Step.ret (w2, HEADER_SIZE + P.length) := by
      rw [eframer_try_dispatch_frame h w P _ hvP hb1, hw2]
    have hne : HEADER_SIZE + P.length ≠ 0 := by simp [HEADER_SIZE]
    by_cases hmore : w2.framer.index > HEADER_SIZE + P.length
    · -- more bytes follow: compact and go round again
      have hstep : eframer_drain h (f + 1) w = eframer_drain h f
          { w2 with framer := { w2.framer with
              rx := mem_move w2.framer.rx 0 (HEADER_SIZE + P.length)
                (w2.framer.index - (HEADER_SIZE + P.length)),
              index := w2.framer.index - (HEADER_SIZE + P.length) } } := by
        simp only [eframer_drain, hd, if_neg hne, if_pos hmore]
      have hb3 : buffered
          { w2 with framer := { w2.framer with
              rx := mem_move w2.framer.rx 0 (HEADER_SIZE + P.length)
                (w2.framer.index - (HEADER_SIZE + P.length)),
              index := w2.framer.index - (HEADER_SIZE + P.length) } } =
          frames_bytes fs ++ tail := by
        unfold buffered
        simp only
        rw [mem_read_move_front, hrx, hix]
        have h3 : (buffered w).drop (HEADER_SIZE + P.length) = frames_bytes fs ++ tail := by
          rw [hb1]
          exact List.drop_left' (frame_bytes_length P)
        unfold buffered at h3
        rw [mem_read_drop _ _ _ _ (by omega), Nat.zero_add] at h3
        exact h3
      obtain ⟨w1, h1, h2, h3, h4, h5⟩ := ih _ tail f
        (by
          intro Q hQ
          simp only
          rw [hcf]
          exact hv Q (List.mem_cons_of_mem _ hQ))
        (by simp only; rw [hcf]; exact hinc) hb3 (by simp at hfuel; omega)
        (hr.stable w2 _ _ w2.calls hI2)
      refine ⟨w1, by rw [hstep, h1], ?_, h3, ?_, h5⟩
      · rw [h2]
        simp only
        rw [hcl]
        simp
      · rw [h4]
        simp only
        exact hcf
    · -- the buffer is used up
      have hrest : (frames_bytes fs ++ tail) = [] := by
        apply List.eq_nil_of_length_eq_zero
        rw [hix] at hmore
        omega
      have hfs : frames_bytes fs = [] := (List.append_eq_nil.mp hrest).1
      have htl : tail = [] := (List.append_eq_nil.mp hrest).2
      have hfs2 : fs = [] := by
        have := frames_bytes_length_ge fs
        rw [hfs] at this
        exact List.eq_nil_of_length_eq_zero (by simpa using this)
      refine ⟨{ w2 with framer := { w2.framer with index := 0 } }, ?_, ?_, ?_, ?_,
        hr.stable w2 w2.framer.rx 0 w2.calls hI2⟩
      · simp only [eframer_drain, hd, if_neg hne, if_neg hmore]
      · simp only
        rw [hcl, hfs2]
        simp
      · rw [htl]
        simp [buffered]
      · simp only
        exact hcf

/-- The dispatch loop ends whenever its bound exceeds the buffered-byte count:
every round that goes on has consumed at least the two header bytes. -/
theorem eframer_drain_ends (h : Handler) (hk : KeepsReceiveSide h) :
    ∀ (fuel : Nat) (w : World), w.framer.index < fuel →
      eframer_drain h fuel w ≠ Step.nofuel := by
  intro fuel
  induction fuel with
  | zero =>
    intro w hw
    exact absurd hw (Nat.not_lt_zero _)
  | succ f ih =>
    intro w hw
    unfold eframer_drain eframer_try_dispatch
    by_cases h1 : w.framer.index < HEADER_SIZE
    · simp [h1]
    · simp only [h1, if_false]
      by_cases h2 : HEADER_SIZE + ntohs_bytes (w.framer.rx 0) (w.framer.rx 1) >
          w.framer.config.max_rx_message_size
      · simp [h2]
      · simp only [h2, if_false]
        by_cases h3 : HEADER_SIZE + ntohs_bytes (w.framer.rx 0) (w.framer.rx 1) ≤ w.framer.index
        · simp only [h3, if_true]
          cases hh : h (mem_at w.framer.rx HEADER_SIZE)
              (ntohs_bytes (w.framer.rx 0) (w.framer.rx 1))
              { w with calls := w.calls ++
                [(mem_read w.framer.rx HEADER_SIZE (ntohs_bytes (w.framer.rx 0) (w.framer.rx 1)),
                  ntohs_bytes (w.framer.rx 0) (w.framer.rx 1))] } with
          | ret w2 =>
            have hix := hk.index _ _ _ w2 (by rw [hh]; rfl)
            simp only at hix
            simp only
            have hne : HEADER_SIZE + ntohs_bytes (w.framer.rx 0) (w.framer.rx 1) ≠ 0 := by
              simp [HEADER_SIZE]
            rw [if_neg hne]
            split_ifs with h4
            · apply ih
              simp only
              unfold HEADER_SIZE at *
              omega
            · simp
          | exit st w2 => simp
          | nofuel => exact absurd hh (hk.ends _ _ _)
        · simp [h3]

/-- The function `eframer_process` ends, for every state and every result of
the `read`, when the handler does. -/
theorem eframer_process_ends (h : Handler) (hk : KeepsReceiveSide h) (w : World)
    (r : ReadResult) : eframer_process h w r ≠ Step.nofuel := by
  unfold eframer_process
  cases r with
  | error e =>
    simp only
    split_ifs <;> simp
  | data bytes =>
    simp only
    split_ifs
    · simp
    · apply eframer_drain_ends h hk
      simp

/-- A `read` that delivers a non-empty chunk fitting the free space appends it
to the buffered bytes and enters the dispatch loop. -/
theorem eframer_process_data (h : Handler) (w : World) (c : List Nat)
    (hmax : w.framer.config.max_rx_message_size < SIZE_MOD) (hc : c ≠ [])
    (hfit : w.framer.index + c.length ≤ w.framer.config.max_rx_message_size) :
    eframer_process h w (ReadResult.data c) =
      eframer_drain h (w.framer.index + c.length + 1)
        { w with framer := { w.framer with
            rx := mem_write w.framer.rx w.framer.index c,
            index := w.framer.index + c.length } } := by
  have hcount : size_sub w.framer.config.max_rx_message_size w.framer.index =
      w.framer.config.max_rx_message_size - w.framer.index :=
    size_sub_small hmax (by omega)
  have htake : c.take (w.framer.config.max_rx_message_size - w.framer.index) = c :=
    List.take_of_length_le (by omega)
  have hlen : c.length ≠ 0 := by
    intro h0
    exact hc (List.eq_nil_of_length_eq_zero h0)
  unfold eframer_process
  simp only [hcount, htake, if_neg hlen]

theorem buffered_after_read (w : World) (c : List Nat) :
    buffered { w with framer := { w.framer with
        rx := mem_write w.framer.rx w.framer.index c,
        index := w.framer.index + c.length } } = buffered w ++ c := by
  unfold buffered
  simp only
  rw [mem_read_add, mem_read_write_before _ _ _ _ _ (by omega), Nat.zero_add,
    mem_read_write_same]

theorem declared_len_append (l r : List Nat) (hl : HEADER_SIZE ≤ l.length) :
    declared_len (l ++ r) = declared_len l := by
  unfold HEADER_SIZE at hl
  unfold declared_len
  rw [List.getD_append l r 0 0 (by omega), List.getD_append l r 0 1 (by omega)]

/-- A proper prefix of a valid frame is incomplete. -/
theorem incomplete_of_proper_part (cfg : eframer_config) (P l r : List Nat)
    (hv : valid_payload cfg P) (hlr : l ++ r = frame_bytes P)
    (hlt : l.length < (frame_bytes P).length) : incomplete cfg l := by
  by_cases h2 : l.length < HEADER_SIZE
  · exact Or.inl h2
  · right
    have hd : declared_len l = P.length := by
      rw [← declared_len_append l r (by omega), hlr]
      have := declared_len_frame P [] hv.1
      simpa using this
    rw [hd]
    rw [frame_bytes_length] at hlt
    exact ⟨hv.2, hlt⟩

/-- The loop of `eframer_process` on a buffer holding exactly one frame: the
handler is invoked once with the payload, whether or not it returns. -/
theorem eframer_drain_one (h : Handler) (hk : KeepsReceiveSide h) (fuel : Nat) (w : World)
    (P : List Nat) (hv : valid_payload w.framer.config P) (hb : buffered w = frame_bytes P) :
    ∃ w1, (eframer_drain h (fuel + 1) w).world = some w1 ∧
      w1.calls = w.calls ++ [(P, P.length)] ∧
      ((∃ w2, h (mem_at w.framer.rx HEADER_SIZE) P.length
          { w with calls := w.calls ++ [(P, P.length)] } = Step.ret w2) →
        eframer_drain h (fuel + 1) w = Step.ret w1 ∧ w1.framer.index = 0) := by
  have hb1 : buffered w = frame_bytes P ++ [] := by simpa using hb
  have hidx : w.framer.index = HEADER_SIZE + P.length := by
    rw [← buffered_length, hb, frame_bytes_length]
  have hd := eframer_try_dispatch_frame h w P [] hv hb1
  have hne : HEADER_SIZE + P.length ≠ 0 := by simp [HEADER_SIZE]
  cases hh : h (mem_at w.framer.rx HEADER_SIZE) P.length
      { w with calls := w.calls ++ [(P, P.length)] } with
  | ret w2 =>
    have hworld : (h (mem_at w.framer.rx HEADER_SIZE) P.length
        { w with calls := w.calls ++ [(P, P.length)] }).world = some w2 := by
      rw [hh]; rfl
    have hix := hk.index _ _ _ _ hworld
    have hcl := hk.calls _ _ _ _ hworld
    simp only at hix hcl
    rw [hh] at hd
    have hnm : ¬ w2.framer.index > HEADER_SIZE + P.length := by omega
    have hres : eframer_drain h (fuel + 1) w =
        Step.ret { w2 with framer := { w2.framer with index := 0 } } := by
      simp only [eframer_drain, hd, if_neg hne, if_neg hnm]
    refine ⟨{ w2 with framer := { w2.framer with index := 0 } }, by rw [hres]; rfl, hcl, ?_⟩
    intro _
    exact ⟨hres, rfl⟩
  | exit st w2 =>
    have hworld : (h (mem_at w.framer.rx HEADER_SIZE) P.length
        { w with calls := w.calls ++ [(P, P.length)] }).world = some w2 := by
      rw [hh]; rfl
    have hcl := hk.calls _ _ _ _ hworld
    simp only at hcl
    rw [hh] at hd
    have hres : eframer_drain h (fuel + 1) w = Step.exit st w2 := by
      simp only [eframer_drain, hd]
    refine ⟨w2, by rw [hres]; rfl, hcl, ?_⟩
    rintro ⟨w3, h3⟩
    cases h3
  | nofuel => exact absurd hh (hk.ends _ _ _)

theorem eframer_feed_nil (h : Handler) (w : World) : eframer_feed h [] w = Step.ret w := rfl

theorem eframer_feed_cons_ret (h : Handler) (r : ReadResult) (rs : List ReadResult)
    (w w1 : World) (hp : eframer_process h w r = Step.ret w1) :
    eframer_feed h (r :: rs) w = eframer_feed h rs w1 := by
  simp only [eframer_feed, hp]

theorem eframer_feed_cons_exit (h : Handler) (r : ReadResult) (rs : List ReadResult)
    (w w1 : World) (st : Nat) (hp : eframer_process h w r = Step.exit st w1) :
    eframer_feed h (r :: rs) w = Step.exit st w1 := by
  simp only [eframer_feed, hp]

/-- One frame delivered in non-empty chunks reaches the handler exactly once. -/
theorem eframer_feed_single_frame (h : Handler) (hk : KeepsReceiveSide h) (P : List Nat) :
    ∀ (chunks : List (List Nat)) (w : World),
      valid_payload w.framer.config P →
      w.framer.config.max_rx_message_size < SIZE_MOD →
      (∀ c ∈ chunks, c ≠ []) →
      buffered w ++ chunks.flatten = frame_bytes P →
      (buffered w).length < (frame_bytes P).length →
      ∃ w1, (eframer_feed h (chunks.map ReadResult.data) w).world = some w1 ∧
        w1.calls = w.calls ++ [(P, P.length)] := by
  intro chunks
  induction chunks with
  | nil =>
    intro w _ _ _ hb hlt
    simp only [List.flatten_nil, List.append_nil] at hb
    rw [hb] at hlt
    exact absurd hlt (Nat.lt_irrefl _)
  | cons c cs ih =>
    intro w hv hmax hne hb hlt
    have hc : c ≠ [] := hne c (List.mem_cons_self _ _)
    have hcs : ∀ c1 ∈ cs, c1 ≠ [] := fun c1 h1 => hne c1 (List.mem_cons_of_mem _ h1)
    have hb2 : (buffered w ++ c) ++ cs.flatten = frame_bytes P := by
      rw [List.append_assoc]
      simpa using hb
    have hlen := congrArg List.length hb2
    simp only [List.length_append, buffered_length, frame_bytes_length] at hlen
    have hfit : w.framer.index + c.length ≤ w.framer.config.max_rx_message_size := by
      have := hv.2
      omega
    have hproc := eframer_process_data h w c hmax hc hfit
    have hbuf := buffered_after_read w c
    by_cases hdone : (buffered w ++ c).length < (frame_bytes P).length
    · -- the frame is still incomplete
      have hinc : incomplete w.framer.config (buffered w ++ c) :=
        incomplete_of_proper_part _ P _ _ hv hb2 hdone
      have hdr := eframer_drain_incomplete h (w.framer.index + c.length)
        { w with framer := { w.framer with
            rx := mem_write w.framer.rx w.framer.index c,
            index := w.framer.index + c.length } } (by rw [hbuf]; exact hinc)
      obtain ⟨w1, h1, h2⟩ := ih
        { w with framer := { w.framer with
            rx := mem_write w.framer.rx w.framer.index c,
            index := w.framer.index + c.length } } hv hmax hcs (by rw [hbuf]; exact hb2)
        (by rw [hbuf]; exact hdone)
      refine ⟨w1, ?_, h2⟩
      simp only [List.map_cons, eframer_feed, hproc, hdr]
      exact h1
    · -- this chunk completes the frame
      have hcsnil : cs = [] := by
        have hz : cs.flatten.length = 0 := by
          simp only [List.length_append, buffered_length, frame_bytes_length] at hdone
          omega
        have hf : cs.flatten = [] := List.eq_nil_of_length_eq_zero hz
        cases cs with
        | nil => rfl
        | cons c1 cs1 =>
          have hc1 : c1 ≠ [] := hcs c1 (List.mem_cons_self _ _)
          simp only [List.flatten_cons, List.append_eq_nil] at hf
          exact absurd hf.1 hc1
      subst hcsnil
      have hfull : buffered w ++ c = frame_bytes P := by simpa using hb2
      obtain ⟨w1, h1, h2, _⟩ := eframer_drain_one h hk (w.framer.index + c.length)
        { w with framer := { w.framer with
            rx := mem_write w.framer.rx w.framer.index c,
            index := w.framer.index + c.length } } P hv (by rw [hbuf]; exact hfull)
      refine ⟨w1, ?_, h2⟩
      simp only [List.map_cons, List.map_nil, eframer_feed, hproc]
      cases hres : eframer_drain h (w.framer.index + c.length + 1)
          { w with framer := { w.framer with
              rx := mem_write w.framer.rx w.framer.index c,
              index := w.framer.index + c.length } } with
      | ret w2 =>
        rw [hres] at h1
        simpa [eframer_feed] using h1
      | exit st w2 =>
        rw [hres] at h1
        simpa using h1
      | nofuel =>
        rw [hres] at h1
        simp [Step.world] at h1

theorem idle_handler_keeps : KeepsReceiveSide idle_handler := by
  constructor
  · intro d l w hcon
    cases hcon
  all_goals
    intro d l w w1 hw
    simp only [idle_handler, Step.world, Option.some.injEq] at hw
    rw [← hw]

theorem idle_handler_returns (I : World → Prop)
    (hst : ∀ w rx index calls, I w →
      I { w with framer := { w.framer with rx := rx, index := index }, calls := calls }) :
    ReturnsWhile I idle_handler :=
  ⟨fun _ _ w hI => ⟨w, rfl, hI⟩, hst⟩

theorem htons_bytes_small (P : List Nat) (h : P.length ≤ 65535) :
    htons_bytes P.length ++ P = frame_bytes P := by
  unfold htons_bytes frame_bytes
  rw [Nat.mod_eq_of_lt (by omega)]

/-! ## The codec: round trip, drain, oversize -/

/-- C1, as amended: for every sender whose outbound writes do not fail and every
payload `P` of at most 65535 bytes held in its transmit region, `eframer_send`
returns and emits the two length bytes followed by `P`; for every receiver
with an empty buffer and `|P| + 2 ≤ max_rx_message_size`, every handler that
leaves the receive side alone and every split of the emitted bytes into
non-empty chunks, feeding the chunks to successive `eframer_process` calls
invokes the handler exactly once in total, on `P` with `len = |P|`. -/
theorem round_trip_single_frame (ws wr : World) (P : List Nat) (h : Handler)
    (hscript : healthy ws.stdout_script)
    (htx : mem_read (eframer_tx_buffer ws.framer) 0 P.length = P)
    (h16 : P.length ≤ 65535)
    (hfit : P.length + 2 ≤ wr.framer.config.max_rx_message_size)
    (hsz : wr.framer.config.max_rx_message_size < SIZE_MOD)
    (hempty : wr.framer.index = 0)
    (hk : KeepsReceiveSide h) :
    ∃ ws1, eframer_send ws P.length = Step.ret ws1 ∧
      ws1.stdout = ws.stdout ++ frame_bytes P ∧
      ∀ chunks : List (List Nat), (∀ c ∈ chunks, c ≠ []) →
        chunks.flatten = ws1.stdout.drop ws.stdout.length →
        ∃ wr1, (eframer_feed h (chunks.map ReadResult.data) wr).world = some wr1 ∧
          wr1.calls = wr.calls ++ [(P, P.length)] := by
  have hn : HEADER_SIZE + P.length < SIZE_MOD := by
    unfold HEADER_SIZE SIZE_MOD
    omega
  obtain ⟨rest, hsend⟩ := eframer_send_healthy ws P.length hscript hn
  have htx2 : mem_read ws.framer.tx HEADER_SIZE P.length = P := by
    unfold eframer_tx_buffer at htx
    rw [mem_read_at] at htx
    exact htx
  refine ⟨_, hsend, ?_, ?_⟩
  · simp only
    rw [htx2, htons_bytes_small P h16]
  · intro chunks hne hflat
    simp only at hflat
    rw [htx2, htons_bytes_small P h16, List.drop_left] at hflat
    have hv : valid_payload wr.framer.config P := by
      refine ⟨by omega, ?_⟩
      unfold HEADER_SIZE
      omega
    have hb0 : buffered wr = [] := by
      unfold buffered
      rw [hempty]
      exact mem_read_zero _ _
    apply eframer_feed_single_frame h hk P chunks wr hv hsz hne
    · rw [hb0, List.nil_append, hflat]
    · rw [hb0, frame_bytes_length]
      simp [HEADER_SIZE]

/-- An instance of `round_trip_single_frame`: the payload `[7, 8]`. -/
theorem round_trip_single_frame_witness :
    ∃ ws1, eframer_send (tx_store (fresh_world 16 16 0 0) 0 [7, 8]) [7, 8].length = Step.ret ws1 ∧
      ws1.stdout = (tx_store (fresh_world 16 16 0 0) 0 [7, 8]).stdout ++ frame_bytes [7, 8] ∧
      ∀ chunks : List (List Nat), (∀ c ∈ chunks, c ≠ []) →
        chunks.flatten =
          ws1.stdout.drop (tx_store (fresh_world 16 16 0 0) 0 [7, 8]).stdout.length →
        ∃ wr1, (eframer_feed idle_handler (chunks.map ReadResult.data)
            (fresh_world 16 16 0 0)).world = some wr1 ∧
          wr1.calls = (fresh_world 16 16 0 0).calls ++ [([7, 8], [7, 8].length)] :=
  round_trip_single_frame (tx_store (fresh_world 16 16 0 0) 0 [7, 8]) (fresh_world 16 16 0 0)
    [7, 8] idle_handler healthy_nil (by decide) (by decide) (by decide) (by decide) rfl
    idle_handler_keeps

theorem big_payload_length : big_payload.length = 65536 := by
  unfold big_payload
  rw [List.length_cons, List.length_cons, List.length_replicate]

theorem big_payload_ne_nil : big_payload ≠ [] := by
  unfold big_payload
  exact List.cons_ne_nil _ _

theorem big_payload_declared : declared_len big_payload = 65535 := by
  unfold declared_len big_payload
  rw [List.getD_cons_zero, List.getD_cons_succ, List.getD_cons_zero]
  decide

/-- What the receiver makes of `big_payload` framed by `eframer_send` and
delivered as the header chunk followed by the payload chunk. -/
theorem big_receiver_run :
    ∃ wr1, (eframer_feed idle_handler ([[0, 0], big_payload].map ReadResult.data)
        big_receiver).world = some wr1 ∧ wr1.calls = [([], 0)] := by
  -- first chunk: the two header bytes, which declare an empty payload
  have hmax : big_receiver.framer.config.max_rx_message_size < SIZE_MOD := by decide
  have hp1 := eframer_process_data idle_handler big_receiver [0, 0] hmax (by simp) (by decide)
  have hb1 := buffered_after_read big_receiver [0, 0]
  have hb0 : buffered big_receiver = [] := rfl
  rw [hb0, List.nil_append] at hb1
  obtain ⟨w1, hd1, hc1, hbuf1, hcfg1, _⟩ := eframer_drain_frames idle_handler idle_handler_keeps
    (fun _ => True) (idle_handler_returns _ (fun _ _ _ _ _ => trivial)) [[]]
    { big_receiver with framer := { big_receiver.framer with
        rx := mem_write big_receiver.framer.rx big_receiver.framer.index [0, 0],
        index := big_receiver.framer.index + [0, 0].length } }
    [] (big_receiver.framer.index + [0, 0].length + 1)
    (by
      intro P hP
      simp only [List.mem_singleton] at hP
      subst hP
      exact ⟨by decide, by decide⟩)
    (Or.inl (by decide)) (by rw [hb1]; rfl) (by decide) trivial
  have hcfg1b : w1.framer.config = big_receiver.framer.config := hcfg1
  have hidx1 : w1.framer.index = 0 := by
    rw [← buffered_length, hbuf1]
    rfl
  -- second chunk: the payload, read as the start of another frame
  have hmax1 : w1.framer.config.max_rx_message_size < SIZE_MOD := by
    rw [hcfg1b]
    decide
  have hp2 := eframer_process_data idle_handler w1 big_payload hmax1 big_payload_ne_nil
    (by rw [hidx1, hcfg1b, big_payload_length]; decide)
  have hb2 := buffered_after_read w1 big_payload
  rw [hbuf1, List.nil_append] at hb2
  have hinc : incomplete w1.framer.config big_payload := by
    right
    rw [big_payload_declared, hcfg1b, big_payload_length]
    decide
  have hd2 := eframer_drain_incomplete idle_handler (w1.framer.index + big_payload.length)
    { w1 with framer := { w1.framer with
        rx := mem_write w1.framer.rx w1.framer.index big_payload,
        index := w1.framer.index + big_payload.length } } (by rw [hb2]; exact hinc)
  refine ⟨{ w1 with framer := { w1.framer with
        rx := mem_write w1.framer.rx w1.framer.index big_payload,
        index := w1.framer.index + big_payload.length } }, ?_, ?_⟩
  · rw [List.map_cons, List.map_cons, List.map_nil,
      eframer_feed_cons_ret _ _ _ _ _ (hp1.trans hd1),
      eframer_feed_cons_ret _ _ _ _ _ (hp2.trans hd2), eframer_feed_nil]
    rfl
  · simp only
    rw [hc1]
    rfl

/-- C1 as stated fails: `big_payload` has 65536 bytes and fits the receiver
(`65536 ≤ 65538 - 2`), yet the bytes `eframer_send` emits for it start with the
length bytes `0, 0`, and delivered in two non-empty chunks to the empty
receiver they make `eframer_process` invoke the handler with the empty payload
and never with `big_payload`. -/
theorem round_trip_fails_beyond_16_bits :
    healthy big_sender.stdout_script ∧
    mem_read (eframer_tx_buffer big_sender.framer) 0 big_payload.length = big_payload ∧
    big_payload.length + 2 ≤ big_receiver.framer.config.max_rx_message_size ∧
    big_receiver.framer.config.max_rx_message_size < SIZE_MOD ∧
    big_receiver.framer.index = 0 ∧
    KeepsReceiveSide idle_handler ∧
    ∃ ws1, eframer_send big_sender big_payload.length = Step.ret ws1 ∧
      ∃ chunks : List (List Nat), (∀ c ∈ chunks, c ≠ []) ∧
        chunks.flatten = ws1.stdout.drop big_sender.stdout.length ∧
        ∃ wr1, (eframer_feed idle_handler (chunks.map ReadResult.data)
            big_receiver).world = some wr1 ∧
          wr1.calls = [([], 0)] ∧
          wr1.calls ≠ big_receiver.calls ++ [(big_payload, big_payload.length)] := by
  have htx : mem_read (eframer_tx_buffer big_sender.framer) 0 big_payload.length =
      big_payload := by
    unfold eframer_tx_buffer
    rw [mem_read_at]
    exact mem_read_write_same _ _ _
  have hn : HEADER_SIZE + big_payload.length < SIZE_MOD := by
    rw [big_payload_length]
    decide
  obtain ⟨rest, hsend⟩ := eframer_send_healthy big_sender big_payload.length healthy_nil hn
  obtain ⟨wr1, hrun, hcalls⟩ := big_receiver_run
  refine ⟨healthy_nil, htx, by rw [big_payload_length]; decide, by decide, rfl,
    idle_handler_keeps, _, hsend, [[0, 0], big_payload], ?_, ?_, wr1, hrun, hcalls, ?_⟩
  · intro c hc
    simp only [List.mem_cons, List.mem_singleton, List.not_mem_nil, or_false] at hc
    rcases hc with rfl | rfl
    · exact List.cons_ne_nil _ _
    · exact big_payload_ne_nil
  · have htx2 : mem_read big_sender.framer.tx HEADER_SIZE big_payload.length = big_payload := by
      unfold eframer_tx_buffer at htx
      rw [mem_read_at] at htx
      exact htx
    have hh : htons_bytes big_payload.length = [0, 0] := by
      rw [big_payload_length]
      decide
    simp only
    rw [htx2, hh]
    have : big_sender.stdout = [] := rfl
    rw [this]
    simp only [List.flatten_cons, List.flatten_nil, List.append_nil, List.nil_append,
      List.length_nil, List.drop_zero]
  · rw [hcalls]
    have : big_receiver.calls = [] := rfl
    rw [this]
    intro hcon
    simp only [List.nil_append, List.cons.injEq, Prod.mk.injEq, and_true] at hcon
    exact big_payload_ne_nil hcon.1.symm

/-- The dispatcher ends the process when the buffered header declares a frame
longer than `max_rx_message_size`; the handler is not called. -/
theorem eframer_try_dispatch_oversize (h : Handler) (w : World)
    (h2 : HEADER_SIZE ≤ w.framer.index)
    (hover : w.framer.config.max_rx_message_size < HEADER_SIZE + declared_len (buffered w)) :
    eframer_try_dispatch h w = Step.exit EXIT_FAILURE w := by
  rw [declared_len_buffered w h2] at hover
  unfold eframer_try_dispatch
  rw [if_neg (by omega)]
  simp only
  rw [if_pos hover]

/-- C3: whenever, after a `read` of a non-empty chunk into the free space, at
least two bytes are buffered and the length `L` declared by the first two
satisfies `2 + L > max_rx_message_size`, `eframer_process` terminates the
process with `EXIT_FAILURE` and the handler has not been invoked, however many
bytes of the frame are buffered. -/
theorem oversize_frame_is_fatal (h : Handler) (w : World) (c : List Nat)
    (hsz : w.framer.config.max_rx_message_size < SIZE_MOD)
    (hc : c ≠ [])
    (hfit : w.framer.index + c.length ≤ w.framer.config.max_rx_message_size)
    (h2 : HEADER_SIZE ≤ (buffered w ++ c).length)
    (hover : w.framer.config.max_rx_message_size <
      HEADER_SIZE + declared_len (buffered w ++ c)) :
    ∃ w1, eframer_process h w (ReadResult.data c) = Step.exit EXIT_FAILURE w1 ∧
      buffered w1 = buffered w ++ c ∧
      w1.calls = w.calls ∧
      w1.stdout = w.stdout := by
  have hproc := eframer_process_data h w c hsz hc hfit
  have hbuf := buffered_after_read w c
  have hd := eframer_try_dispatch_oversize h
    { w with framer := { w.framer with
        rx := mem_write w.framer.rx w.framer.index c,
        index := w.framer.index + c.length } }
    (by simpa using h2) (by rw [hbuf]; exact hover)
  refine ⟨_, ?_, hbuf, rfl, rfl⟩
  rw [hproc]
  simp only [eframer_drain, hd]

/-- An instance of `oversize_frame_is_fatal`: the header `0xFF 0xFF` with 16 bytes
of receive capacity. -/
theorem oversize_frame_is_fatal_witness :
    ∃ w1, eframer_process idle_handler (fresh_world 16 16 0 0)
        (ReadResult.data [255, 255, 1]) = Step.exit EXIT_FAILURE w1 ∧
      buffered w1 = buffered (fresh_world 16 16 0 0) ++ [255, 255, 1] ∧
      w1.calls = (fresh_world 16 16 0 0).calls ∧
      w1.stdout = (fresh_world 16 16 0 0).stdout :=
  oversize_frame_is_fatal idle_handler (fresh_world 16 16 0 0) [255, 255, 1] (by decide)
    (by decide) (by decide) (by decide) (by decide)

/-! ## The bridge: replies and notifications -/

@[simp] theorem tx_store_stdout (w : World) (off : Nat) (src : List Nat) :
    (tx_store w off src).stdout = w.stdout := rfl

@[simp] theorem tx_store_stdout_script (w : World) (off : Nat) (src : List Nat) :
    (tx_store w off src).stdout_script = w.stdout_script := rfl

@[simp] theorem tx_store_dev_writes (w : World) (off : Nat) (src : List Nat) :
    (tx_store w off src).dev_writes = w.dev_writes := rfl

@[simp] theorem tx_store_dev_script (w : World) (off : Nat) (src : List Nat) :
    (tx_store w off src).dev_script = w.dev_script := rfl

@[simp] theorem tx_store_max_tx (w : World) (off : Nat) (src : List Nat) :
    (tx_store w off src).max_tx_message = w.max_tx_message := rfl

@[simp] theorem tx_store_max_rx (w : World) (off : Nat) (src : List Nat) :
    (tx_store w off src).max_rx_message = w.max_rx_message := rfl

@[simp] theorem tx_store_calls (w : World) (off : Nat) (src : List Nat) :
    (tx_store w off src).calls = w.calls := rfl

theorem tx_region_store_first (w : World) (b : List Nat) :
    tx_region (tx_store w 0 b) b.length = b := by
  unfold tx_region tx_store
  exact mem_read_write_same _ _ _

/-- Storing `b` right after the bytes `a` of the transmit region gives `a ++ b`. -/
theorem tx_region_store_append (w : World) (a b : List Nat) (off n : Nat)
    (ha : tx_region w a.length = a) (ho : off = a.length) (hn : n = a.length + b.length) :
    tx_region (tx_store w off b) n = a ++ b := by
  subst ho hn
  unfold tx_region tx_store at *
  simp only
  rw [mem_read_add, mem_read_write_before _ _ _ _ _ (Nat.le_refl _), ha, mem_read_write_same]

/-- A property of both branches of a conditional holds of the conditional. -/
theorem ite_both {α : Type} (P : α → Prop) (c : Prop) [Decidable c] (a b : α)
    (ha : P a) (hb : P b) : P (if c then a else b) := by
  split
  · exact ha
  · exact hb

theorem errnum_to_posix_length (e : Int) : (str_bytes (errnum_to_posix e)).length ≤ 7 := by
  unfold errnum_to_posix
  repeat refine ite_both (fun s => (str_bytes s).length ≤ 7) _ _ _ (by decide) ?_
  decide

/-- What a healthy `eframer_send` appends to the output: the two bytes `htons`
makes of `n`, then `n` bytes of the transmit region. -/
theorem eframer_send_bytes (w : World) (n : Nat) (hs : healthy w.stdout_script)
    (hn : HEADER_SIZE + n < SIZE_MOD) :
    ∃ w1, eframer_send w n = Step.ret w1 ∧
      w1.stdout = w.stdout ++ (htons_bytes n ++ tx_region w n) := by
  obtain ⟨rest, h1⟩ := eframer_send_healthy w n hs hn
  exact ⟨_, h1, rfl⟩

/-- What a healthy `eframer_send` of `n ≤ 65535` bytes leaves: the frame of the
transmit region appended to the output, everything but the header bytes and
the script as before. -/
theorem eframer_send_frame (w : World) (n : Nat) (hs : healthy w.stdout_script)
    (hn : n ≤ 65535) :
    ∃ w1, eframer_send w n = Step.ret w1 ∧
      w1.stdout = w.stdout ++ frame_bytes (tx_region w n) ∧
      w1.dev_writes = w.dev_writes ∧ w1.dev_script = w.dev_script ∧
      w1.calls = w.calls ∧ w1.framer.rx = w.framer.rx ∧ w1.framer.index = w.framer.index ∧
      w1.framer.config = w.framer.config ∧
      w1.max_rx_message = w.max_rx_message ∧ w1.max_tx_message = w.max_tx_message := by
  obtain ⟨rest, h1⟩ := eframer_send_healthy w n hs (by unfold HEADER_SIZE SIZE_MOD; omega)
  refine ⟨_, h1, ?_, rfl, rfl, rfl, rfl, rfl, rfl, rfl, rfl⟩
  simp only
  have hl : (tx_region w n).length = n := by simp [tx_region]
  have := htons_bytes_small (tx_region w n) (by omega)
  rw [hl] at this
  rw [← this]
  rfl

theorem WriteRequest.from_len {request : Mem} {len : Nat} {T data : List Nat}
    (hq : WriteRequest request len T data) : request 1 % 256 = T.length := by
  rw [hq.token_length]
  exact Nat.mod_eq_of_lt (by have := hq.token_byte; omega)

theorem WriteRequest.payload_len {request : Mem} {len : Nat} {T data : List Nat}
    (hq : WriteRequest request len T data) :
    size_sub (size_sub len T.length) 2 = data.length := by
  have h1 := hq.len_eq
  have h2 := hq.len_16
  have h3 : size_sub len T.length = len - T.length :=
    size_sub_small (by unfold SIZE_MOD; omega) (by omega)
  have h4 : size_sub (len - T.length) 2 = len - T.length - 2 :=
    size_sub_small (by unfold SIZE_MOD; omega) (by omega)
  rw [h3, h4]
  omega

theorem WriteRequest.echo {request : Mem} {len : Nat} {T data : List Nat}
    (hq : WriteRequest request len T data) :
    mem_read request 1 (T.length + 1) = T.length :: T := by
  rw [Nat.add_comm, mem_read_add, hq.token_bytes]
  simp [mem_read, hq.token_length, List.range_succ]

/-- The transmit region after the handler has stored the kind and echoed the token. -/
theorem tx_region_echo (w : World) (T : List Nat) :
    tx_region (tx_store (tx_store w 0 [NOTIF_RESPONSE]) 1 (T.length :: T)) (T.length + 2) =
      [NOTIF_RESPONSE, T.length] ++ T := by
  have h0 := tx_region_store_first w [NOTIF_RESPONSE]
  have := tx_region_store_append (tx_store w 0 [NOTIF_RESPONSE]) [NOTIF_RESPONSE]
    (T.length :: T) 1 (T.length + 2) h0 rfl (by simp; omega)
  simpa using this

theorem dev_write_framer (w : World) (p : List Nat) : (dev_write w p).2.framer = w.framer := by
  unfold dev_write
  split <;> rfl

theorem dev_write_stdout (w : World) (p : List Nat) :
    (dev_write w p).2.stdout = w.stdout ∧ (dev_write w p).2.stdout_script = w.stdout_script := by
  unfold dev_write
  split <;> exact ⟨rfl, rfl⟩

theorem dev_write_log (w : World) (p : List Nat) :
    (dev_write w p).2.dev_writes = w.dev_writes ++ [p] := by
  unfold dev_write
  split <;> rfl

theorem dev_write_accepts (w : World) (p : List Nat) (h : accepts_all w.dev_script p.length) :
    (dev_write w p).1 = SysRet.ok p.length := by
  unfold dev_write
  rcases h with h | ⟨m, rest, h, hm⟩
  · rw [h]
  · rw [h]
    simp only
    rw [Nat.min_eq_right hm]

theorem dev_write_fails (w : World) (p : List Nat) (e : Int) (rest : List SysRet)
    (h : w.dev_script = SysRet.err e :: rest) : (dev_write w p).1 = SysRet.err e := by
  unfold dev_write
  rw [h]

theorem tx_region_congr (w1 w2 : World) (n : Nat) (h : w1.framer = w2.framer) :
    tx_region w1 n = tx_region w2 n := by
  unfold tx_region
  rw [h]

theorem tx_store_congr (w1 w2 : World) (off : Nat) (src : List Nat) (h : w1.framer = w2.framer) :
    (tx_store w1 off src).framer = (tx_store w2 off src).framer := by
  unfold tx_store
  simp only
  rw [h]

/-- The handler on a well-formed `CMD_WRITE` request, with the request decoded. -/
theorem request_handler_write_eq {request : Mem} {len : Nat} {T data : List Nat}
    (hq : WriteRequest request len T data) (w : World) :
    request_handler request len w =
      if data.length ≤ w.max_tx_message then
        request_reply
          (dev_write (tx_store (tx_store w 0 [NOTIF_RESPONSE]) 1 (T.length :: T)) data).2
          (T.length + 2)
          (dev_write (tx_store (tx_store w 0 [NOTIF_RESPONSE]) 1 (T.length :: T)) data).1
      else
        request_reply (tx_store (tx_store w 0 [NOTIF_RESPONSE]) 1 (T.length :: T))
          (T.length + 2) (SysRet.err E2BIG) := by
  have hcmd : request 0 % 256 = CMD_WRITE := by
    rw [hq.cmd]
    rfl
  unfold request_handler
  simp only [hcmd, hq.from_len, hq.payload_len, hq.echo, hq.data_bytes, if_true]

/-- The success reply: the response bytes so far, then the count in two bytes. -/
theorem request_reply_ok (w3 : World) (a : List Nat) (n : Nat)
    (ha : tx_region w3 a.length = a) (hlen : a.length + 2 ≤ 65535)
    (hs : healthy w3.stdout_script) :
    ∃ w1, request_reply w3 a.length (SysRet.ok n) = Step.ret w1 ∧
      w1.stdout = w3.stdout ++ frame_bytes (a ++ [(n / 256) % 256, n % 256]) ∧
      w1.dev_writes = w3.dev_writes ∧ w1.dev_script = w3.dev_script := by
  have h1 := tx_region_store_append w3 a [(n / 256) % 256] a.length (a.length + 1) ha rfl rfl
  have h2 := tx_region_store_append (tx_store w3 a.length [(n / 256) % 256])
    (a ++ [(n / 256) % 256]) [n % 256] (a.length + 1) (a.length + 2)
    (by rw [List.length_append]; exact h1) (by simp) (by simp)
  obtain ⟨w1, hsend, hout, hdw, hds, _⟩ := eframer_send_frame
    (tx_store (tx_store w3 a.length [(n / 256) % 256]) (a.length + 1) [n % 256])
    (a.length + 2) (by simpa using hs) hlen
  refine ⟨w1, hsend, ?_, by simpa using hdw, by simpa using hds⟩
  rw [hout, h2]
  simp

/-- The failure reply: the response bytes so far, then `0xFF 0xFF` and the error name. -/
theorem request_reply_err (w3 : World) (a : List Nat) (e : Int)
    (ha : tx_region w3 a.length = a) (hlen : a.length + 9 ≤ 65535)
    (hs : healthy w3.stdout_script) :
    ∃ w1, request_reply w3 a.length (SysRet.err e) = Step.ret w1 ∧
      w1.stdout = w3.stdout ++
        frame_bytes (a ++ [0xff, 0xff] ++ str_bytes (errnum_to_posix e)) ∧
      w1.dev_writes = w3.dev_writes ∧ w1.dev_script = w3.dev_script := by
  have h1 := tx_region_store_append w3 a [0xff] a.length (a.length + 1) ha rfl rfl
  have h2 := tx_region_store_append (tx_store w3 a.length [0xff])
    (a ++ [0xff]) [0xff] (a.length + 1) (a.length + 2)
    (by rw [List.length_append]; exact h1) (by simp) (by simp)
  have h3 := tx_region_store_append
    (tx_store (tx_store w3 a.length [0xff]) (a.length + 1) [0xff])
    (a ++ [0xff] ++ [0xff]) (str_bytes (errnum_to_posix e)) (a.length + 2)
    (a.length + 2 + (str_bytes (errnum_to_posix e)).length)
    (by simp only [List.length_append, List.length_singleton]; exact h2) (by simp) (by simp)
  have hname := errnum_to_posix_length e
  obtain ⟨w1, hsend, hout, hdw, hds, _⟩ := eframer_send_frame
    (tx_store (tx_store (tx_store w3 a.length [0xff]) (a.length + 1) [0xff]) (a.length + 2)
      (str_bytes (errnum_to_posix e)))
    (a.length + 2 + (str_bytes (errnum_to_posix e)).length) (by simpa using hs) (by omega)
  refine ⟨w1, hsend, ?_, by simpa using hdw, by simpa using hds⟩
  rw [hout, h3]
  simp

theorem sample_request_ok : WriteRequest sample_request 5 [42] [7, 8] :=
  ⟨by decide, by decide, by decide, by decide, by decide, by decide, by decide⟩

/-- The transmit region when the handler replies to a well-formed `CMD_WRITE`. -/
theorem tx_region_before_reply (w w3 : World) (T : List Nat)
    (hf : w3.framer = (tx_store (tx_store w 0 [NOTIF_RESPONSE]) 1 (T.length :: T)).framer) :
    tx_region w3 ([NOTIF_RESPONSE, T.length] ++ T).length = [NOTIF_RESPONSE, T.length] ++ T := by
  have hal : ([NOTIF_RESPONSE, T.length] ++ T).length = T.length + 2 := by
    simp
  rw [hal, tx_region_congr _ _ _ hf]
  exact tx_region_echo w T

/-- C4: for every `CMD_WRITE` request with token `T` and data of size
`S ≤ max_tx`, when the device write accepts all `S` bytes (and the outbound
channel takes the reply), `request_handler` returns after exactly one device
write, of exactly the data bytes, and exactly one frame, whose payload is
`[NOTIF_RESPONSE, |T|] ++ T ++ [S / 256, S % 256]`. -/
theorem write_success (request : Mem) (len : Nat) (w : World) (T data : List Nat)
    (hq : WriteRequest request len T data)
    (hS : data.length ≤ w.max_tx_message)
    (hacc : accepts_all w.dev_script data.length)
    (hout : healthy w.stdout_script) :
    ∃ w1, request_handler request len w = Step.ret w1 ∧
      w1.dev_writes = w.dev_writes ++ [data] ∧
      w1.stdout = w.stdout ++
        frame_bytes ([NOTIF_RESPONSE, T.length] ++ T ++
          [data.length / 256, data.length % 256]) := by
  have hlen := hq.len_eq
  have h16 := hq.len_16
  have htb := hq.token_byte
  have hal : ([NOTIF_RESPONSE, T.length] ++ T).length = T.length + 2 := by
    simp
  have hrc := dev_write_accepts (tx_store (tx_store w 0 [NOTIF_RESPONSE]) 1 (T.length :: T))
    data (by simpa using hacc)
  have hso := dev_write_stdout (tx_store (tx_store w 0 [NOTIF_RESPONSE]) 1 (T.length :: T)) data
  have hlog := dev_write_log (tx_store (tx_store w 0 [NOTIF_RESPONSE]) 1 (T.length :: T)) data
  obtain ⟨w1, h1, h2, h3, _⟩ := request_reply_ok
    (dev_write (tx_store (tx_store w 0 [NOTIF_RESPONSE]) 1 (T.length :: T)) data).2
    ([NOTIF_RESPONSE, T.length] ++ T) data.length
    (tx_region_before_reply w _ T (dev_write_framer _ _))
    (by rw [hal]; omega) (by rw [hso.2]; simpa using hout)
  refine ⟨w1, ?_, ?_, ?_⟩
  · rw [request_handler_write_eq hq w, if_pos hS, hrc, ← hal]
    exact h1
  · rw [h3, hlog]
    simp
  · rw [h2, hso.1]
    have hsmall : data.length / 256 % 256 = data.length / 256 := by omega
    rw [hsmall]
    simp

/-- An instance of `write_success`: token `[42]`, data `[7, 8]`, `max_tx = 4`. -/
theorem write_success_witness :
    ∃ w1, request_handler sample_request 5 sample_bridge = Step.ret w1 ∧
      w1.dev_writes = sample_bridge.dev_writes ++ [[7, 8]] ∧
      w1.stdout = sample_bridge.stdout ++
        frame_bytes ([NOTIF_RESPONSE, [42].length] ++ [42] ++
          [[7, 8].length / 256, [7, 8].length % 256]) :=
  write_success sample_request 5 sample_bridge [42] [7, 8] sample_request_ok (by decide)
    (Or.inl rfl) healthy_nil

/-- C5: for every `CMD_WRITE` request with token `T` whose data size `S` exceeds
`max_tx`, `request_handler` performs no device write and (the outbound channel
taking the reply) sends exactly one frame, whose payload is
`[0, |T|] ++ T ++ [0xFF, 0xFF] ++ "e2big"`. -/
theorem write_oversize (request : Mem) (len : Nat) (w : World) (T data : List Nat)
    (hq : WriteRequest request len T data)
    (hS : w.max_tx_message < data.length)
    (hout : healthy w.stdout_script) :
    ∃ w1, request_handler request len w = Step.ret w1 ∧
      w1.dev_writes = w.dev_writes ∧ w1.dev_script = w.dev_script ∧
      w1.stdout = w.stdout ++
        frame_bytes ([0, T.length] ++ T ++ [0xFF, 0xFF] ++ str_bytes "e2big") := by
  have hlen := hq.len_eq
  have h16 := hq.len_16
  have htb := hq.token_byte
  have hal : ([NOTIF_RESPONSE, T.length] ++ T).length = T.length + 2 := by
    simp
  obtain ⟨w1, h1, h2, h3, h4⟩ := request_reply_err
    (tx_store (tx_store w 0 [NOTIF_RESPONSE]) 1 (T.length :: T))
    ([NOTIF_RESPONSE, T.length] ++ T) E2BIG
    (tx_region_before_reply w _ T rfl) (by rw [hal]; omega) (by simpa using hout)
  refine ⟨w1, ?_, by simpa using h3, by simpa using h4, ?_⟩
  · rw [request_handler_write_eq hq w, if_neg (by omega), ← hal]
    exact h1
  · rw [h2]
    rfl

/-- An instance of `write_oversize`: two data bytes against `max_tx = 1`. -/
theorem write_oversize_witness :
    ∃ w1, request_handler sample_request 5 (fresh_world 260 260 4 1) = Step.ret w1 ∧
      w1.dev_writes = (fresh_world 260 260 4 1).dev_writes ∧
      w1.dev_script = (fresh_world 260 260 4 1).dev_script ∧
      w1.stdout = (fresh_world 260 260 4 1).stdout ++
        frame_bytes ([0, [42].length] ++ [42] ++ [0xFF, 0xFF] ++ str_bytes "e2big") :=
  write_oversize sample_request 5 (fresh_world 260 260 4 1) [42] [7, 8] sample_request_ok
    (by decide) healthy_nil

/-- C6: for every `CMD_WRITE` request with token `T` and data size `S ≤ max_tx`,
if the device write fails with errno `e`, `request_handler` sends (the outbound
channel taking the reply) exactly one frame, whose payload is
`[0, |T|] ++ T ++ [0xFF, 0xFF] ++ errnum_to_posix e`, and returns, so the
process goes on; the name of `EACCES` is `"eacces"`. -/
theorem write_error_mapping (request : Mem) (len : Nat) (w : World) (T data : List Nat)
    (e : Int) (rest : List SysRet)
    (hq : WriteRequest request len T data)
    (hS : data.length ≤ w.max_tx_message)
    (hfail : w.dev_script = SysRet.err e :: rest)
    (hout : healthy w.stdout_script) :
    (∃ w1, request_handler request len w = Step.ret w1 ∧
      w1.dev_writes = w.dev_writes ++ [data] ∧
      w1.stdout = w.stdout ++
        frame_bytes ([0, T.length] ++ T ++ [0xFF, 0xFF] ++ str_bytes (errnum_to_posix e))) ∧
    errnum_to_posix EACCES = "eacces" := by
  have hlen := hq.len_eq
  have h16 := hq.len_16
  have htb := hq.token_byte
  have hal : ([NOTIF_RESPONSE, T.length] ++ T).length = T.length + 2 := by
    simp
  have hrc := dev_write_fails (tx_store (tx_store w 0 [NOTIF_RESPONSE]) 1 (T.length :: T))
    data e rest (by simpa using hfail)
  have hso := dev_write_stdout (tx_store (tx_store w 0 [NOTIF_RESPONSE]) 1 (T.length :: T)) data
  have hlog := dev_write_log (tx_store (tx_store w 0 [NOTIF_RESPONSE]) 1 (T.length :: T)) data
  obtain ⟨w1, h1, h2, h3, _⟩ := request_reply_err
    (dev_write (tx_store (tx_store w 0 [NOTIF_RESPONSE]) 1 (T.length :: T)) data).2
    ([NOTIF_RESPONSE, T.length] ++ T) e
    (tx_region_before_reply w _ T (dev_write_framer _ _))
    (by rw [hal]; omega) (by rw [hso.2]; simpa using hout)
  refine ⟨⟨w1, ?_, ?_, ?_⟩, rfl⟩
  · rw [request_handler_write_eq hq w, if_pos hS, hrc, ← hal]
    exact h1
  · rw [h3, hlog]
    simp
  · rw [h2, hso.1]
    rfl

/-- An instance of `write_error_mapping`: the device answers `EACCES`. -/
theorem write_error_mapping_witness :
    (∃ w1, request_handler sample_request 5
        { sample_bridge with dev_script := [SysRet.err EACCES] } = Step.ret w1 ∧
      w1.dev_writes = sample_bridge.dev_writes ++ [[7, 8]] ∧
      w1.stdout = sample_bridge.stdout ++
        frame_bytes ([0, [42].length] ++ [42] ++ [0xFF, 0xFF] ++
          str_bytes (errnum_to_posix EACCES))) ∧
    errnum_to_posix EACCES = "eacces" :=
  write_error_mapping sample_request 5 { sample_bridge with dev_script := [SysRet.err EACCES] }
    [42] [7, 8] EACCES [] sample_request_ok (by decide) rfl healthy_nil

/-- A successful device read is framed as it is: the length bytes `htons` makes
of `k + 1`, the kind `NOTIF_DATA`, the bytes read. -/
theorem handle_device_ready_data (w : World) (B : List Nat)
    (hB : B.length ≤ w.max_rx_message) (hout : healthy w.stdout_script)
    (hsz : HEADER_SIZE + (B.length + 1) < SIZE_MOD) :
    ∃ w1, handle_device_ready w (ReadResult.data B) = Step.ret w1 ∧
      w1.stdout = w.stdout ++ (htons_bytes (B.length + 1) ++ ([NOTIF_DATA] ++ B)) := by
  have htake : B.take w.max_rx_message = B := List.take_of_length_le hB
  have h0 := tx_region_store_first w [NOTIF_DATA]
  have h1 := tx_region_store_append (tx_store w 0 [NOTIF_DATA]) [NOTIF_DATA] B 1
    (B.length + 1) h0 rfl (by simp; omega)
  obtain ⟨w1, hsend, hso⟩ := eframer_send_bytes
    (tx_store (tx_store w 0 [NOTIF_DATA]) 1 B) (B.length + 1) (by simpa using hout) hsz
  refine ⟨w1, ?_, ?_⟩
  · unfold handle_device_ready
    simp only [htake]
    exact hsend
  · rw [hso, h1]
    rfl

/-- C7, as amended: for every successful device read in `handle_device_ready`
returning `k` bytes `B` with `k ≤ max_rx` and `k + 1 ≤ 65535`, exactly one frame
is sent (the outbound channel taking it), its length field is `k + 1`, its
payload is `[NOTIF_DATA] ++ B`, and the function returns, so the process goes
on; a zero-length read sends the bytes `0x00 0x01 0x01`. -/
theorem device_data_notification (w : World) (B : List Nat)
    (hB : B.length ≤ w.max_rx_message) (h16 : B.length + 1 ≤ 65535)
    (hout : healthy w.stdout_script) :
    ∃ w1, handle_device_ready w (ReadResult.data B) = Step.ret w1 ∧
      w1.stdout = w.stdout ++
        ([(B.length + 1) / 256, (B.length + 1) % 256] ++ ([NOTIF_DATA] ++ B)) ∧
      w1.stdout = w.stdout ++ frame_bytes ([NOTIF_DATA] ++ B) ∧
      (B = [] → w1.stdout = w.stdout ++ [0x00, 0x01, 0x01]) := by
  obtain ⟨w1, h1, h2⟩ := handle_device_ready_data w B hB hout
    (by unfold HEADER_SIZE SIZE_MOD; omega)
  have hh : htons_bytes (B.length + 1) = [(B.length + 1) / 256, (B.length + 1) % 256] := by
    unfold htons_bytes
    rw [Nat.mod_eq_of_lt (by omega)]
  refine ⟨w1, h1, ?_, ?_, ?_⟩
  · rw [h2, hh]
  · rw [h2, hh]
    simp [frame_bytes, Nat.add_comm]
  · intro hnil
    rw [h2, hnil]
    rfl

/-- An instance of `device_data_notification`: three bytes read with `max_rx = 4`. -/
theorem device_data_notification_witness :
    ∃ w1, handle_device_ready sample_bridge (ReadResult.data [5, 6, 7]) = Step.ret w1 ∧
      w1.stdout = sample_bridge.stdout ++
        ([([5, 6, 7].length + 1) / 256, ([5, 6, 7].length + 1) % 256] ++
          ([NOTIF_DATA] ++ [5, 6, 7])) ∧
      w1.stdout = sample_bridge.stdout ++ frame_bytes ([NOTIF_DATA] ++ [5, 6, 7]) ∧
      ([5, 6, 7] = [] → w1.stdout = sample_bridge.stdout ++ [0x00, 0x01, 0x01]) :=
  device_data_notification sample_bridge [5, 6, 7] (by decide) (by decide) healthy_nil

theorem big_read_length : big_read.length = 65535 := by
  unfold big_read
  rw [List.length_replicate]

/-- C7 as stated fails: with `max_rx = 65535` a device read of `k = 65535` bytes
is within `0 ≤ k ≤ max_rx`, and the frame sent for it starts with the length
bytes `0, 0`, so its length field is `0` and not `k + 1 = 65536`. -/
theorem device_data_length_wraps :
    big_read.length ≤ big_bridge.max_rx_message ∧
    healthy big_bridge.stdout_script ∧
    ∃ w1, handle_device_ready big_bridge (ReadResult.data big_read) = Step.ret w1 ∧
      w1.stdout = [0, 0] ++ ([NOTIF_DATA] ++ big_read) ∧
      ntohs_bytes 0 0 ≠ big_read.length + 1 := by
  have hB : big_read.length ≤ big_bridge.max_rx_message := by
    rw [big_read_length]
    decide
  obtain ⟨w1, h1, h2⟩ := handle_device_ready_data big_bridge big_read hB healthy_nil
    (by rw [big_read_length]; decide)
  refine ⟨hB, healthy_nil, w1, h1, ?_, ?_⟩
  · rw [h2, big_read_length]
    have hh : htons_bytes (65535 + 1) = [0, 0] := by decide
    rw [hh]
    rfl
  · rw [big_read_length]
    decide

/-- The function `report_failure` sends one `NOTIF_ERROR` frame carrying the
error name and ends the process with `EXIT_FAILURE`. -/
theorem report_failure_sends (w : World) (e : Int) (hout : healthy w.stdout_script) :
    ∃ w1, report_failure w e = Step.exit EXIT_FAILURE w1 ∧
      w1.stdout = w.stdout ++
        frame_bytes ([NOTIF_ERROR] ++ str_bytes (errnum_to_posix e)) := by
  have hname := errnum_to_posix_length e
  have h0 := tx_region_store_first w [NOTIF_ERROR]
  have h1 := tx_region_store_append (tx_store w 0 [NOTIF_ERROR]) [NOTIF_ERROR]
    (str_bytes (errnum_to_posix e)) 1 ((str_bytes (errnum_to_posix e)).length + 1) h0 rfl
    (by simp; omega)
  obtain ⟨w1, hsend, hso, _⟩ := eframer_send_frame
    (tx_store (tx_store w 0 [NOTIF_ERROR]) 1 (str_bytes (errnum_to_posix e)))
    ((str_bytes (errnum_to_posix e)).length + 1) (by simpa using hout) (by omega)
  refine ⟨w1, ?_, ?_⟩
  · unfold report_failure
    simp only [hsend]
  · rw [hso, h1]
    rfl

/-- C8: for every errno `e` other than `EINTR`, when the device read in
`handle_device_ready` fails with `e`, exactly one frame is sent (the outbound
channel taking it), its payload is `[NOTIF_ERROR] ++ errnum_to_posix e`, nothing
else is written (so no `NOTIF_DATA` frame), and the process terminates with the
non-zero status `EXIT_FAILURE`. -/
theorem device_read_failure (w : World) (e : Int) (he : e ≠ EINTR)
    (hout : healthy w.stdout_script) :
    ∃ w1, handle_device_ready w (ReadResult.error e) = Step.exit EXIT_FAILURE w1 ∧
      w1.stdout = w.stdout ++
        frame_bytes ([NOTIF_ERROR] ++ str_bytes (errnum_to_posix e)) ∧
      EXIT_FAILURE ≠ 0 := by
  obtain ⟨w1, h1, h2⟩ := report_failure_sends (tx_store w 0 [NOTIF_DATA]) e
    (by simpa using hout)
  refine ⟨w1, ?_, by simpa using h2, by decide⟩
  unfold handle_device_ready
  simp only [ne_eq, he, not_false_eq_true, if_true, h1]

/-- An instance of `device_read_failure`: the device read fails with `EIO`. -/
theorem device_read_failure_witness :
    ∃ w1, handle_device_ready sample_bridge (ReadResult.error EIO) =
        Step.exit EXIT_FAILURE w1 ∧
      w1.stdout = sample_bridge.stdout ++
        frame_bytes ([NOTIF_ERROR] ++ str_bytes (errnum_to_posix EIO)) ∧
      EXIT_FAILURE ≠ 0 :=
  device_read_failure sample_bridge EIO (by decide) healthy_nil

theorem same_receive_side_refl (w : World) : same_receive_side w w :=
  ⟨rfl, rfl, rfl, rfl⟩

theorem same_receive_side_trans {w w1 w2 : World} (h1 : same_receive_side w w1)
    (h2 : same_receive_side w1 w2) : same_receive_side w w2 :=
  ⟨h2.1.trans h1.1, h2.2.1.trans h1.2.1, h2.2.2.1.trans h1.2.2.1, h2.2.2.2.trans h1.2.2.2⟩

theorem tx_store_side (w : World) (off : Nat) (src : List Nat) :
    same_receive_side w (tx_store w off src) :=
  ⟨rfl, rfl, rfl, rfl⟩

theorem dev_write_side (w : World) (p : List Nat) : same_receive_side w (dev_write w p).2 := by
  unfold dev_write
  split <;> exact ⟨rfl, rfl, rfl, rfl⟩

/-- The write loop always ends, and it touches neither the receive side nor
the record of handler calls. -/
theorem eframer_send_loop_side (len : Nat) (script : List SysRet) :
    ∀ (wrote : Nat) (w : World),
      eframer_send_loop len script wrote w ≠ Step.nofuel ∧
      ∀ w1, (eframer_send_loop len script wrote w).world = some w1 →
        same_receive_side w w1 := by
  induction script with
  | nil =>
    intro wrote w
    refine ⟨by simp [eframer_send_loop], ?_⟩
    intro w1 hw
    simp only [eframer_send_loop, Step.world, Option.some.injEq] at hw
    rw [← hw]
    exact ⟨rfl, rfl, rfl, rfl⟩
  | cons r rest ih =>
    intro wrote w
    cases r with
    | err e =>
      simp only [eframer_send_loop]
      split_ifs with h1 h2
      · obtain ⟨i1, i2⟩ := ih wrote { w with stdout_script := rest }
        exact ⟨i1, fun w1 hw => i2 w1 hw⟩
      · refine ⟨by simp, ?_⟩
        intro w1 hw
        simp only [Step.world, Option.some.injEq] at hw
        rw [← hw]
        exact ⟨rfl, rfl, rfl, rfl⟩
      · refine ⟨by simp, ?_⟩
        intro w1 hw
        simp only [Step.world, Option.some.injEq] at hw
        rw [← hw]
        exact ⟨rfl, rfl, rfl, rfl⟩
    | ok n =>
      simp only [eframer_send_loop]
      split_ifs with h1
      · obtain ⟨i1, i2⟩ := ih (wrote + min n (len - wrote))
          { w with stdout := w.stdout ++ mem_read w.framer.tx wrote (min n (len - wrote)),
                   stdout_script := rest }
        exact ⟨i1, fun w1 hw => i2 w1 hw⟩
      · refine ⟨by simp, ?_⟩
        intro w1 hw
        simp only [Step.world, Option.some.injEq] at hw
        rw [← hw]
        exact ⟨rfl, rfl, rfl, rfl⟩

theorem eframer_send_side (w : World) (n : Nat) :
    eframer_send w n ≠ Step.nofuel ∧
    ∀ w1, (eframer_send w n).world = some w1 → same_receive_side w w1 := by
  unfold eframer_send
  obtain ⟨i1, i2⟩ := eframer_send_loop_side (size_add HEADER_SIZE n) w.stdout_script 0
    { w with framer := { w.framer with tx := mem_write w.framer.tx 0 (htons_bytes n) } }
  exact ⟨i1, fun w1 hw => i2 w1 hw⟩

theorem request_reply_side (w : World) (response_len : Nat) (rc : SysRet) :
    request_reply w response_len rc ≠ Step.nofuel ∧
    ∀ w1, (request_reply w response_len rc).world = some w1 → same_receive_side w w1 := by
  cases rc with
  | err e =>
    simp only [request_reply]
    obtain ⟨i1, i2⟩ := eframer_send_side
      (tx_store (tx_store (tx_store w response_len [0xff]) (response_len + 1) [0xff])
        (response_len + 2) (str_bytes (errnum_to_posix e)))
      (response_len + 2 + (str_bytes (errnum_to_posix e)).length)
    exact ⟨i1, fun w1 hw => i2 w1 hw⟩
  | ok n =>
    simp only [request_reply]
    obtain ⟨i1, i2⟩ := eframer_send_side
      (tx_store (tx_store w response_len [(n / 256) % 256]) (response_len + 1) [n % 256])
      (response_len + 2)
    exact ⟨i1, fun w1 hw => i2 w1 hw⟩

/-- The handler of the bridge always ends, and it touches neither the receive
side of the framer nor the record of handler calls. -/
theorem request_handler_side (request : Mem) (len : Nat) (w : World) :
    request_handler request len w ≠ Step.nofuel ∧
    ∀ w1, (request_handler request len w).world = some w1 → same_receive_side w w1 := by
  unfold request_handler
  simp only
  split_ifs with h1 h2
  · obtain ⟨i1, i2⟩ := request_reply_side
      (dev_write (tx_store (tx_store w 0 [NOTIF_RESPONSE]) 1
        (mem_read request 1 (request 1 % 256 + 1)))
        (mem_read request (2 + request 1 % 256)
          (size_sub (size_sub len (request 1 % 256)) 2))).2
      (request 1 % 256 + 2)
      (dev_write (tx_store (tx_store w 0 [NOTIF_RESPONSE]) 1
        (mem_read request 1 (request 1 % 256 + 1)))
        (mem_read request (2 + request 1 % 256)
          (size_sub (size_sub len (request 1 % 256)) 2))).1
    refine ⟨i1, fun w1 hw => ?_⟩
    exact same_receive_side_trans
      (same_receive_side_trans
        (same_receive_side_trans (tx_store_side w 0 [NOTIF_RESPONSE]) (tx_store_side _ _ _))
        (dev_write_side _ _))
      (i2 w1 hw)
  · obtain ⟨i1, i2⟩ := request_reply_side
      (tx_store (tx_store w 0 [NOTIF_RESPONSE]) 1 (mem_read request 1 (request 1 % 256 + 1)))
      (request 1 % 256 + 2) (SysRet.err E2BIG)
    refine ⟨i1, fun w1 hw => ?_⟩
    exact same_receive_side_trans
      (same_receive_side_trans (tx_store_side w 0 [NOTIF_RESPONSE]) (tx_store_side _ _ _))
      (i2 w1 hw)
  · refine ⟨by simp, ?_⟩
    intro w1 hw
    simp only [Step.world, Option.some.injEq] at hw
    rw [← hw]
    exact ⟨rfl, rfl, rfl, rfl⟩

/-- The handler of the bridge meets the condition the codec theorems ask of a handler. -/
theorem request_handler_keeps : KeepsReceiveSide request_handler where
  ends := fun d l w => (request_handler_side d l w).1
  rx := fun d l w w1 hw => ((request_handler_side d l w).2 w1 hw).1
  index := fun d l w w1 hw => ((request_handler_side d l w).2 w1 hw).2.1
  config := fun d l w w1 hw => ((request_handler_side d l w).2 w1 hw).2.2.1
  calls := fun d l w w1 hw => ((request_handler_side d l w).2 w1 hw).2.2.2

/-- C9 as stated fails: the bridge, configured for `max_rx = max_tx = 4`, reads the
header `0xFF 0xFF` of a frame far longer than `max_rx_message_size = 260`; the
process ends with `EXIT_FAILURE` and nothing at all has been written to the
outbound channel. -/
theorem oversize_exit_is_silent :
    (eframer_process request_handler sample_bridge (ReadResult.data [255, 255])).status =
        some EXIT_FAILURE ∧
    (eframer_process request_handler sample_bridge (ReadResult.data [255, 255])).world.map
        World.stdout = some [] ∧
    HEADER_SIZE + declared_len [255, 255] > sample_bridge.framer.config.max_rx_message_size := by
  decide

/-- C9, as amended: a failure that goes through `report_failure` (a device read
error other than `EINTR` in `handle_device_ready`, a failed `open` of the
device or the invalid configuration `max_rx = max_tx = 0` in `main`) sends one
`NOTIF_ERROR` frame, payload byte 0 = 2 followed by the error name, and then
ends the process with `EXIT_FAILURE`; the fatal conditions of the framer (a
control-channel read error other than `EINTR`, an inbound frame whose declared
length plus 2 exceeds `max_rx_message_size`) end the process with
`EXIT_FAILURE` and send nothing. -/
theorem fatal_conditions (h : Handler) (w : World) (e : Int) (he : e ≠ EINTR)
    (hout : healthy w.stdout_script) :
    (∃ w1, report_failure w e = Step.exit EXIT_FAILURE w1 ∧
      w1.stdout = w.stdout ++ frame_bytes ([NOTIF_ERROR] ++ str_bytes (errnum_to_posix e))) ∧
    (∃ w1, handle_device_ready w (ReadResult.error e) = Step.exit EXIT_FAILURE w1 ∧
      w1.stdout = w.stdout ++ frame_bytes ([NOTIF_ERROR] ++ str_bytes (errnum_to_posix e))) ∧
    (∀ max_rx max_tx, (0 < max_rx ∨ 0 < max_tx) →
      ∃ w1, main_startup w max_rx max_tx (SysRet.err e) = Step.exit EXIT_FAILURE w1 ∧
        w1.stdout = w.stdout ++
          frame_bytes ([NOTIF_ERROR] ++ str_bytes (errnum_to_posix e))) ∧
    (∀ r, ∃ w1, main_startup w 0 0 r = Step.exit EXIT_FAILURE w1 ∧
      w1.stdout = w.stdout ++ frame_bytes ([NOTIF_ERROR] ++ str_bytes "einval")) ∧
    eframer_process h w (ReadResult.error e) = Step.exit EXIT_FAILURE w ∧
    (∀ c : List Nat, c ≠ [] →
      w.framer.config.max_rx_message_size < SIZE_MOD →
      w.framer.index + c.length ≤ w.framer.config.max_rx_message_size →
      HEADER_SIZE ≤ (buffered w ++ c).length →
      w.framer.config.max_rx_message_size < HEADER_SIZE + declared_len (buffered w ++ c) →
      ∃ w1, eframer_process h w (ReadResult.data c) = Step.exit EXIT_FAILURE w1 ∧
        w1.stdout = w.stdout) := by
  refine ⟨report_failure_sends w e hout, ?_, ?_, ?_, ?_, ?_⟩
  · obtain ⟨w1, h1, h2⟩ := report_failure_sends (tx_store w 0 [NOTIF_DATA]) e
      (by simpa using hout)
    refine ⟨w1, ?_, by simpa using h2⟩
    unfold handle_device_ready
    simp only [ne_eq, he, not_false_eq_true, if_true, h1]
  · intro max_rx max_tx hpos
    obtain ⟨w1, h1, h2⟩ := report_failure_sends
      { w with
        max_rx_message := max_rx,
        max_tx_message := max_tx,
        framer := eframer_init w.framer.rx w.framer.tx (main_config max_rx max_tx) } e hout
    refine ⟨w1, ?_, h2⟩
    unfold main_startup
    simp only [open_device, h1]
    split_ifs with c1 c2 c3
    · rfl
    · rfl
    · rfl
    · omega
  · intro r
    obtain ⟨w1, h1, h2⟩ := report_failure_sends
      { w with
        max_rx_message := 0,
        max_tx_message := 0,
        framer := eframer_init w.framer.rx w.framer.tx (main_config 0 0) } EINVAL hout
    refine ⟨w1, ?_, h2⟩
    unfold main_startup
    simp only [h1, Nat.lt_irrefl, and_self, if_false, gt_iff_lt]
  · unfold eframer_process
    simp only [he, if_false]
  · intro c hc hsz hfit h2 hover
    have hproc := eframer_process_data h w c hsz hc hfit
    have hbuf := buffered_after_read w c
    have hd := eframer_try_dispatch_oversize h
      { w with framer := { w.framer with
          rx := mem_write w.framer.rx w.framer.index c,
          index := w.framer.index + c.length } }
      (by simpa using h2) (by rw [hbuf]; exact hover)
    refine ⟨{ w with framer := { w.framer with
          rx := mem_write w.framer.rx w.framer.index c,
          index := w.framer.index + c.length } }, ?_, rfl⟩
    rw [hproc]
    simp only [eframer_drain, hd]

/-- An instance of `fatal_conditions`: the error `EIO` in the sample bridge. -/
theorem fatal_conditions_witness :
    (∃ w1, report_failure sample_bridge EIO = Step.exit EXIT_FAILURE w1 ∧
      w1.stdout = sample_bridge.stdout ++
        frame_bytes ([NOTIF_ERROR] ++ str_bytes (errnum_to_posix EIO))) ∧
    eframer_process request_handler sample_bridge (ReadResult.error EIO) =
      Step.exit EXIT_FAILURE sample_bridge :=
  ⟨(fatal_conditions request_handler sample_bridge EIO (by decide) healthy_nil).1,
    (fatal_conditions request_handler sample_bridge EIO (by decide) healthy_nil).2.2.2.2.1⟩

/-- C10 fails on the code: when the device `read` in `handle_device_ready` is
interrupted (`-1`, `EINTR`), the function calls `eframer_send` with
`amt + 1 = 0` and the frame `0x00 0x00` goes out: a frame whose payload is
empty, with no kind byte. -/
theorem interrupted_device_read_sends_empty_frame :
    (handle_device_ready sample_bridge (ReadResult.error EINTR)).world.map World.stdout =
        some [0, 0] ∧
    (handle_device_ready sample_bridge (ReadResult.error EINTR)).status = none ∧
    [0, 0] = frame_bytes [] := by
  decide

/-! ## Shutdown, ignored commands, error names -/

/-- C12: for every receive state and every handler, when the control-channel
`read` of `eframer_process` returns zero bytes the process exits with
`EXIT_SUCCESS` (status 0) in the state it was in: the handler has not been
invoked and nothing has been sent. -/
theorem clean_shutdown (h : Handler) (w : World) :
    eframer_process h w (ReadResult.data []) = Step.exit EXIT_SUCCESS w ∧ EXIT_SUCCESS = 0 := by
  refine ⟨?_, rfl⟩
  unfold eframer_process
  simp

/-- C13: for every request whose command byte is not `CMD_WRITE`, `request_handler`
returns without writing to the outbound channel and without a device write;
the reserved tags `CMD_IOCTL` (2) and `CMD_POSITION` (3) are such bytes. -/
theorem unrecognized_command_ignored (request : Mem) (len : Nat) (w : World)
    (hcmd : request 0 % 256 ≠ CMD_WRITE) :
    (∃ w1, request_handler request len w = Step.ret w1 ∧
      w1.stdout = w.stdout ∧ w1.stdout_script = w.stdout_script ∧
      w1.dev_writes = w.dev_writes ∧ w1.dev_script = w.dev_script) ∧
    CMD_IOCTL % 256 ≠ CMD_WRITE ∧ CMD_POSITION % 256 ≠ CMD_WRITE := by
  refine ⟨⟨tx_store (tx_store w 0 [NOTIF_RESPONSE]) 1
    (mem_read request 1 (request 1 % 256 + 1)), ?_, rfl, rfl, rfl, rfl⟩, by decide, by decide⟩
  unfold request_handler
  simp only [if_neg hcmd]

/-- An instance of `unrecognized_command_ignored`: a request with the tag `CMD_IOCTL`. -/
theorem unrecognized_command_ignored_witness :
    (∃ w1, request_handler ioctl_request 5 sample_bridge = Step.ret w1 ∧
      w1.stdout = sample_bridge.stdout ∧ w1.stdout_script = sample_bridge.stdout_script ∧
      w1.dev_writes = sample_bridge.dev_writes ∧ w1.dev_script = sample_bridge.dev_script) ∧
    CMD_IOCTL % 256 ≠ CMD_WRITE ∧ CMD_POSITION % 256 ≠ CMD_WRITE :=
  unrecognized_command_ignored ioctl_request 5 sample_bridge (by decide)

theorem errnum_to_posix_nonempty (e : Int) : 1 ≤ (str_bytes (errnum_to_posix e)).length := by
  unfold errnum_to_posix
  repeat refine ite_both (fun s => 1 ≤ (str_bytes s).length) _ _ _ (by decide) ?_
  decide

theorem errnum_to_posix_lowercase (e : Int) :
    ∀ b ∈ str_bytes (errnum_to_posix e), lower_or_digit b := by
  unfold errnum_to_posix
  repeat refine ite_both (fun s => ∀ b ∈ str_bytes s, lower_or_digit b) _ _ _ (by decide) ?_
  decide

theorem errnum_to_posix_fallback (e : Int) (he : e ∉ posix_table.map Prod.fst) :
    errnum_to_posix e = "ebadmsg" := by
  simp only [posix_table, List.map_cons, List.map_nil, List.mem_cons, List.mem_singleton,
    List.not_mem_nil, or_false, not_or] at he
  unfold errnum_to_posix
  simp only [he, if_false]

/-- C14: `errnum_to_posix` is defined on every error number; on each of the 34
codes of `posix_table` (`EPERM` ... `ERANGE`) it returns the name listed there,
the code's symbol in lowercase; the 34 codes are distinct and so are their
names; every other number gets the name `"ebadmsg"`; every name returned has
between 1 and 7 bytes, each a lowercase letter or a digit. -/
theorem errnum_to_posix_mapping :
    posix_table.length = 34 ∧
    (∀ p ∈ posix_table, errnum_to_posix p.1 = p.2) ∧
    (posix_table.map Prod.fst).Nodup ∧
    (posix_table.map Prod.snd).Nodup ∧
    (∀ a ∈ posix_table.map Prod.fst, ∀ b ∈ posix_table.map Prod.fst,
      errnum_to_posix a = errnum_to_posix b → a = b) ∧
    (∀ e : Int, e ∉ posix_table.map Prod.fst → errnum_to_posix e = "ebadmsg") ∧
    "ebadmsg" ∉ posix_table.map Prod.snd ∧
    (∀ e : Int, 1 ≤ (str_bytes (errnum_to_posix e)).length ∧
      (str_bytes (errnum_to_posix e)).length ≤ 7 ∧
      ∀ b ∈ str_bytes (errnum_to_posix e), lower_or_digit b) := by
  refine ⟨rfl, by decide, by decide, by decide, by decide, errnum_to_posix_fallback, by decide,
    fun e => ⟨errnum_to_posix_nonempty e, errnum_to_posix_length e,
      errnum_to_posix_lowercase e⟩⟩

/-! ## The write loop in full -/

theorem interrupted_or_progress_healthy {script : List SysRet}
    (h : interrupted_or_progress script) : healthy script := by
  intro e he
  rcases h _ he with h1 | ⟨n, h1, _⟩
  · cases h1
    rfl
  · cases h1

theorem interrupted_or_progress_tail {r : SysRet} {rest : List SysRet}
    (h : interrupted_or_progress (r :: rest)) : interrupted_or_progress rest :=
  fun r1 h1 => h r1 (List.mem_cons_of_mem _ h1)

theorem wrote_after_ge (len : Nat) (script : List SysRet) :
    ∀ wrote, wrote ≤ wrote_after len script wrote := by
  induction script with
  | nil => intro wrote; exact Nat.le_refl _
  | cons r rest ih =>
    intro wrote
    cases r with
    | ok n =>
      simp only [wrote_after]
      exact Nat.le_trans (Nat.le_add_right _ _) (ih _)
    | err e =>
      simp only [wrote_after]
      exact ih wrote

/-- The write loop, entered with bytes still to write, returns with all of them
written, having used a part of the script with at most `len - wrote` writes
that were not interrupted. -/
theorem eframer_send_loop_progress (len : Nat) (script : List SysRet)
    (hs : interrupted_or_progress script) :
    ∀ (wrote : Nat) (w : World), wrote < len →
      ∃ used rest, script = used ++ rest ∧ completed_writes used ≤ len - wrote ∧
        eframer_send_loop len script wrote w =
          Step.ret { w with stdout := w.stdout ++ mem_read w.framer.tx wrote (len - wrote),
                            stdout_script := rest } := by
  induction script with
  | nil =>
    intro wrote w _
    exact ⟨[], [], rfl, Nat.zero_le _, rfl⟩
  | cons r rest ih =>
    intro wrote w hw
    have ih1 := ih (interrupted_or_progress_tail hs)
    rcases hs r (List.mem_cons_self _ _) with hr | ⟨n, hr, hn⟩
    · subst hr
      obtain ⟨used, rest1, h1, h2, h3⟩ := ih1 wrote { w with stdout_script := rest } hw
      refine ⟨SysRet.err EINTR :: used, rest1, by rw [h1]; rfl, by simpa [completed_writes] using h2, ?_⟩
      simp only [eframer_send_loop, if_true, if_pos hw, h3]
    · subst hr
      by_cases hlt : wrote + min n (len - wrote) < len
      · obtain ⟨used, rest1, h1, h2, h3⟩ := ih1 (wrote + min n (len - wrote))
          { w with stdout := w.stdout ++ mem_read w.framer.tx wrote (min n (len - wrote)),
                   stdout_script := rest } hlt
        refine ⟨SysRet.ok n :: used, rest1, by rw [h1]; rfl, ?_, ?_⟩
        · simp only [completed_writes]
          omega
        · simp only [eframer_send_loop, if_pos hlt, h3]
          have hsplit : len - wrote =
              min n (len - wrote) + (len - (wrote + min n (len - wrote))) := by omega
          conv_rhs => rw [hsplit, mem_read_add]
          simp only [List.append_assoc]
      · refine ⟨[SysRet.ok n], rest, rfl, ?_, ?_⟩
        · simp only [completed_writes]
          omega
        · have hm : min n (len - wrote) = len - wrote := by omega
          simp only [eframer_send_loop, if_neg hlt]
          rw [hm]

/-- The write loop meeting an error other than `EINTR` before the last byte is
written ends the process with `EXIT_FAILURE`, the bytes up to there written. -/
theorem eframer_send_loop_error (len : Nat) (e : Int) (he : e ≠ EINTR) (post : List SysRet)
    (pre : List SysRet) (hs : healthy pre) :
    ∀ (wrote : Nat) (w : World), wrote_after len pre wrote < len →
      eframer_send_loop len (pre ++ SysRet.err e :: post) wrote w =
        Step.exit EXIT_FAILURE
          { w with stdout := w.stdout ++
                     mem_read w.framer.tx wrote (wrote_after len pre wrote - wrote),
                   stdout_script := post } := by
  induction pre with
  | nil =>
    intro wrote w _
    simp only [List.nil_append, eframer_send_loop, if_neg he, wrote_after, Nat.sub_self,
      mem_read_zero, List.append_nil]
  | cons r rest ih =>
    intro wrote w hw
    have ih1 := ih (healthy_tail hs)
    cases r with
    | err e1 =>
      have he1 : e1 = EINTR := hs e1 (List.mem_cons_self _ _)
      subst he1
      simp only [wrote_after] at hw
      have hlt : wrote < len := Nat.lt_of_le_of_lt (wrote_after_ge len rest wrote) hw
      have := ih1 wrote { w with stdout_script := rest ++ SysRet.err e :: post } hw
      rw [List.cons_append]
      simp only [eframer_send_loop, if_true, if_pos hlt, wrote_after]
      rw [this]
    | ok n =>
      simp only [wrote_after] at hw
      have hge := wrote_after_ge len rest (wrote + min n (len - wrote))
      have hlt : wrote + min n (len - wrote) < len := Nat.lt_of_le_of_lt hge hw
      have := ih1 (wrote + min n (len - wrote))
        { w with stdout := w.stdout ++ mem_read w.framer.tx wrote (min n (len - wrote)),
                 stdout_script := rest ++ SysRet.err e :: post } hw
      rw [List.cons_append]
      simp only [eframer_send_loop, if_pos hlt, wrote_after]
      rw [this]
      simp only
      have hsplit : wrote_after len rest (wrote + min n (len - wrote)) - wrote =
          min n (len - wrote) +
            (wrote_after len rest (wrote + min n (len - wrote)) -
              (wrote + min n (len - wrote))) := by omega
      conv_rhs => rw [hsplit, mem_read_add]
      simp only [List.append_assoc]

theorem tx_after_header (w : World) (n : Nat) :
    mem_read (mem_write w.framer.tx 0 (htons_bytes n)) 0 (HEADER_SIZE + n) =
      htons_bytes n ++ tx_region w n := by
  have hh : mem_read (mem_write w.framer.tx 0 (htons_bytes n)) 0 HEADER_SIZE = htons_bytes n :=
    mem_read_write_same w.framer.tx 0 (htons_bytes n)
  have ht : mem_read (mem_write w.framer.tx 0 (htons_bytes n)) (0 + HEADER_SIZE) n =
      mem_read w.framer.tx HEADER_SIZE n := by
    rw [Nat.zero_add]
    exact mem_read_write_after _ _ _ _ _ (by simp [htons_bytes, HEADER_SIZE])
  rw [mem_read_add, hh, ht]
  rfl

theorem htons_bytes_of_le (n : Nat) (hn : n ≤ 65535) : htons_bytes n = [n / 256, n % 256] := by
  unfold htons_bytes
  rw [Nat.mod_eq_of_lt (by omega)]

/-- C11: for every `payload_length ≤ 65535` and every sequence of outcomes of the
outbound `write` calls in which each call is interrupted (`EINTR`) or writes
at least one byte (and at most what it is offered), `eframer_send` returns,
after at most `2 + payload_length` writes that were not interrupted, and the
bytes written are exactly `[payload_length / 256, payload_length % 256]`
followed by the first `payload_length` bytes of the transmit region; when a
`write` fails with another error before the last byte is out, the process
ends with `EXIT_FAILURE`, the bytes written being the part of that frame
written so far. -/
theorem send_flushes_whole_frame (w : World) (n : Nat) (hn : n ≤ 65535) :
    (interrupted_or_progress w.stdout_script →
      ∃ w1 used, eframer_send w n = Step.ret w1 ∧
        w1.stdout = w.stdout ++ ([n / 256, n % 256] ++ tx_region w n) ∧
        w.stdout_script = used ++ w1.stdout_script ∧
        completed_writes used ≤ HEADER_SIZE + n) ∧
    (∀ pre e post, w.stdout_script = pre ++ SysRet.err e :: post → e ≠ EINTR →
      healthy pre → wrote_after (HEADER_SIZE + n) pre 0 < HEADER_SIZE + n →
      ∃ w1, eframer_send w n = Step.exit EXIT_FAILURE w1 ∧
        w1.stdout = w.stdout ++
          ([n / 256, n % 256] ++ tx_region w n).take (wrote_after (HEADER_SIZE + n) pre 0) ∧
        EXIT_FAILURE ≠ 0) := by
  have hlen : size_add HEADER_SIZE n = HEADER_SIZE + n :=
    size_add_small (by unfold HEADER_SIZE SIZE_MOD; omega)
  have hpos : 0 < HEADER_SIZE + n := by unfold HEADER_SIZE; omega
  constructor
  · intro hs
    obtain ⟨used, rest, h1, h2, h3⟩ := eframer_send_loop_progress (HEADER_SIZE + n)
      w.stdout_script hs 0
      { w with framer := { w.framer with tx := mem_write w.framer.tx 0 (htons_bytes n) } } hpos
    refine ⟨{ w with
        framer := { w.framer with tx := mem_write w.framer.tx 0 (htons_bytes n) },
        stdout := w.stdout ++
          mem_read (mem_write w.framer.tx 0 (htons_bytes n)) 0 (HEADER_SIZE + n - 0),
        stdout_script := rest }, used, ?_, ?_, h1, by simpa using h2⟩
    · unfold eframer_send
      simp only [hlen]
      exact h3
    · simp only [Nat.sub_zero]
      rw [tx_after_header, htons_bytes_of_le n hn]
  · intro pre e post hscript he hpre hw
    have h3 := eframer_send_loop_error (HEADER_SIZE + n) e he post pre hpre 0
      { w with framer := { w.framer with tx := mem_write w.framer.tx 0 (htons_bytes n) } } hw
    refine ⟨{ w with
        framer := { w.framer with tx := mem_write w.framer.tx 0 (htons_bytes n) },
        stdout := w.stdout ++ mem_read (mem_write w.framer.tx 0 (htons_bytes n)) 0
          (wrote_after (HEADER_SIZE + n) pre 0 - 0),
        stdout_script := post }, ?_, ?_, by decide⟩
    · rw [← hscript] at h3
      unfold eframer_send
      simp only [hlen]
      exact h3
    · simp only [Nat.sub_zero]
      rw [← htons_bytes_of_le n hn, ← tx_after_header, mem_read_take _ _ _ _ (Nat.le_of_lt hw)]

theorem stuttering_script_ok : interrupted_or_progress stuttering_sender.stdout_script := by
  intro r hr
  have hr2 : r = SysRet.err EINTR ∨ r = SysRet.ok 1 := by
    simp only [stuttering_sender, List.mem_cons, List.mem_singleton, List.not_mem_nil,
      or_false] at hr
    rcases hr with h | h | h
    · exact Or.inl h
    · exact Or.inr h
    · exact Or.inr h
  rcases hr2 with h | h
  · exact Or.inl h
  · exact Or.inr ⟨1, h, Nat.le_refl 1⟩

/-- An instance of `send_flushes_whole_frame`: an interrupted call, then two
one-byte writes, then the rest. -/
theorem send_flushes_whole_frame_witness :
    ∃ w1 used, eframer_send stuttering_sender 2 = Step.ret w1 ∧
      w1.stdout = stuttering_sender.stdout ++ ([2 / 256, 2 % 256] ++ tx_region stuttering_sender 2) ∧
      stuttering_sender.stdout_script = used ++ w1.stdout_script ∧
      completed_writes used ≤ HEADER_SIZE + 2 :=
  (send_flushes_whole_frame stuttering_sender 2 (by decide)).1 stuttering_script_ok

/-! ## The request handler on every request -/

/-- The write loop leaves the device alone. -/
theorem eframer_send_loop_device (len : Nat) (script : List SysRet) :
    ∀ (wrote : Nat) (w w1 : World),
      (eframer_send_loop len script wrote w).world = some w1 →
        w1.dev_writes = w.dev_writes ∧ w1.dev_script = w.dev_script := by
  induction script with
  | nil =>
    intro wrote w w1 hw
    simp only [eframer_send_loop, Step.world, Option.some.injEq] at hw
    rw [← hw]
    exact ⟨rfl, rfl⟩
  | cons r rest ih =>
    intro wrote w w1
    cases r with
    | err e =>
      simp only [eframer_send_loop]
      split_ifs with h1 h2
      · intro hw
        exact ih wrote { w with stdout_script := rest } w1 hw
      · intro hw
        simp only [Step.world, Option.some.injEq] at hw
        rw [← hw]
        exact ⟨rfl, rfl⟩
      · intro hw
        simp only [Step.world, Option.some.injEq] at hw
        rw [← hw]
        exact ⟨rfl, rfl⟩
    | ok n =>
      simp only [eframer_send_loop]
      split_ifs with h1
      · intro hw
        exact ih (wrote + min n (len - wrote))
          { w with stdout := w.stdout ++ mem_read w.framer.tx wrote (min n (len - wrote)),
                   stdout_script := rest } w1 hw
      · intro hw
        simp only [Step.world, Option.some.injEq] at hw
        rw [← hw]
        exact ⟨rfl, rfl⟩

theorem eframer_send_device (w w1 : World) (n : Nat)
    (hw : (eframer_send w n).world = some w1) :
    w1.dev_writes = w.dev_writes ∧ w1.dev_script = w.dev_script := by
  unfold eframer_send at hw
  exact eframer_send_loop_device _ _ 0
    { w with framer := { w.framer with tx := mem_write w.framer.tx 0 (htons_bytes n) } } w1 hw

theorem request_reply_device (w w1 : World) (response_len : Nat) (rc : SysRet)
    (hw : (request_reply w response_len rc).world = some w1) :
    w1.dev_writes = w.dev_writes ∧ w1.dev_script = w.dev_script := by
  cases rc with
  | err e =>
    simp only [request_reply] at hw
    have := eframer_send_device
      (tx_store (tx_store (tx_store w response_len [255]) (response_len + 1) [255])
        (response_len + 2) (str_bytes (errnum_to_posix e))) w1 _ hw
    exact this
  | ok n =>
    simp only [request_reply] at hw
    have := eframer_send_device
      (tx_store (tx_store w response_len [n / 256 % 256]) (response_len + 1) [n % 256]) w1 _ hw
    exact this

/-- The handler on a request with the tag `CMD_WRITE`, whatever else it holds. -/
theorem request_handler_cmd_write (request : Mem) (len : Nat) (w : World)
    (hcmd : request 0 % 256 = CMD_WRITE) :
    request_handler request len w =
      if size_sub (size_sub len (request 1 % 256)) 2 ≤ w.max_tx_message then
        request_reply
          (dev_write (tx_store (tx_store w 0 [NOTIF_RESPONSE]) 1
              (mem_read request 1 (request 1 % 256 + 1)))
            (mem_read request (2 + request 1 % 256)
              (size_sub (size_sub len (request 1 % 256)) 2))).2
          (request 1 % 256 + 2)
          (dev_write (tx_store (tx_store w 0 [NOTIF_RESPONSE]) 1
              (mem_read request 1 (request 1 % 256 + 1)))
            (mem_read request (2 + request 1 % 256)
              (size_sub (size_sub len (request 1 % 256)) 2))).1
      else
        request_reply
          (tx_store (tx_store w 0 [NOTIF_RESPONSE]) 1 (mem_read request 1 (request 1 % 256 + 1)))
          (request 1 % 256 + 2) (SysRet.err E2BIG) := by
  unfold request_handler
  simp only [hcmd, if_true]

/-- A token length that reaches past the end of a frame of at least one byte makes
the unsigned `len - from_len - 2` wrap to one of the 256 largest `size_t` values. -/
theorem payload_len_wraps (len f : Nat) (hf : f < 256) (h1 : 1 ≤ len) (h16 : len ≤ 65535)
    (hbad : len < f + 2) : SIZE_MOD - 256 ≤ size_sub (size_sub len f) 2 := by
  unfold size_sub SIZE_MOD
  norm_num
  omega

/-- On a request whose token fits (`from_len + 2 ≤ len`) the payload length is not wrapped. -/
theorem payload_len_plain (len f : Nat) (h16 : len ≤ 65535) (hok : f + 2 ≤ len) :
    size_sub (size_sub len f) 2 = len - f - 2 := by
  have h3 : size_sub len f = len - f := size_sub_small (by unfold SIZE_MOD; omega) (by omega)
  have h4 : size_sub (len - f) 2 = len - f - 2 :=
    size_sub_small (by unfold SIZE_MOD; omega) (by omega)
  rw [h3, h4]

theorem tx_region_kind_then (w : World) (k : Nat) (X : List Nat) :
    tx_region (tx_store (tx_store w 0 [k]) 1 X) ([k] ++ X).length = [k] ++ X := by
  have h0 := tx_region_store_first w [k]
  exact tx_region_store_append (tx_store w 0 [k]) [k] X 1 ([k] ++ X).length h0 rfl
    (by simp; omega)

/-- C17: for every frame of length `len ≥ 1` delivered to `request_handler` and
every `max_tx < 2^64 - 256`: if the frame starts with `CMD_WRITE` and its
token-length byte violates `token_length + 2 ≤ len`, the unsigned
`len - token_length - 2` is greater than `max_tx`, no device write is made and
the reply carries `0xFF 0xFF` and the name `"e2big"`; and whenever the handler
does issue a device write, the request starts with `CMD_WRITE`, satisfies
`token_length + 2 ≤ len`, and exactly the `len - token_length - 2` bytes that
follow the token are written. -/
theorem malformed_write_request (request : Mem) (len : Nat) (w : World)
    (hlen1 : 1 ≤ len) (hlen16 : len ≤ 65535)
    (hmax : w.max_tx_message < SIZE_MOD - 256) :
    (request 0 % 256 = CMD_WRITE → len < request 1 % 256 + 2 → healthy w.stdout_script →
      w.max_tx_message < size_sub (size_sub len (request 1 % 256)) 2 ∧
      ∃ w1, request_handler request len w = Step.ret w1 ∧
        w1.dev_writes = w.dev_writes ∧ w1.dev_script = w.dev_script ∧
        w1.stdout = w.stdout ++
          frame_bytes ([NOTIF_RESPONSE] ++ mem_read request 1 (request 1 % 256 + 1) ++
            [0xFF, 0xFF] ++ str_bytes "e2big")) ∧
    (∀ w1, (request_handler request len w).world = some w1 →
      w1.dev_writes ≠ w.dev_writes →
      request 0 % 256 = CMD_WRITE ∧ request 1 % 256 + 2 ≤ len ∧
      w1.dev_writes = w.dev_writes ++
        [mem_read request (2 + request 1 % 256) (len - request 1 % 256 - 2)]) := by
  have hf : request 1 % 256 < 256 := Nat.mod_lt _ (by decide)
  constructor
  · intro hcmd hbad hout
    have hwrap := payload_len_wraps len (request 1 % 256) hf hlen1 hlen16 hbad
    have hgt : w.max_tx_message < size_sub (size_sub len (request 1 % 256)) 2 :=
      Nat.lt_of_lt_of_le hmax hwrap
    refine ⟨hgt, ?_⟩
    have hal : ([NOTIF_RESPONSE] ++ mem_read request 1 (request 1 % 256 + 1)).length =
        request 1 % 256 + 2 := by
      simp
    obtain ⟨w1, h1, h2, h3, h4⟩ := request_reply_err
      (tx_store (tx_store w 0 [NOTIF_RESPONSE]) 1 (mem_read request 1 (request 1 % 256 + 1)))
      ([NOTIF_RESPONSE] ++ mem_read request 1 (request 1 % 256 + 1)) E2BIG
      (tx_region_kind_then w NOTIF_RESPONSE _) (by rw [hal]; omega) (by simpa using hout)
    refine ⟨w1, ?_, by simpa using h3, by simpa using h4, ?_⟩
    · rw [request_handler_cmd_write request len w hcmd, if_neg (by omega), ← hal]
      exact h1
    · rw [h2]
      rfl
  · intro w1 hw hchg
    by_cases hcmd : request 0 % 256 = CMD_WRITE
    · rw [request_handler_cmd_write request len w hcmd] at hw
      by_cases hle : size_sub (size_sub len (request 1 % 256)) 2 ≤ w.max_tx_message
      · rw [if_pos hle] at hw
        have hok : request 1 % 256 + 2 ≤ len := by
          by_contra hcon
          have hwrap := payload_len_wraps len (request 1 % 256) hf hlen1 hlen16 (by omega)
          omega
        have hdev := (request_reply_device _ w1 _ _ hw).1
        rw [dev_write_log, payload_len_plain len _ hlen16 hok] at hdev
        exact ⟨hcmd, hok, by simpa using hdev⟩
      · rw [if_neg hle] at hw
        have hdev := (request_reply_device _ w1 _ _ hw).1
        exact absurd (by simpa using hdev) hchg
    · unfold request_handler at hw
      simp only [if_neg hcmd, Step.world, Option.some.injEq] at hw
      rw [← hw] at hchg
      exact absurd rfl hchg

/-- An instance of `malformed_write_request`: a 2-byte frame announcing a 9-byte token. -/
theorem malformed_write_request_witness :
    sample_bridge.max_tx_message < size_sub (size_sub 2 (short_request 1 % 256)) 2 ∧
    ∃ w1, request_handler short_request 2 sample_bridge = Step.ret w1 ∧
      w1.dev_writes = sample_bridge.dev_writes ∧ w1.dev_script = sample_bridge.dev_script ∧
      w1.stdout = sample_bridge.stdout ++
        frame_bytes ([NOTIF_RESPONSE] ++ mem_read short_request 1 (short_request 1 % 256 + 1) ++
          [0xFF, 0xFF] ++ str_bytes "e2big") :=
  (malformed_write_request short_request 2 sample_bridge (by decide) (by decide)
    (by decide)).1 (by decide) (by decide) healthy_nil

theorem dev_write_fst_congr (w1 w2 : World) (p : List Nat) (h : w1.dev_script = w2.dev_script) :
    (dev_write w1 p).1 = (dev_write w2 p).1 := by
  unfold dev_write
  rw [h]
  cases w2.dev_script with
  | nil => rfl
  | cons r rest => cases r <;> rfl

theorem dev_write_ok_le (w : World) (p : List Nat) (m : Nat)
    (h : (dev_write w p).1 = SysRet.ok m) : m ≤ p.length := by
  unfold dev_write at h
  cases hs : w.dev_script with
  | nil =>
    rw [hs] at h
    simp only [SysRet.ok.injEq] at h
    omega
  | cons r rest =>
    rw [hs] at h
    cases r with
    | ok n =>
      simp only [SysRet.ok.injEq] at h
      omega
    | err e => simp at h

/-- The reply to a well-formed `CMD_WRITE` request: the kind, the echoed token,
then the status bytes of the outcome of the write. -/
theorem request_handler_write_reply {request : Mem} {len : Nat} {T data : List Nat}
    (hq : WriteRequest request len T data) (w : World) (hout : healthy w.stdout_script) :
    ∃ w1, request_handler request len w = Step.ret w1 ∧
      w1.stdout = w.stdout ++
        frame_bytes (([NOTIF_RESPONSE, T.length] ++ T) ++ reply_status (write_outcome w data)) := by
  have hlen := hq.len_eq
  have h16 := hq.len_16
  have htb := hq.token_byte
  have hal : ([NOTIF_RESPONSE, T.length] ++ T).length = T.length + 2 := by
    simp
  have hso := dev_write_stdout (tx_store (tx_store w 0 [NOTIF_RESPONSE]) 1 (T.length :: T)) data
  have hfst := dev_write_fst_congr (tx_store (tx_store w 0 [NOTIF_RESPONSE]) 1 (T.length :: T))
    w data rfl
  rw [request_handler_write_eq hq w]
  unfold write_outcome
  by_cases hS : data.length ≤ w.max_tx_message
  · rw [if_pos hS, if_pos hS, ← hfst, ← hal]
    cases hrc : (dev_write (tx_store (tx_store w 0 [NOTIF_RESPONSE]) 1 (T.length :: T)) data).1 with
    | ok m =>
      obtain ⟨w1, h1, h2, _⟩ := request_reply_ok
        (dev_write (tx_store (tx_store w 0 [NOTIF_RESPONSE]) 1 (T.length :: T)) data).2
        ([NOTIF_RESPONSE, T.length] ++ T) m
        (tx_region_before_reply w _ T (dev_write_framer _ _))
        (by rw [hal]; omega) (by rw [hso.2]; simpa using hout)
      refine ⟨w1, h1, ?_⟩
      rw [h2, hso.1]
      rfl
    | err e =>
      obtain ⟨w1, h1, h2, _⟩ := request_reply_err
        (dev_write (tx_store (tx_store w 0 [NOTIF_RESPONSE]) 1 (T.length :: T)) data).2
        ([NOTIF_RESPONSE, T.length] ++ T) e
        (tx_region_before_reply w _ T (dev_write_framer _ _))
        (by rw [hal]; omega) (by rw [hso.2]; simpa using hout)
      refine ⟨w1, h1, ?_⟩
      rw [h2, hso.1]
      simp [reply_status]
  · rw [if_neg hS, if_neg hS, ← hal]
    obtain ⟨w1, h1, h2, _⟩ := request_reply_err
      (tx_store (tx_store w 0 [NOTIF_RESPONSE]) 1 (T.length :: T))
      ([NOTIF_RESPONSE, T.length] ++ T) E2BIG
      (tx_region_before_reply w _ T rfl) (by rw [hal]; omega) (by simpa using hout)
    refine ⟨w1, h1, ?_⟩
    rw [h2]
    simp [reply_status]

theorem write_outcome_ok_le (w : World) (data : List Nat) (m : Nat)
    (h : write_outcome w data = SysRet.ok m) : m ≤ data.length := by
  unfold write_outcome at h
  split_ifs at h
  exact dev_write_ok_le w data m h

/-- C20: for every `max_tx` and every well-formed `CMD_WRITE` request (a frame
payload with token `T`), `request_handler` replies (the outbound channel taking
the reply) with `[NOTIF_RESPONSE, |T|] ++ T` followed by a status field whose
first two bytes are `0xFF 0xFF` if and only if the write failed (device error,
or `E2BIG` for data longer than `max_tx`); when the write succeeded with `rc`
bytes the status field is exactly the two bytes `[rc / 256, rc % 256]`, which
decode, high byte first, to `rc`. -/
theorem status_field_distinguishes (request : Mem) (len : Nat) (w : World) (T data : List Nat)
    (hq : WriteRequest request len T data) (hout : healthy w.stdout_script) :
    ∃ w1 reply, request_handler request len w = Step.ret w1 ∧
      w1.stdout = w.stdout ++ frame_bytes reply ∧
      reply.take (2 + T.length) = [NOTIF_RESPONSE, T.length] ++ T ∧
      ((reply.drop (2 + T.length)).take 2 = [0xFF, 0xFF] ↔
        ∃ e, write_outcome w data = SysRet.err e) ∧
      (∀ rc, write_outcome w data = SysRet.ok rc →
        reply.drop (2 + T.length) = [rc / 256, rc % 256] ∧
        declared_len (reply.drop (2 + T.length)) = rc) := by
  have hlen := hq.len_eq
  have h16 := hq.len_16
  have hal : ([NOTIF_RESPONSE, T.length] ++ T).length = 2 + T.length := by
    simp
    omega
  obtain ⟨w1, h1, h2⟩ := request_handler_write_reply hq w hout
  refine ⟨w1, ([NOTIF_RESPONSE, T.length] ++ T) ++ reply_status (write_outcome w data),
    h1, h2, List.take_left' hal, ?_, ?_⟩
  · rw [List.drop_left' hal]
    cases ho : write_outcome w data with
    | ok m =>
      have hm := write_outcome_ok_le w data m ho
      simp only [reply_status, List.take_succ_cons, List.take_zero, List.cons.injEq, and_true,
        reduceCtorEq, exists_false, iff_false, not_and]
      omega
    | err e =>
      simp [reply_status]
  · intro rc ho
    have hm := write_outcome_ok_le w data rc ho
    rw [List.drop_left' hal, ho]
    have hsmall : rc / 256 % 256 = rc / 256 := by omega
    simp only [reply_status, hsmall, declared_len, ntohs_bytes, List.getD_cons_zero,
      List.getD_cons_succ, true_and]
    omega

/-- An instance of `status_field_distinguishes`: the sample request on the sample bridge. -/
theorem status_field_distinguishes_witness :
    ∃ w1 reply, request_handler sample_request 5 sample_bridge = Step.ret w1 ∧
      w1.stdout = sample_bridge.stdout ++ frame_bytes reply ∧
      reply.take (2 + [42].length) = [NOTIF_RESPONSE, [42].length] ++ [42] ∧
      ((reply.drop (2 + [42].length)).take 2 = [0xFF, 0xFF] ↔
        ∃ e, write_outcome sample_bridge [7, 8] = SysRet.err e) ∧
      (∀ rc, write_outcome sample_bridge [7, 8] = SysRet.ok rc →
        reply.drop (2 + [42].length) = [rc / 256, rc % 256] ∧
        declared_len (reply.drop (2 + [42].length)) = rc) :=
  status_field_distinguishes sample_request 5 sample_bridge [42] [7, 8] sample_request_ok
    healthy_nil

theorem long_token_length : long_token.length = 255 := by
  unfold long_token
  rw [List.length_replicate]

/-- A buffer written with a tag `CMD_WRITE`, a token length, the token and the
data holds a well-formed request. -/
theorem write_request_of_bytes (m : Mem) (T data : List Nat) (hT : T.length ≤ 255)
    (h16 : 2 + T.length + data.length ≤ 65535) :
    WriteRequest (mem_write m 0 ([CMD_WRITE, T.length] ++ T ++ data))
      (2 + T.length + data.length) T data := by
  have hlen : ([CMD_WRITE, T.length] ++ T ++ data).length = 2 + T.length + data.length := by
    simp
    omega
  have hall := mem_read_write_same m 0 ([CMD_WRITE, T.length] ++ T ++ data)
  rw [hlen] at hall
  have h0 := mem_write_inside m 0 ([CMD_WRITE, T.length] ++ T ++ data) 0 (by rw [hlen]; omega)
  have h1 := mem_write_inside m 0 ([CMD_WRITE, T.length] ++ T ++ data) 1 (by rw [hlen]; omega)
  have hdrop := congrArg (List.drop 2) hall
  rw [mem_read_drop _ _ _ _ (by omega)] at hdrop
  have htok := congrArg (List.take T.length) hdrop
  rw [mem_read_take _ _ _ _ (by omega)] at htok
  have hdrop2 := congrArg (List.drop (2 + T.length)) hall
  rw [mem_read_drop _ _ _ _ (by omega)] at hdrop2
  refine ⟨?_, ?_, hT, ?_, ?_, rfl, h16⟩
  · simpa using h0
  · simpa using h1
  · simpa using htok
  · have hd : 2 + T.length + data.length - (2 + T.length) = data.length := by omega
    rw [hd] at hdrop2
    rw [Nat.zero_add] at hdrop2
    have hl2 : ([CMD_WRITE, T.length] ++ T).length = 2 + T.length := by
      simp
      omega
    rw [hdrop2]
    exact List.drop_left' hl2

theorem long_token_request_ok : WriteRequest long_token_request 257 long_token [] := by
  have h := write_request_of_bytes (fun _ => 0) long_token [] (by rw [long_token_length])
    (by rw [long_token_length]; decide)
  rw [long_token_length, List.append_nil] at h
  exact h

/-- C19 fails on the code: the bridge configured by `main` for `max_rx = 0`,
`max_tx = 4` has a transmit region of `0 + 256` bytes and accepts request frames
of up to 258 bytes; the request `CMD_WRITE` with a 255-byte token and no data
is such a frame (257 bytes), and the reply `request_handler` builds in the
transmit region and passes to `eframer_send` has `1 + 1 + 255 + 2 = 259` bytes. -/
theorem long_token_reply_exceeds_capacity :
    main_startup (fresh_world 0 0 0 0) 0 4 (SysRet.ok 3) = Step.ret write_only_bridge ∧
    write_only_bridge.framer.config.max_tx_message_size = 256 ∧
    HEADER_SIZE + 257 ≤ write_only_bridge.framer.config.max_rx_message_size ∧
    WriteRequest long_token_request 257 long_token [] ∧
    ∃ w1 reply, request_handler long_token_request 257 write_only_bridge = Step.ret w1 ∧
      w1.stdout = frame_bytes reply ∧ reply.length = 259 ∧
      write_only_bridge.framer.config.max_tx_message_size < reply.length := by
  obtain ⟨w1, h1, h2⟩ := request_handler_write_reply long_token_request_ok write_only_bridge
    healthy_nil
  have ho : write_outcome write_only_bridge [] = SysRet.ok 0 := by decide
  have hl : (([NOTIF_RESPONSE, long_token.length] ++ long_token) ++
      reply_status (write_outcome write_only_bridge [])).length = 259 := by
    rw [ho]
    simp only [reply_status, List.length_append, List.length_cons, List.length_nil,
      long_token_length]
  refine ⟨rfl, by decide, by decide, long_token_request_ok, w1, _, h1, ?_, hl, ?_⟩
  · rw [h2]
    rfl
  · rw [hl]
    decide

/-! ## Invariants of the receive side -/

theorem mem_move_outside (m : Mem) (dst src n a : Nat) (ha : a < dst ∨ dst + n ≤ a) :
    mem_move m dst src n a = m a := by
  unfold mem_move
  have hc : ¬ (dst ≤ a ∧ a < dst + n) := by omega
  rw [if_neg hc]

/-- The dispatch loop never raises the cursor, keeps the configuration, and
writes only below the cursor it started from. -/
theorem eframer_drain_bound (h : Handler) (hk : KeepsReceiveSide h) :
    ∀ (fuel : Nat) (w w1 : World), (eframer_drain h fuel w).world = some w1 →
      w1.framer.index ≤ w.framer.index ∧ w1.framer.config = w.framer.config ∧
      ∀ a, w.framer.index ≤ a → w1.framer.rx a = w.framer.rx a := by
  intro fuel
  induction fuel with
  | zero =>
    intro w w1 hw
    simp [eframer_drain, Step.world] at hw
  | succ f ih =>
    intro w w1 hw
    unfold eframer_drain eframer_try_dispatch at hw
    by_cases h1 : w.framer.index < HEADER_SIZE
    · simp only [h1, if_true, Step.world, Option.some.injEq] at hw
      rw [← hw]
      exact ⟨Nat.le_refl _, rfl, fun _ _ => rfl⟩
    · simp only [h1, if_false] at hw
      by_cases h2 : HEADER_SIZE + ntohs_bytes (w.framer.rx 0) (w.framer.rx 1) >
          w.framer.config.max_rx_message_size
      · simp only [h2, if_true, Step.world, Option.some.injEq] at hw
        rw [← hw]
        exact ⟨Nat.le_refl _, rfl, fun _ _ => rfl⟩
      · simp only [h2, if_false] at hw
        by_cases h3 : HEADER_SIZE + ntohs_bytes (w.framer.rx 0) (w.framer.rx 1) ≤ w.framer.index
        · simp only [h3, if_true] at hw
          cases hh : h (mem_at w.framer.rx HEADER_SIZE)
              (ntohs_bytes (w.framer.rx 0) (w.framer.rx 1))
              { w with calls := w.calls ++
                [(mem_read w.framer.rx HEADER_SIZE (ntohs_bytes (w.framer.rx 0) (w.framer.rx 1)),
                  ntohs_bytes (w.framer.rx 0) (w.framer.rx 1))] } with
          | ret w2 =>
            have hrx := hk.rx _ _ _ w2 (by rw [hh]; rfl)
            have hix := hk.index _ _ _ w2 (by rw [hh]; rfl)
            have hcf := hk.config _ _ _ w2 (by rw [hh]; rfl)
            simp only at hrx hix hcf
            rw [hh] at hw
            simp only at hw
            have hne : HEADER_SIZE + ntohs_bytes (w.framer.rx 0) (w.framer.rx 1) ≠ 0 := by
              simp [HEADER_SIZE]
            rw [if_neg hne] at hw
            split_ifs at hw with h4
            · obtain ⟨i1, i2, i3⟩ := ih _ w1 hw
              simp only at i1 i2 i3
              refine ⟨by omega, by rw [i2, hcf], ?_⟩
              intro a ha
              rw [i3 a (by omega), mem_move_outside _ _ _ _ _ (Or.inr (by omega)), hrx]
            · simp only [Step.world, Option.some.injEq] at hw
              rw [← hw]
              exact ⟨Nat.zero_le _, hcf, fun a _ => by simp only; rw [hrx]⟩
          | exit st w2 =>
            have hrx := hk.rx _ _ _ w2 (by rw [hh]; rfl)
            have hix := hk.index _ _ _ w2 (by rw [hh]; rfl)
            have hcf := hk.config _ _ _ w2 (by rw [hh]; rfl)
            simp only at hrx hix hcf
            rw [hh] at hw
            simp only [Step.world, Option.some.injEq] at hw
            rw [← hw]
            exact ⟨by omega, hcf, fun a _ => by rw [hrx]⟩
          | nofuel => exact absurd hh (hk.ends _ _ _)
        · simp only [h3, if_false, if_true, Step.world, Option.some.injEq] at hw
          rw [← hw]
          exact ⟨Nat.le_refl _, rfl, fun _ _ => rfl⟩

/-- One `eframer_process` call keeps the configuration. -/
theorem eframer_process_config (h : Handler) (hk : KeepsReceiveSide h) (w w1 : World)
    (r : ReadResult) (hw : (eframer_process h w r).world = some w1) :
    w1.framer.config = w.framer.config := by
  unfold eframer_process at hw
  cases r with
  | error e =>
    simp only at hw
    split_ifs at hw <;>
    · simp only [Step.world, Option.some.injEq] at hw
      rw [← hw]
  | data bytes =>
    simp only at hw
    split_ifs at hw
    · simp only [Step.world, Option.some.injEq] at hw
      rw [← hw]
    · exact (eframer_drain_bound h hk _ _ w1 hw).2.1

/-- One `eframer_process` call from a cursor within `max_rx_message_size` leaves the
cursor within it and writes no byte at or beyond `rx + max_rx_message_size`. -/
theorem eframer_process_bound (h : Handler) (hk : KeepsReceiveSide h) (w w1 : World)
    (r : ReadResult) (hsz : w.framer.config.max_rx_message_size < SIZE_MOD)
    (hidx : w.framer.index ≤ w.framer.config.max_rx_message_size)
    (hw : (eframer_process h w r).world = some w1) :
    w1.framer.index ≤ w.framer.config.max_rx_message_size ∧
    ∀ a, w.framer.config.max_rx_message_size ≤ a → w1.framer.rx a = w.framer.rx a := by
  have hcount : size_sub w.framer.config.max_rx_message_size w.framer.index =
      w.framer.config.max_rx_message_size - w.framer.index := size_sub_small hsz hidx
  unfold eframer_process at hw
  cases r with
  | error e =>
    simp only at hw
    split_ifs at hw <;>
    · simp only [Step.world, Option.some.injEq] at hw
      rw [← hw]
      exact ⟨hidx, fun _ _ => rfl⟩
  | data bytes =>
    simp only [hcount] at hw
    have hgot : (bytes.take (w.framer.config.max_rx_message_size - w.framer.index)).length ≤
        w.framer.config.max_rx_message_size - w.framer.index := by
      rw [List.length_take]
      exact Nat.min_le_left _ _
    split_ifs at hw
    · simp only [Step.world, Option.some.injEq] at hw
      rw [← hw]
      exact ⟨hidx, fun _ _ => rfl⟩
    · obtain ⟨i1, _, i3⟩ := eframer_drain_bound h hk _ _ w1 hw
      simp only at i1 i3
      refine ⟨by omega, ?_⟩
      intro a ha
      rw [i3 a (by omega), mem_write_outside _ _ _ _ (Or.inr (by omega))]

/-- Any number of `eframer_process` calls from a cursor within
`max_rx_message_size` leave it within, and leave `rx` alone from there on. -/
theorem eframer_feed_bound (h : Handler) (hk : KeepsReceiveSide h) (rx0 : Mem)
    (cfg : eframer_config) (hsz : cfg.max_rx_message_size < SIZE_MOD)
    (rs : List ReadResult) :
    ∀ (w w1 : World), w.framer.config = cfg →
      (∀ a, cfg.max_rx_message_size ≤ a → w.framer.rx a = rx0 a) →
      w.framer.index ≤ cfg.max_rx_message_size →
      (eframer_feed h rs w).world = some w1 →
      w1.framer.index ≤ cfg.max_rx_message_size ∧
      w1.framer.config = cfg ∧
      ∀ a, cfg.max_rx_message_size ≤ a → w1.framer.rx a = rx0 a := by
  induction rs with
  | nil =>
    intro w w1 hc hr hi hw
    simp only [eframer_feed, Step.world, Option.some.injEq] at hw
    rw [← hw]
    exact ⟨hi, hc, hr⟩
  | cons r rest ih =>
    intro w w1 hc hr hi hw
    simp only [eframer_feed] at hw
    cases hp : eframer_process h w r with
    | ret w2 =>
      rw [hp] at hw
      simp only at hw
      have hpw : (eframer_process h w r).world = some w2 := by rw [hp]; rfl
      have hcfg := eframer_process_config h hk w w2 r hpw
      obtain ⟨b1, b2⟩ := eframer_process_bound h hk w w2 r (by rw [hc]; exact hsz)
        (by rw [hc]; exact hi) hpw
      rw [hc] at b1 b2 hcfg
      exact ih w2 w1 hcfg (fun a ha => by rw [b2 a ha, hr a ha]) b1 hw
    | exit st w2 =>
      rw [hp] at hw
      simp only [Step.world, Option.some.injEq] at hw
      have hpw : (eframer_process h w r).world = some w2 := by rw [hp]; rfl
      have hcfg := eframer_process_config h hk w w2 r hpw
      obtain ⟨b1, b2⟩ := eframer_process_bound h hk w w2 r (by rw [hc]; exact hsz)
        (by rw [hc]; exact hi) hpw
      rw [hc] at b1 b2 hcfg
      rw [← hw]
      exact ⟨b1, hcfg, fun a ha => by rw [b2 a ha, hr a ha]⟩
    | nofuel =>
      rw [hp] at hw
      simp [Step.world] at hw

/-- C16: starting from `eframer_init` (cursor 0), after any number of
`eframer_process` calls, whatever each `read` returns (bytes, of which at
most the requested `max_rx_message_size - index` are taken, end of input,
`EINTR` or another error), the cursor satisfies `index ≤ max_rx_message_size`,
so it is within the capacity `max_rx_message_size + 2`, and no byte at or
beyond `rx + max_rx_message_size` has been written by a read or a compaction. -/
theorem receive_cursor_bound (h : Handler) (hk : KeepsReceiveSide h) (rx0 tx0 : Mem)
    (cfg : eframer_config) (hsz : cfg.max_rx_message_size < SIZE_MOD)
    (w w1 : World) (hinit : w.framer = eframer_init rx0 tx0 cfg)
    (rs : List ReadResult) (hrun : (eframer_feed h rs w).world = some w1) :
    w1.framer.index ≤ cfg.max_rx_message_size ∧
    w1.framer.index ≤ cfg.max_rx_message_size + HEADER_SIZE ∧
    w1.framer.config = cfg ∧
    ∀ a, cfg.max_rx_message_size ≤ a → w1.framer.rx a = rx0 a := by
  obtain ⟨j1, j2, j3⟩ := eframer_feed_bound h hk rx0 cfg hsz rs w w1
    (by rw [hinit]; rfl) (fun a _ => by rw [hinit]; rfl)
    (by rw [hinit]; exact Nat.zero_le _) hrun
  exact ⟨j1, by omega, j2, j3⟩

/-- An instance of `receive_cursor_bound`: the sample bridge after a read of
three bytes and an interrupted read. -/
theorem receive_cursor_bound_witness :
    ∃ w1, (eframer_feed request_handler [ReadResult.data [0, 5, 1], ReadResult.error EINTR]
        sample_bridge).world = some w1 ∧
      w1.framer.index ≤ 260 ∧ w1.framer.index ≤ 260 + HEADER_SIZE ∧
      w1.framer.config = sample_bridge.framer.config ∧
      ∀ a, 260 ≤ a → w1.framer.rx a = 0 := by
  obtain ⟨w1, hw1⟩ := Option.isSome_iff_exists.mp
    (by decide : ((eframer_feed request_handler
      [ReadResult.data [0, 5, 1], ReadResult.error EINTR] sample_bridge).world).isSome = true)
  exact ⟨w1, hw1, receive_cursor_bound request_handler request_handler_keeps (fun _ => 0)
    (fun _ => 0) sample_bridge.framer.config (by decide) sample_bridge w1 rfl
    [ReadResult.data [0, 5, 1], ReadResult.error EINTR] hw1⟩

/-- When the dispatch loop returns, what is left in the buffer is no whole frame. -/
theorem eframer_drain_ret_incomplete (h : Handler) (hk : KeepsReceiveSide h) :
    ∀ (fuel : Nat) (w w1 : World), eframer_drain h fuel w = Step.ret w1 →
      incomplete w1.framer.config (buffered w1) := by
  intro fuel
  induction fuel with
  | zero =>
    intro w w1 hw
    simp [eframer_drain] at hw
  | succ f ih =>
    intro w w1 hw
    unfold eframer_drain eframer_try_dispatch at hw
    by_cases h1 : w.framer.index < HEADER_SIZE
    · simp only [h1, if_true, Step.ret.injEq] at hw
      rw [← hw]
      exact Or.inl (by rw [buffered_length]; exact h1)
    · simp only [h1, if_false] at hw
      by_cases h2 : HEADER_SIZE + ntohs_bytes (w.framer.rx 0) (w.framer.rx 1) >
          w.framer.config.max_rx_message_size
      · simp [h2] at hw
      · simp only [h2, if_false] at hw
        by_cases h3 : HEADER_SIZE + ntohs_bytes (w.framer.rx 0) (w.framer.rx 1) ≤ w.framer.index
        · simp only [h3, if_true] at hw
          cases hh : h (mem_at w.framer.rx HEADER_SIZE)
              (ntohs_bytes (w.framer.rx 0) (w.framer.rx 1))
              { w with calls := w.calls ++
                [(mem_read w.framer.rx HEADER_SIZE (ntohs_bytes (w.framer.rx 0) (w.framer.rx 1)),
                  ntohs_bytes (w.framer.rx 0) (w.framer.rx 1))] } with
          | ret w2 =>
            rw [hh] at hw
            simp only at hw
            have hne : HEADER_SIZE + ntohs_bytes (w.framer.rx 0) (w.framer.rx 1) ≠ 0 := by
              simp [HEADER_SIZE]
            rw [if_neg hne] at hw
            split_ifs at hw with h4
            · exact ih _ w1 hw
            · simp only [Step.ret.injEq] at hw
              rw [← hw]
              exact Or.inl (by simp [buffered, HEADER_SIZE])
          | exit st w2 =>
            rw [hh] at hw
            simp at hw
          | nofuel => exact absurd hh (hk.ends _ _ _)
        · simp only [h3, if_false, if_true, Step.ret.injEq] at hw
          rw [← hw]
          right
          rw [declared_len_buffered w (by omega), buffered_length]
          exact ⟨by omega, by omega⟩

/-- An `eframer_process` call that returns leaves no whole frame in the buffer,
if there was none before. -/
theorem eframer_process_ret_incomplete (h : Handler) (hk : KeepsReceiveSide h) (w w1 : World)
    (r : ReadResult) (hinv : incomplete w.framer.config (buffered w))
    (hw : eframer_process h w r = Step.ret w1) :
    incomplete w1.framer.config (buffered w1) := by
  unfold eframer_process at hw
  cases r with
  | error e =>
    simp only at hw
    split_ifs at hw
    simp only [Step.ret.injEq] at hw
    rw [← hw]
    exact hinv
  | data bytes =>
    simp only at hw
    split_ifs at hw
    exact eframer_drain_ret_incomplete h hk _ _ w1 hw

theorem eframer_feed_ret_incomplete (h : Handler) (hk : KeepsReceiveSide h)
    (rs : List ReadResult) :
    ∀ (w w1 : World), incomplete w.framer.config (buffered w) →
      eframer_feed h rs w = Step.ret w1 →
      incomplete w1.framer.config (buffered w1) ∧ w1.framer.config = w.framer.config := by
  induction rs with
  | nil =>
    intro w w1 hinv hw
    simp only [eframer_feed, Step.ret.injEq] at hw
    rw [← hw]
    exact ⟨hinv, rfl⟩
  | cons r rest ih =>
    intro w w1 hinv hw
    simp only [eframer_feed] at hw
    cases hp : eframer_process h w r with
    | ret w2 =>
      rw [hp] at hw
      simp only at hw
      have hcfg := eframer_process_config h hk w w2 r (by rw [hp]; rfl)
      obtain ⟨j1, j2⟩ := ih w2 w1 (eframer_process_ret_incomplete h hk w w2 r hinv hp) hw
      exact ⟨j1, by rw [j2, hcfg]⟩
    | exit st w2 =>
      rw [hp] at hw
      simp at hw
    | nofuel =>
      rw [hp] at hw
      simp at hw

/-- C18: if `max_rx_message_size ≥ 2` then, starting from an empty receive
buffer, after every `eframer_process` call that returns (whatever the reads
returned) the buffer holds no complete frame: fewer than 2 bytes are buffered,
or fewer than `2 + declared length`; and `index < max_rx_message_size`, so the
next `read` asks for at least one byte and takes at least one byte of any
input that is not empty. -/
theorem drained_and_never_full (h : Handler) (hk : KeepsReceiveSide h) (w w1 : World)
    (hmin : 2 ≤ w.framer.config.max_rx_message_size)
    (hsz : w.framer.config.max_rx_message_size < SIZE_MOD)
    (hempty : w.framer.index = 0)
    (rs : List ReadResult) (hrun : eframer_feed h rs w = Step.ret w1) :
    (w1.framer.index < HEADER_SIZE ∨
      w1.framer.index < HEADER_SIZE + declared_len (buffered w1)) ∧
    w1.framer.config = w.framer.config ∧
    w1.framer.index < w.framer.config.max_rx_message_size ∧
    1 ≤ size_sub w1.framer.config.max_rx_message_size w1.framer.index ∧
    ∀ bytes : List Nat, bytes ≠ [] →
      bytes.take (size_sub w1.framer.config.max_rx_message_size w1.framer.index) ≠ [] := by
  have hinv0 : incomplete w.framer.config (buffered w) :=
    Or.inl (by rw [buffered_length, hempty]; decide)
  obtain ⟨hinc, hcfg⟩ := eframer_feed_ret_incomplete h hk rs w w1 hinv0 hrun
  have hlt : w1.framer.index < w.framer.config.max_rx_message_size := by
    rcases hinc with h1 | ⟨h1, h2⟩
    · rw [buffered_length] at h1
      unfold HEADER_SIZE at h1
      omega
    · rw [buffered_length] at h2
      rw [hcfg] at h1
      omega
  have hcount : size_sub w1.framer.config.max_rx_message_size w1.framer.index =
      w1.framer.config.max_rx_message_size - w1.framer.index := by
    rw [hcfg]
    exact size_sub_small hsz (Nat.le_of_lt hlt)
  refine ⟨?_, hcfg, hlt, ?_, ?_⟩
  · rcases hinc with h1 | ⟨_, h2⟩
    · exact Or.inl (by rw [buffered_length] at h1; exact h1)
    · exact Or.inr (by rw [buffered_length] at h2; exact h2)
  · rw [hcount, hcfg]
    omega
  · intro bytes hne hcon
    rw [hcount, hcfg] at hcon
    cases bytes with
    | nil => exact hne rfl
    | cons b bs =>
      have hpos : w.framer.config.max_rx_message_size - w1.framer.index =
          (w.framer.config.max_rx_message_size - w1.framer.index - 1) + 1 := by omega
      rw [hpos, List.take_succ_cons] at hcon
      exact List.cons_ne_nil _ _ hcon

/-- An instance of `drained_and_never_full`: the sample bridge after a whole frame
followed by the first byte of the next one. -/
theorem drained_and_never_full_witness :
    ∃ w1, eframer_feed idle_handler [ReadResult.data [0, 1, 9, 0]] sample_bridge = Step.ret w1 ∧
      (w1.framer.index < HEADER_SIZE ∨
        w1.framer.index < HEADER_SIZE + declared_len (buffered w1)) ∧
      w1.framer.config = sample_bridge.framer.config ∧
      w1.framer.index < sample_bridge.framer.config.max_rx_message_size ∧
      1 ≤ size_sub w1.framer.config.max_rx_message_size w1.framer.index ∧
      ∀ bytes : List Nat, bytes ≠ [] →
        bytes.take (size_sub w1.framer.config.max_rx_message_size w1.framer.index) ≠ [] := by
  obtain ⟨w1, hw1⟩ : ∃ w1,
      eframer_feed idle_handler [ReadResult.data [0, 1, 9, 0]] sample_bridge = Step.ret w1 := by
    cases hrun : eframer_feed idle_handler [ReadResult.data [0, 1, 9, 0]] sample_bridge with
    | ret w1 => exact ⟨w1, rfl⟩
    | exit st w2 =>
      have hs : (eframer_feed idle_handler [ReadResult.data [0, 1, 9, 0]]
          sample_bridge).status = none := by decide
      rw [hrun] at hs
      simp [Step.status] at hs
    | nofuel =>
      have hs : ((eframer_feed idle_handler [ReadResult.data [0, 1, 9, 0]]
          sample_bridge).world).isSome = true := by decide
      rw [hrun] at hs
      simp [Step.world] at hs
  exact ⟨w1, hw1, drained_and_never_full idle_handler idle_handler_keeps sample_bridge w1
    (by decide) (by decide) rfl [ReadResult.data [0, 1, 9, 0]] hw1⟩

/-! ## Reassembly against the specification's reading of a stream -/

theorem ntohs_bytes_of_bytes (b0 b1 : Nat) (h0 : b0 < 256) (h1 : b1 < 256) :
    ntohs_bytes b0 b1 = be16 b0 b1 := by
  unfold ntohs_bytes be16
  rw [Nat.mod_eq_of_lt h0, Nat.mod_eq_of_lt h1]

theorem frame_bytes_of_header (b0 b1 : Nat) (P : List Nat) (h1 : b1 < 256)
    (hP : P.length = be16 b0 b1) : frame_bytes P = b0 :: b1 :: P := by
  unfold frame_bytes
  rw [hP]
  unfold be16
  have e0 : (b0 * 256 + b1) / 256 = b0 := by omega
  have e1 : (b0 * 256 + b1) % 256 = b1 := by omega
  rw [e0, e1]
  rfl

/-- What `spec_split` returns puts the stream back together, its payloads have
16-bit lengths, and its tail holds no complete frame. -/
theorem spec_split_decomposition :
    ∀ (fuel : Nat) (l : List Nat), l.length ≤ fuel → (∀ b ∈ l, b < 256) →
      l = frames_bytes (spec_split fuel l).1 ++ (spec_split fuel l).2 ∧
      (∀ P ∈ (spec_split fuel l).1, P.length < 65536) ∧
      ((spec_split fuel l).2.length < HEADER_SIZE ∨
        (spec_split fuel l).2.length <
          HEADER_SIZE + be16 ((spec_split fuel l).2.getD 0 0) ((spec_split fuel l).2.getD 1 0)) := by
  intro fuel
  induction fuel with
  | zero =>
    intro l hl _
    have hnil : l = [] := List.eq_nil_of_length_eq_zero (by omega)
    subst hnil
    simp [spec_split, HEADER_SIZE]
  | succ f ih =>
    intro l hl hb
    match l, hl, hb with
    | [], _, _ => simp [spec_split, HEADER_SIZE]
    | [b], _, _ => simp [spec_split, HEADER_SIZE]
    | b0 :: b1 :: rest, hl, hb =>
      have h0 : b0 < 256 := hb b0 (by simp)
      have h1 : b1 < 256 := hb b1 (by simp)
      by_cases hshort : rest.length < be16 b0 b1
      · simp only [spec_split, if_pos hshort, frames_bytes_nil, List.nil_append, true_and,
          List.not_mem_nil, false_implies, implies_true, List.length_cons,
          List.getD_cons_zero, List.getD_cons_succ]
        right
        unfold HEADER_SIZE
        omega
      · have hlen : (rest.drop (be16 b0 b1)).length ≤ f := by
          simp only [List.length_cons] at hl
          rw [List.length_drop]
          omega
        have hbytes : ∀ b ∈ rest.drop (be16 b0 b1), b < 256 := fun b hm =>
          hb b (List.mem_cons_of_mem _ (List.mem_cons_of_mem _ (List.mem_of_mem_drop hm)))
        obtain ⟨i1, i2, i3⟩ := ih (rest.drop (be16 b0 b1)) hlen hbytes
        have hPlen : (rest.take (be16 b0 b1)).length = be16 b0 b1 := by
          rw [List.length_take]
          omega
        simp only [spec_split, if_neg hshort]
        refine ⟨?_, ?_, i3⟩
        · rw [frames_bytes_cons, frame_bytes_of_header b0 b1 _ h1 hPlen, List.append_assoc,
            ← i1]
          simp
        · intro P hP
          rcases List.mem_cons.mp hP with hP1 | hP1
          · rw [hP1, hPlen]
            unfold be16
            omega
          · exact i2 P hP1

/-- A whole valid frame followed by anything is not an incomplete buffer. -/
theorem not_incomplete_frame (cfg : eframer_config) (P rest : List Nat)
    (hv : valid_payload cfg P) : ¬ incomplete cfg (frame_bytes P ++ rest) := by
  intro hinc
  have hd := declared_len_frame P rest hv.1
  rcases hinc with h1 | ⟨_, h2⟩
  · simp only [List.length_append, frame_bytes_length] at h1
    omega
  · rw [hd] at h2
    simp only [List.length_append, frame_bytes_length] at h2
    omega

/-- An initial part of an incomplete buffer is incomplete. -/
theorem incomplete_initial_part (cfg : eframer_config) (p r : List Nat)
    (hinc : incomplete cfg (p ++ r)) : incomplete cfg p := by
  by_cases h2 : p.length < HEADER_SIZE
  · exact Or.inl h2
  · right
    rcases hinc with h1 | ⟨h1, h3⟩
    · simp only [List.length_append] at h1
      omega
    · rw [declared_len_append p r (by omega)] at h1 h3
      simp only [List.length_append] at h3
      exact ⟨h1, by omega⟩

/-- An initial part of a stream of valid frames and an incomplete tail is itself
some of the frames followed by an incomplete tail. -/
theorem initial_part_decomposition (cfg : eframer_config) :
    ∀ (frames : List (List Nat)) (tail p r : List Nat),
      (∀ P ∈ frames, valid_payload cfg P) → incomplete cfg tail →
      p ++ r = frames_bytes frames ++ tail →
      ∃ F1 F2 t1, frames = F1 ++ F2 ∧ p = frames_bytes F1 ++ t1 ∧
        t1 ++ r = frames_bytes F2 ++ tail ∧ incomplete cfg t1 := by
  intro frames
  induction frames with
  | nil =>
    intro tail p r _ hinc hpr
    refine ⟨[], [], p, rfl, by simp, by simpa using hpr, ?_⟩
    rw [frames_bytes_nil, List.nil_append] at hpr
    rw [← hpr] at hinc
    exact incomplete_initial_part cfg p r hinc
  | cons P fs ih =>
    intro tail p r hv hinc hpr
    have hvP : valid_payload cfg P := hv P (List.mem_cons_self _ _)
    rw [frames_bytes_cons, List.append_assoc] at hpr
    rcases List.append_eq_append_iff.mp hpr with ⟨a, ha1, ha2⟩ | ⟨c, hc1, hc2⟩
    · -- `p` ends inside the first frame, or at its end
      by_cases hanil : a = []
      · subst hanil
        rw [List.append_nil] at ha1
        rw [List.nil_append] at ha2
        refine ⟨[P], fs, [], rfl, by simp [ha1], by simpa using ha2, Or.inl (by decide)⟩
      · refine ⟨[], P :: fs, p, rfl, by simp, ?_, ?_⟩
        · rw [frames_bytes_cons, List.append_assoc, ha1, ha2, List.append_assoc]
        · apply incomplete_of_proper_part cfg P p a hvP ha1.symm
          rw [ha1, List.length_append]
          have : 0 < a.length := List.length_pos.mpr hanil
          omega
    · -- `p` reaches past the first frame
      obtain ⟨F1, F2, t1, e1, e2, e3, e4⟩ := ih tail c r
        (fun Q hQ => hv Q (List.mem_cons_of_mem _ hQ)) hinc hc2.symm
      refine ⟨P :: F1, F2, t1, by rw [e1]; rfl, ?_, e3, e4⟩
      rw [hc1, e2, frames_bytes_cons, List.append_assoc]

/-! ## Handlers that can end the process -/

/-- With a healthy script the write loop returns, and what is left of the
script is healthy. -/
theorem eframer_send_loop_returns (len : Nat) (script : List SysRet) (hs : healthy script) :
    ∀ (wrote : Nat) (w : World),
      ∃ w1, eframer_send_loop len script wrote w = Step.ret w1 ∧ healthy w1.stdout_script := by
  induction script with
  | nil =>
    intro wrote w
    exact ⟨_, rfl, healthy_nil⟩
  | cons r rest ih =>
    intro wrote w
    have hrest : healthy rest := healthy_tail hs
    cases r with
    | err e =>
      have he : e = EINTR := hs e (List.mem_cons_self _ _)
      subst he
      by_cases hlt : wrote < len
      · obtain ⟨w1, h1, h2⟩ := ih hrest wrote { w with stdout_script := rest }
        exact ⟨w1, by simp only [eframer_send_loop, if_true, if_pos hlt, h1], h2⟩
      · exact ⟨{ w with stdout_script := rest },
          by simp only [eframer_send_loop, if_true, if_neg hlt], hrest⟩
    | ok n =>
      by_cases hlt : wrote + min n (len - wrote) < len
      · obtain ⟨w1, h1, h2⟩ := ih hrest (wrote + min n (len - wrote))
          { w with stdout := w.stdout ++ mem_read w.framer.tx wrote (min n (len - wrote)),
                   stdout_script := rest }
        exact ⟨w1, by simp only [eframer_send_loop, if_pos hlt, h1], h2⟩
      · exact ⟨{ w with stdout := w.stdout ++ mem_read w.framer.tx wrote (min n (len - wrote)),
                        stdout_script := rest },
          by simp only [eframer_send_loop, if_neg hlt], hrest⟩

/-- With a healthy script `eframer_send` returns, whatever the length, and what
is left of the script is healthy. -/
theorem eframer_send_returns (w : World) (n : Nat) (hs : healthy w.stdout_script) :
    ∃ w1, eframer_send w n = Step.ret w1 ∧ healthy w1.stdout_script := by
  unfold eframer_send
  exact eframer_send_loop_returns _ _ hs 0 _

theorem request_reply_returns (w : World) (n : Nat) (rc : SysRet)
    (hs : healthy w.stdout_script) :
    ∃ w1, request_reply w n rc = Step.ret w1 ∧ healthy w1.stdout_script := by
  cases rc with
  | ok m =>
    simp only [request_reply]
    exact eframer_send_returns _ _ (by simpa using hs)
  | err e =>
    simp only [request_reply]
    exact eframer_send_returns _ _ (by simpa using hs)

/-- The handler of the bridge returns on every request, well formed or not, as
long as no outbound write fails: its only way out of the process is the
`exit` of `eframer_send`. -/
theorem request_handler_returns : ReturnsWhile outbound_healthy request_handler := by
  constructor
  · intro request len w hI
    unfold outbound_healthy at hI
    unfold outbound_healthy
    by_cases hcmd : request 0 % 256 = CMD_WRITE
    · rw [request_handler_cmd_write request len w hcmd]
      by_cases hle : size_sub (size_sub len (request 1 % 256)) 2 ≤ w.max_tx_message
      · rw [if_pos hle]
        exact request_reply_returns _ _ _ (by rw [(dev_write_stdout _ _).2]; simpa using hI)
      · rw [if_neg hle]
        exact request_reply_returns _ _ _ (by simpa using hI)
    · refine ⟨tx_store (tx_store w 0 [NOTIF_RESPONSE]) 1
          (mem_read request 1 (request 1 % 256 + 1)), ?_, by simpa using hI⟩
      unfold request_handler
      simp only [if_neg hcmd]
  · intro w rx index calls hI
    exact hI

/-- C2: for every list of valid frames (each payload shorter than 65536 bytes
with `2 + length ≤ max_rx_message_size`) whose concatenation is at most
`max_rx_message_size` bytes long, and every handler that leaves the receive
side alone and returns while a condition `I` of the process holds (for
`request_handler`: while no outbound write fails), one `eframer_process` call
in a state where `I` holds, whose `read` delivers the whole concatenation into
an empty receive buffer, invokes the handler once per frame, in frame order,
each time on that frame's payload and length, leaves the buffered-byte count
at 0, and `I` still holds; with at least one frame the call returns. -/
theorem multi_frame_drain (h : Handler) (hk : KeepsReceiveSide h) (I : World → Prop)
    (hr : ReturnsWhile I h) (w : World) (frames : List (List Nat))
    (hI : I w)
    (hempty : w.framer.index = 0)
    (hsz : w.framer.config.max_rx_message_size < SIZE_MOD)
    (hvalid : ∀ P ∈ frames, valid_payload w.framer.config P)
    (htotal : (frames_bytes frames).length ≤ w.framer.config.max_rx_message_size) :
    ∃ w1, (eframer_process h w (ReadResult.data (frames_bytes frames))).world = some w1 ∧
      w1.calls = w.calls ++ frames.map (fun P => (P, P.length)) ∧
      w1.framer.index = 0 ∧
      I w1 ∧
      (frames ≠ [] →
        eframer_process h w (ReadResult.data (frames_bytes frames)) = Step.ret w1) := by
  cases frames with
  | nil =>
    refine ⟨w, ?_, by simp, hempty, hI, fun hcon => absurd rfl hcon⟩
    simp [eframer_process, Step.world]
  | cons P fs =>
    have hne : frames_bytes (P :: fs) ≠ [] := by
      intro hcon
      have := congrArg List.length hcon
      simp [HEADER_SIZE] at this
    have hproc := eframer_process_data h w (frames_bytes (P :: fs)) hsz hne (by omega)
    have hbuf := buffered_after_read w (frames_bytes (P :: fs))
    have hb0 : buffered w = [] := by
      unfold buffered
      rw [hempty]
      exact mem_read_zero _ _
    rw [hb0, List.nil_append] at hbuf
    obtain ⟨w1, h1, h2, h3, _, h5⟩ := eframer_drain_frames h hk I hr (P :: fs)
      { w with framer := { w.framer with
          rx := mem_write w.framer.rx w.framer.index (frames_bytes (P :: fs)),
          index := w.framer.index + (frames_bytes (P :: fs)).length } }
      [] (w.framer.index + (frames_bytes (P :: fs)).length + 1) hvalid (Or.inl (by decide))
      (by rw [hbuf, List.append_nil])
      (by
        have := frames_bytes_length_ge (P :: fs)
        omega)
      (hr.stable w _ _ w.calls hI)
    have hres : eframer_process h w (ReadResult.data (frames_bytes (P :: fs))) = Step.ret w1 :=
      hproc.trans h1
    refine ⟨w1, by rw [hres]; rfl, h2, ?_, h5, fun _ => hres⟩
    rw [← buffered_length, h3]
    rfl

/-- An instance of `multi_frame_drain` with the handler of the bridge: a write
request (token `42`, data `7, 8`) and an `ioctl` request in one read. -/
theorem multi_frame_drain_witness :
    ∃ w1, eframer_process request_handler sample_bridge
        (ReadResult.data (frames_bytes [[1, 1, 42, 7, 8], [2, 0]])) = Step.ret w1 ∧
      w1.calls = sample_bridge.calls ++
        [[1, 1, 42, 7, 8], [2, 0]].map (fun P => (P, P.length)) ∧
      w1.framer.index = 0 ∧
      outbound_healthy w1 := by
  obtain ⟨w1, _, a2, a3, a4, a5⟩ := multi_frame_drain request_handler request_handler_keeps
    outbound_healthy request_handler_returns sample_bridge [[1, 1, 42, 7, 8], [2, 0]]
    healthy_nil rfl (by decide)
    (by
      intro P hP
      simp only [List.mem_cons, List.mem_singleton, List.not_mem_nil, or_false] at hP
      rcases hP with rfl | rfl <;> exact ⟨by decide, by decide⟩)
    (by decide)
  exact ⟨w1, a5 (List.cons_ne_nil _ _), a2, a3, a4⟩

/-! ## Reassembly in chunks -/

theorem fits_free_space_cons (h : Handler) (c : List Nat) (cs : List (List Nat)) (w : World)
    (hf : fits_free_space h (c :: cs) w = true) :
    c ≠ [] ∧ c.length ≤ w.framer.config.max_rx_message_size - w.framer.index ∧
    ∀ w1, eframer_process h w (ReadResult.data c) = Step.ret w1 →
      fits_free_space h cs w1 = true := by
  simp only [fits_free_space, Bool.and_eq_true, Bool.not_eq_true', decide_eq_true_eq] at hf
  obtain ⟨⟨h1, h2⟩, h3⟩ := hf
  refine ⟨?_, h2, ?_⟩
  · intro hc
    rw [hc] at h1
    simp at h1
  · intro w1 hw1
    rw [hw1] at h3
    exact h3

/-- Successive `eframer_process` calls on a stream of valid frames followed by an
incomplete tail, cut into chunks that fit, with a handler that returns while
`I` holds: every frame is dispatched, in order, and the tail is left at the
front of the buffer. -/
theorem eframer_feed_stream (h : Handler) (hk : KeepsReceiveSide h) (I : World → Prop)
    (hr : ReturnsWhile I h) :
    ∀ (chunks : List (List Nat)) (w : World) (frames : List (List Nat)) (tail : List Nat),
      I w →
      w.framer.config.max_rx_message_size < SIZE_MOD →
      (∀ P ∈ frames, valid_payload w.framer.config P) →
      incomplete w.framer.config tail →
      incomplete w.framer.config (buffered w) →
      buffered w ++ chunks.flatten = frames_bytes frames ++ tail →
      fits_free_space h chunks w = true →
      ∃ w1, eframer_feed h (chunks.map ReadResult.data) w = Step.ret w1 ∧
        w1.calls = w.calls ++ frames.map (fun P => (P, P.length)) ∧
        buffered w1 = tail ∧ w1.framer.config = w.framer.config ∧ I w1 := by
  intro chunks
  induction chunks with
  | nil =>
    intro w frames tail hI _ hv _ hbuf hb _
    simp only [List.flatten_nil, List.append_nil] at hb
    cases frames with
    | nil =>
      refine ⟨w, rfl, by simp, by simpa using hb, rfl, hI⟩
    | cons P fs =>
      rw [hb, frames_bytes_cons, List.append_assoc] at hbuf
      exact absurd hbuf (not_incomplete_frame _ P _ (hv P (List.mem_cons_self _ _)))
  | cons c cs ih =>
    intro w frames tail hI hsz hv hinc _ hb hfit
    obtain ⟨hc, hroom, hnext⟩ := fits_free_space_cons h c cs w hfit
    have hcpos : 0 < c.length := List.length_pos.mpr hc
    have hfit2 : w.framer.index + c.length ≤ w.framer.config.max_rx_message_size := by omega
    have hb2 : (buffered w ++ c) ++ cs.flatten = frames_bytes frames ++ tail := by
      rw [List.append_assoc]
      simpa using hb
    obtain ⟨F1, F2, t1, e1, e2, e3, e4⟩ := initial_part_decomposition w.framer.config frames
      tail (buffered w ++ c) cs.flatten hv hinc hb2
    have hvF1 : ∀ P ∈ F1, valid_payload w.framer.config P := fun P hP =>
      hv P (by rw [e1]; exact List.mem_append_left _ hP)
    have hvF2 : ∀ P ∈ F2, valid_payload w.framer.config P := fun P hP =>
      hv P (by rw [e1]; exact List.mem_append_right _ hP)
    have hproc := eframer_process_data h w c hsz hc hfit2
    have hbuf := buffered_after_read w c
    have hfuel : F1.length < w.framer.index + c.length + 1 := by
      have h1 := frames_bytes_length_ge F1
      have h2 := congrArg List.length e2
      simp only [List.length_append, buffered_length] at h2
      omega
    obtain ⟨w1, d1, d2, d3, d4, d5⟩ := eframer_drain_frames h hk I hr F1
      { w with framer := { w.framer with
          rx := mem_write w.framer.rx w.framer.index c,
          index := w.framer.index + c.length } }
      t1 (w.framer.index + c.length + 1) hvF1 e4 (by rw [hbuf]; exact e2) hfuel
      (hr.stable w _ _ w.calls hI)
    have hcfg : w1.framer.config = w.framer.config := d4
    have hstep : eframer_process h w (ReadResult.data c) = Step.ret w1 := hproc.trans d1
    obtain ⟨w2, f1, f2, f3, f4, f5⟩ := ih w1 F2 tail d5 (by rw [hcfg]; exact hsz)
      (by rw [hcfg]; exact hvF2) (by rw [hcfg]; exact hinc) (by rw [hcfg, d3]; exact e4)
      (by rw [d3]; exact e3) (hnext w1 hstep)
    refine ⟨w2, ?_, ?_, f3, by rw [f4, hcfg], f5⟩
    · rw [List.map_cons, eframer_feed_cons_ret h _ _ w w1 hstep]
      exact f1
    · rw [f2, d2, e1]
      simp

/-- The specification's reading of a stream of bytes without oversize frame:
valid frames followed by an incomplete tail. -/
theorem spec_split_valid (cfg : eframer_config) (s : List Nat) (hbytes : ∀ b ∈ s, b < 256)
    (hno : no_oversize cfg s) :
    s = frames_bytes (spec_payloads s) ++ spec_tail s ∧
    (∀ P ∈ spec_payloads s, valid_payload cfg P) ∧ incomplete cfg (spec_tail s) := by
  obtain ⟨i1, i2, i3⟩ := spec_split_decomposition s.length s (Nat.le_refl _) hbytes
  refine ⟨i1, fun P hP => ⟨i2 P hP, hno.1 P hP⟩, ?_⟩
  by_cases hshort : (spec_tail s).length < HEADER_SIZE
  · exact Or.inl hshort
  · right
    have hmem : ∀ b ∈ spec_tail s, b < 256 := fun b hb =>
      hbytes b (by rw [i1]; exact List.mem_append_right _ hb)
    have hl : HEADER_SIZE ≤ (spec_tail s).length := by omega
    unfold HEADER_SIZE at hl
    have hb0 : (spec_tail s).getD 0 0 < 256 := by
      rw [List.getD_eq_getElem _ _ (by omega)]
      exact hmem _ (List.getElem_mem _)
    have hb1 : (spec_tail s).getD 1 0 < 256 := by
      rw [List.getD_eq_getElem _ _ (by omega)]
      exact hmem _ (List.getElem_mem _)
    have hd : declared_len (spec_tail s) =
        be16 ((spec_tail s).getD 0 0) ((spec_tail s).getD 1 0) :=
      ntohs_bytes_of_bytes _ _ hb0 hb1
    rw [hd]
    refine ⟨hno.2 (by unfold HEADER_SIZE; omega), ?_⟩
    rcases i3 with h1 | h1
    · exact absurd h1 hshort
    · exact h1

/-- C15: for every stream of bytes in which no oversize frame is met and every
way of cutting it into non-empty chunks, each no larger than the free space
`max_rx_message_size - index` at the call that reads it, successive
`eframer_process` calls from an empty buffer, with a handler that leaves the
receive side alone and returns while a condition `I` of the process holds (for
`request_handler`: while no outbound write fails), started where `I` holds,
all return and invoke the handler on exactly the payloads, in order, of the
longest run of complete frames at the start of the stream, and leave exactly
the remaining bytes, the incomplete tail, at the front of the receive buffer;
so a second such chunking of the same stream gives the same handler calls and
the same buffer contents. -/
theorem chunk_boundary_independence (h : Handler) (hk : KeepsReceiveSide h)
    (I : World → Prop) (hr : ReturnsWhile I h)
    (w : World) (chunks chunks2 : List (List Nat))
    (hI : I w)
    (hempty : w.framer.index = 0)
    (hsz : w.framer.config.max_rx_message_size < SIZE_MOD)
    (hbytes : ∀ b ∈ chunks.flatten, b < 256)
    (hno : no_oversize w.framer.config chunks.flatten)
    (hfit : fits_free_space h chunks w = true) :
    ∃ w1, eframer_feed h (chunks.map ReadResult.data) w = Step.ret w1 ∧
      w1.calls = w.calls ++ (spec_payloads chunks.flatten).map (fun P => (P, P.length)) ∧
      buffered w1 = spec_tail chunks.flatten ∧
      I w1 ∧
      (chunks2.flatten = chunks.flatten → fits_free_space h chunks2 w = true →
        ∃ w2, eframer_feed h (chunks2.map ReadResult.data) w = Step.ret w2 ∧
          w2.calls = w1.calls ∧ buffered w2 = buffered w1) := by
  obtain ⟨s1, s2, s3⟩ := spec_split_valid w.framer.config chunks.flatten hbytes hno
  have hb0 : buffered w = [] := by
    unfold buffered
    rw [hempty]
    exact mem_read_zero _ _
  have hinc0 : incomplete w.framer.config (buffered w) := by
    rw [hb0]
    exact Or.inl (by decide)
  obtain ⟨w1, a1, a2, a3, _, a5⟩ := eframer_feed_stream h hk I hr chunks w
    (spec_payloads chunks.flatten) (spec_tail chunks.flatten) hI hsz s2 s3 hinc0
    (by rw [hb0, List.nil_append]; exact s1) hfit
  refine ⟨w1, a1, a2, a3, a5, ?_⟩
  intro hsame hfit2
  obtain ⟨w2, b1, b2, b3, _⟩ := eframer_feed_stream h hk I hr chunks2 w
    (spec_payloads chunks.flatten) (spec_tail chunks.flatten) hI hsz s2 s3 hinc0
    (by rw [hb0, List.nil_append, hsame]; exact s1) hfit2
  exact ⟨w2, b1, by rw [b2, a2], by rw [b3, a3]⟩

/-- An instance of `chunk_boundary_independence` with the handler of the bridge:
a write request (token `42`, data `7, 8`), an `ioctl` request and one byte of
a third frame, cut in two different ways. -/
theorem chunk_boundary_independence_witness :
    ∃ w1, eframer_feed request_handler
        ([[0, 5, 1, 1], [42, 7, 8, 0, 2, 2, 0, 0]].map ReadResult.data) sample_bridge =
          Step.ret w1 ∧
      w1.calls = sample_bridge.calls ++
        (spec_payloads [[0, 5, 1, 1], [42, 7, 8, 0, 2, 2, 0, 0]].flatten).map
          (fun P => (P, P.length)) ∧
      buffered w1 = spec_tail [[0, 5, 1, 1], [42, 7, 8, 0, 2, 2, 0, 0]].flatten ∧
      outbound_healthy w1 ∧
      ∃ w2, eframer_feed request_handler
          ([[0], [5, 1, 1, 42, 7, 8, 0], [2, 2, 0, 0]].map ReadResult.data) sample_bridge =
            Step.ret w2 ∧
        w2.calls = w1.calls ∧ buffered w2 = buffered w1 := by
  obtain ⟨w1, a1, a2, a3, a4, a5⟩ := chunk_boundary_independence request_handler
    request_handler_keeps outbound_healthy request_handler_returns sample_bridge
    [[0, 5, 1, 1], [42, 7, 8, 0, 2, 2, 0, 0]] [[0], [5, 1, 1, 42, 7, 8, 0], [2, 2, 0, 0]]
    healthy_nil rfl (by decide) (by decide) ⟨by decide, by decide⟩ (by decide)
  exact ⟨w1, a1, a2, a3, a4, a5 rfl (by decide)⟩

end Qmi
